import Mathlib

/-!
# CS61 problem sets: WeensyOS kernel, buffered I/O, debugging allocator

Shallow embeddings of `src/pset3/kernel.cc` (namespace `Weensy`), of `io61_fill` and
`io61_read` of `src/pset4/io61.cc` (namespace `Io61`) and of `m61_malloc`,
`m61_free` and `m61_calloc` of `src/pset1/m61.cc` (namespace `M61`).

For the kernel, physical addresses, virtual addresses and reference counts are
natural numbers.  The constants and helper declarations of the headers
`kernel.hh` / `k-vmiter.hh` / `x86-64.h` are not part of the sources; they are
collected in `Config` and every definition is parametric in it.  `PAGESIZE` is
fixed to 4096: `syscall_page_alloc` uses the literal `4096` interchangeably with
`PAGESIZE`.
-/

set_option autoImplicit false

/-! ## Buffered I/O (pset4/io61.cc) -/

namespace Io61

/-- The size of the cache (`cach_size`). -/
def cach_size : Nat := 16384

/-- The value of a `size_t` converted to `int` (`(signed) sz`, `(int) (sz - nread)`). -/
def toInt32 (n : Nat) : Int :=
  if n % 2 ^ 32 < 2 ^ 31 then (n % 2 ^ 32 : Nat) else (n % 2 ^ 32 : Nat) - 2 ^ 32

/-- The value of an unsigned 64-bit quantity converted to `ssize_t`. -/
def toInt64 (n : Nat) : Int :=
  if n % 2 ^ 64 < 2 ^ 63 then (n % 2 ^ 64 : Nat) else (n % 2 ^ 64 : Nat) - 2 ^ 64

/-- The value of an `off_t` converted to `size_t`. -/
def toSize (i : Int) : Nat :=
  (i % 2 ^ 64).toNat

/-- The open file behind the descriptor `fd`: a regular file with contents `bytes`
and the kernel's file offset `pos`. -/
structure Fd where
  bytes : List Nat
  pos : Nat

/-- The system call `lseek(fd, off, SEEK_SET)`. -/
def lseek (fd : Fd) (off : Int) : Fd :=
  { fd with pos := off.toNat }

/-- The system call `read(fd, buf, n)` on a regular file, returning all the bytes
available: the bytes read and the descriptor with its offset advanced. -/
def sysRead (fd : Fd) (n : Nat) : List Nat × Fd :=
  ((fd.bytes.drop fd.pos).take n,
   { fd with pos := fd.pos + ((fd.bytes.drop fd.pos).take n).length })

/-- The effect of `memcpy(dst + off, data, data.length)` on the byte array `dst`. -/
def store (dst : Nat → Nat) (off : Nat) (data : List Nat) : Nat → Nat :=
  fun i => if off ≤ i ∧ i < off + data.length then data.getD (i - off) 0 else dst i

/-- The bytes `src[off .. off + n - 1]`. -/
def load (src : Nat → Nat) (off n : Nat) : List Nat :=
  (List.range n).map (fun i => src (off + i))

/-- The structure `io61_file`. -/
structure io61_file where
  fd : Fd
  cach : Nat → Nat
  start_tag : Int
  end_tag : Int
  cur_tag : Int
  mode : Int

/-- `io61_fdopen(fd, mode)`. -/
def io61_fdopen (fd : Fd) (mode : Int) : io61_file :=
  { fd := fd, cach := fun _ => 0, start_tag := 0, end_tag := 0, cur_tag := 0, mode := mode }

/-- `io61_fill(f)`. -/
def io61_fill (f : io61_file) : io61_file :=
  let cur := f.end_tag
  let e := Int.tdiv f.end_tag cach_size * cach_size
  let r := sysRead (lseek f.fd e) cach_size
  if r.1.length > 0 then
    { f with fd := r.2, cach := store f.cach 0 r.1, cur_tag := cur, start_tag := e,
             end_tag := e + r.1.length }
  else
    { f with fd := r.2, cur_tag := cur, start_tag := cur, end_tag := cur }

/-- `io61_read(f, buf, sz)`: the returned `ssize_t`, the buffer and the file. -/
def io61_read (f : io61_file) (buf : Nat → Nat) (sz : Nat) : Int × (Nat → Nat) × io61_file :=
  if toInt32 sz ≤ f.end_tag - f.cur_tag then
    (toInt64 sz, store buf 0 (load f.cach (toSize (f.cur_tag - f.start_tag)) sz),
      { f with cur_tag := f.cur_tag + sz })
  else
    let nread := toSize (f.end_tag - f.cur_tag)
    let buf1 := store buf 0 (load f.cach (toSize (f.cur_tag - f.start_tag)) nread)
    if (sz + 2 ^ 64 - nread) % 2 ^ 64 > cach_size then
      let r := sysRead f.fd ((sz + 2 ^ 64 - nread) % 2 ^ 64)
      let nread2 := (nread + r.1.length) % 2 ^ 64
      (toInt64 nread2, store buf1 nread r.1,
        { f with fd := r.2, cur_tag := f.cur_tag + nread2, start_tag := f.cur_tag + nread2,
                 end_tag := f.cur_tag + nread2 })
    else
      let f2 := io61_fill { f with cur_tag := f.cur_tag + nread }
      if toInt32 ((sz + 2 ^ 64 - nread) % 2 ^ 64) ≤ f2.end_tag - f2.cur_tag then
        (toInt64 sz,
          store buf1 nread (load f2.cach (toSize (f2.cur_tag - f2.start_tag))
            ((sz + 2 ^ 64 - nread) % 2 ^ 64)),
          { f2 with cur_tag := f2.cur_tag + ((sz + 2 ^ 64 - nread) % 2 ^ 64 : Nat) })
      else
        let buf2 := store buf1 nread (load f2.cach (toSize (f2.cur_tag - f2.start_tag))
          (toSize (f2.end_tag - f2.cur_tag)))
        let f3 : io61_file := { f2 with cur_tag := f2.end_tag }
        (toInt64 ((nread + toSize (f3.end_tag - f3.cur_tag)) % 2 ^ 64), buf2, f3)

/-- A freshly opened read-only file of ten bytes. -/
def tenBytes : io61_file :=
  io61_fdopen ⟨[11, 12, 13, 14, 15, 16, 17, 18, 19, 20], 0⟩ 0

end Io61

/-! ## Debugging allocator (pset1/m61.cc) -/

namespace M61

/-- Reduction of an `unsigned long long` / `size_t` / `uintptr_t` result. -/
def u64 (n : Nat) : Nat := n % 2 ^ 64

/-- The value of a `size_t` stored into an `int` (the mapped type of `main_meta`). -/
def toInt (n : Nat) : Int :=
  if n % 2 ^ 32 < 2 ^ 31 then (n % 2 ^ 32 : Nat) else (n % 2 ^ 32 : Nat) - 2 ^ 32

/-- The value of an `int` converted to a 64-bit unsigned quantity. -/
def ofInt (i : Int) : Nat :=
  (i % 2 ^ 64).toNat

/-- The global state of the allocator: the statistics counters, the heap bounds, the
size table `main_meta` (an absent key reads as 0, as `operator[]` yields), the
doubly linked list `link_map` (an absent key reads as two null pointers), `last_ptr`
and the bytes of memory.  The tables `meta_leak` and `meta_hh` only feed the reports
and are left out. -/
structure State where
  nactive : Nat
  active_size : Nat
  ntotal : Nat
  total_size : Nat
  nfail : Nat
  fail_size : Nat
  heap_min : Nat
  heap_max : Nat
  first_malloc : Bool
  main_meta : Nat → Int
  link_map : Nat → Nat × Nat
  last_ptr : Nat
  mem : Nat → Nat

/-- The state at program start (zero-initialised globals; `first_malloc = 1`). -/
def State.init : State :=
  { nactive := 0, active_size := 0, ntotal := 0, total_size := 0, nfail := 0, fail_size := 0,
    heap_min := 0, heap_max := 0, first_malloc := true, main_meta := fun _ => 0,
    link_map := fun _ => (0, 0), last_ptr := 0, mem := fun _ => 0 }

/-- Update of a table at one key. -/
def setKey {α : Type} (f : Nat → α) (k : Nat) (v : α) : Nat → α :=
  fun i => if i = k then v else f i

/-- The effect of copying the 8 bytes of `h = -1` to address `a` (`memcpy(a, &h, 8)`). -/
def putMagic (mem : Nat → Nat) (a : Nat) : Nat → Nat :=
  fun i => if a ≤ i ∧ i < a + 8 then 255 else mem i

/-- Whether the 8 bytes at `a` equal those of `h = -1` (`memcmp(a, &h, 8) == 0`). -/
def hasMagic (mem : Nat → Nat) (a : Nat) : Bool :=
  (List.range 8).all (fun i => mem (a + i) == 255)

/-- `m61_malloc(sz, file, line)`, where `p` is what `base_malloc(sz + 16)` returns
(0 for `nullptr`): the returned pointer and the new state. -/
def m61_malloc (sz : Nat) (p : Nat) (st : State) : Nat × State :=
  if u64 (sz + 16) < sz then
    (0, { st with nfail := u64 (st.nfail + 1), fail_size := u64 (st.fail_size + sz) })
  else if p ≠ 0 then
    let st1 : State :=
      { st with
        nactive := u64 (st.nactive + 1), active_size := u64 (st.active_size + sz),
        main_meta := setKey st.main_meta p (toInt sz),
        ntotal := u64 (st.ntotal + 1), total_size := u64 (st.total_size + sz),
        mem := putMagic (putMagic st.mem (u64 (p + sz))) (u64 (p + sz + 8)) }
    if st1.first_malloc then
      (p, { st1 with
            link_map := setKey st1.link_map p (0, 0), last_ptr := p, first_malloc := false,
            heap_min := p, heap_max := u64 (p + sz + 16) })
    else
      let l1 := setKey st1.link_map st1.last_ptr ((st1.link_map st1.last_ptr).1, p)
      (p, { st1 with
            link_map := setKey l1 p (st1.last_ptr, 0), last_ptr := p,
            heap_min := min st1.heap_min p, heap_max := max st1.heap_max (u64 (p + sz + 16)) })
  else
    (0, { st with nfail := u64 (st.nfail + 1), fail_size := u64 (st.fail_size + sz) })

/-- The reports `m61_free` prints before `abort()`. -/
inductive Bug where
  | not_allocated
  | not_in_heap
  | double_free
  | wild_write
deriving DecidableEq, Repr

/-- How a call of `m61_free` ends: it returns, or it reports a `MEMORY BUG` and
aborts the program. -/
inductive FreeResult where
  | done (st : State)
  | abort (bug : Bug)

/-- `m61_free(ptr, file, line)`.  (`base_free` itself is not part of the sources.) -/
def m61_free (ptr : Nat) (st : State) : FreeResult :=
  if ptr = 0 then FreeResult.done st
  else if st.main_meta ptr = 0 then
    if ptr ≥ st.heap_min ∧ ptr ≤ st.heap_max then FreeResult.abort Bug.not_allocated
    else FreeResult.abort Bug.not_in_heap
  else
    let previous := (st.link_map ptr).1
    let next := (st.link_map ptr).2
    if (previous ≠ 0 ∧ (st.link_map previous).2 ≠ ptr) ∨
        (next ≠ 0 ∧ (st.link_map next).1 ≠ ptr) ∨ st.last_ptr = 0 then
      FreeResult.abort Bug.double_free
    else if hasMagic st.mem (u64 (ptr + ofInt (st.main_meta ptr))) = false ∨
        hasMagic st.mem (u64 (ptr + ofInt (st.main_meta ptr) + 8)) = false then
      FreeResult.abort Bug.wild_write
    else
      let l1 := if previous ≠ 0 then setKey st.link_map previous ((st.link_map previous).1, next)
                else st.link_map
      let l2 := if next ≠ 0 then setKey l1 next (previous, (l1 next).2) else l1
      FreeResult.done
        { st with
          link_map := l2, last_ptr := if ptr = st.last_ptr then previous else st.last_ptr,
          nactive := u64 (st.nactive + 2 ^ 64 - 1),
          active_size := u64 (st.active_size + 2 ^ 64 - ofInt (st.main_meta ptr)),
          main_meta := setKey st.main_meta ptr (-1) }

/-- How a call of `m61_calloc` ends: it returns a pointer, or the program is stopped
by the integer division by zero in its overflow check. -/
inductive CallocResult where
  | ret (ptr : Nat) (st : State)
  | divide_error

/-- The effect of `memset(ptr, 0, n)`. -/
def zero (mem : Nat → Nat) (ptr n : Nat) : Nat → Nat :=
  fun i => if ptr ≤ i ∧ i < ptr + n then 0 else mem i

/-- `m61_calloc(nmemb, sz, file, line)`, where `p` is what `base_malloc` returns. -/
def m61_calloc (nmemb sz : Nat) (p : Nat) (st : State) : CallocResult :=
  if sz = 0 then CallocResult.divide_error
  else if nmemb ≤ 18446744073709551615 / sz then
    let r := m61_malloc (u64 (nmemb * sz)) p st
    if r.1 ≠ 0 then CallocResult.ret r.1 { r.2 with mem := zero r.2.mem r.1 (u64 (nmemb * sz)) }
    else CallocResult.ret r.1 r.2
  else
    CallocResult.ret 0
      { st with nfail := u64 (st.nfail + 1), fail_size := u64 (st.fail_size + u64 (sz * nmemb)) }

end M61

/-! ## WeensyOS kernel (pset3/kernel.cc) -/

namespace Weensy

/-- The page size of the machine (`PAGESIZE`). -/
def PAGESIZE : Nat := 4096

/-- The value `(uintptr_t) -1`, returned by `vmiter::pa()` for an unmapped address. -/
def UINTPTR_MAX : Nat := 2 ^ 64 - 1

/-- Constants and helper predicates declared in headers that are not under `src/`. -/
structure Config where
  /-- Size of physical memory (`MEMSIZE_PHYSICAL`). -/
  MEMSIZE_PHYSICAL : Nat
  /-- Size of each virtual address space (`MEMSIZE_VIRTUAL`). -/
  MEMSIZE_VIRTUAL : Nat
  /-- First address of process memory (`PROC_START_ADDR`). -/
  PROC_START_ADDR : Nat
  /-- Physical address of the console frame (`CONSOLE_ADDR`). -/
  CONSOLE_ADDR : Nat
  /-- Number of process-table slots (`NPROC`). -/
  NPROC : Nat
  /-- The predicate `allocatable_physical_address(pa)`. -/
  allocatable_physical_address : Nat → Bool
  /-- Address span covered by one page-table node of each lower level, top level
  first (on x86-64: `2^39`, `2^30`, `2^21`). -/
  ptspans : List Nat
  /-- Interrupt number of the timer (`INT_IRQ + IRQ_TIMER`). -/
  INT_TIMER : Nat
  /-- Interrupt number of a page fault (`INT_PF`). -/
  INT_PF : Nat
  /-- Error-code bit of a fault taken in user mode (`PFERR_USER`). -/
  PFERR_USER : Nat
  /-- System call number `SYSCALL_PANIC`. -/
  SYSCALL_PANIC : Nat
  /-- System call number `SYSCALL_GETPID`. -/
  SYSCALL_GETPID : Nat
  /-- System call number `SYSCALL_YIELD`. -/
  SYSCALL_YIELD : Nat
  /-- System call number `SYSCALL_PAGE_ALLOC`. -/
  SYSCALL_PAGE_ALLOC : Nat
  /-- System call number `SYSCALL_FORK`. -/
  SYSCALL_FORK : Nat
  /-- System call number `SYSCALL_EXIT`. -/
  SYSCALL_EXIT : Nat
  /-- Number of physical frames (`NPAGES`), the length of `pages[]` and of
  `should_free[]`. -/
  NPAGES : Nat

/-- Permission bits of a mapping: `PTE_P`, `PTE_W`, `PTE_U`. -/
structure Perm where
  p : Bool
  w : Bool
  u : Bool
deriving DecidableEq, Repr

/-- The permission value `0`. -/
def Perm.none : Perm := ⟨false, false, false⟩

/-- The permission value `PTE_P | PTE_W | PTE_U`. -/
def PTE_PWU : Perm := ⟨true, true, true⟩

/-- The permission value `PTE_P | PTE_W`. -/
def PTE_PW : Perm := ⟨true, true, false⟩

/-- The permission value `PTE_P | PTE_U`. -/
def PTE_PU : Perm := ⟨true, false, true⟩

/-- A leaf page-table entry: physical frame number and permission bits. -/
structure PTE where
  frame : Nat
  perm : Perm
deriving DecidableEq, Repr

/-- Modelled from the spec: the page-table structure (`x86_64_pagetable`, walked by
`vmiter` and `ptiter` of `k-vmiter.hh`) is not in the sources.  Following the
spec's data model an address space is a mapping from virtual page number to
(physical frame, permission bits), realised by a structure that is "itself built
from frames": `root` is the address of the top-level table, `nodes` lists the
lower-level table frames (keyed by level and covered region) in allocation order,
`entries` holds the leaf entries by virtual page number.
The contents of the table are kept in this value and not in the bytes of
`KState.mem`.  The value is the table the code has in memory as long as no store
reaches a frame that holds the table (`tableFrames`).  Two stores of `kernel.cc` can
reach such a frame: the zero-fill of `kalloc` when it hands out a frame that still
holds a table in use (possible once `sys_exit` has freed a frame that is still
referenced), and the copy loop of `process_setup` when its destination range runs
into a table node (`CopyReaches`, `CopyCovers`).  What the code's table looks like
after such a store is not shown by the value. -/
structure PageTable where
  root : Nat
  nodes : List ((Nat × Nat) × Nat)
  entries : Nat → PTE

/-- The null page-table handle / an all-zero top-level table at address `root`. -/
def PageTable.empty (root : Nat) : PageTable :=
  { root := root, nodes := [], entries := fun _ => ⟨0, Perm.none⟩ }

/-- Process states (`procstate_t`). -/
inductive ProcState where
  | P_FREE
  | P_RUNNABLE
  | P_BROKEN
deriving DecidableEq, Repr

/-- Saved registers (`regstate`), restricted to the registers named in `kernel.cc`
plus the remaining general-purpose registers. -/
structure Regs where
  reg_rax : Nat
  reg_rbx : Nat
  reg_rcx : Nat
  reg_rdx : Nat
  reg_rsi : Nat
  reg_rdi : Nat
  reg_rbp : Nat
  reg_rsp : Nat
  reg_rip : Nat
  reg_intno : Nat
  reg_errcode : Nat
deriving DecidableEq, Repr

/-- Process descriptor (`proc`). -/
structure Proc where
  pid : Nat
  state : ProcState
  regs : Regs
  pagetable : PageTable

/-- Kernel state: `pages[]` (reference count by frame number), `next_alloc_pa`,
physical memory bytes, `ptable[]` and `current` (as a slot index). -/
structure KState where
  pages : Nat → Nat
  next_alloc_pa : Nat
  mem : Nat → Nat
  ptable : Nat → Proc
  current : Nat

/-- Array/map update at one index. -/
def setAt {α : Type} (f : Nat → α) (i : Nat) (v : α) : Nat → α :=
  fun j => if j = i then v else f j

/-- The effect of `memset((void*) pa, v, n)` on memory. -/
def memset (mem : Nat → Nat) (pa v n : Nat) : Nat → Nat :=
  fun a => if pa ≤ a ∧ a < pa + n then v else mem a

/-- The effect of `memcpy((void*) dst, (void*) src, n)` on memory. -/
def memcpy (mem : Nat → Nat) (dst src n : Nat) : Nat → Nat :=
  fun a => if dst ≤ a ∧ a < dst + n then mem (src + (a - dst)) else mem a

/-! ## Frame allocator -/

/-- The `while` loop of `kalloc`; the result `0` is `nullptr`.  Each iteration
advances `next_alloc_pa` by `PAGESIZE`, so `fuel` bounds the iterations. -/
def kallocLoop (c : Config) : Nat → KState → Nat × KState
  | 0, s => (0, s)
  | fuel + 1, s =>
    if s.next_alloc_pa < c.MEMSIZE_PHYSICAL then
      let pa := s.next_alloc_pa
      let s1 : KState := { s with next_alloc_pa := pa + PAGESIZE }
      if c.allocatable_physical_address pa = true ∧ s1.pages (pa / PAGESIZE) = 0 then
        (pa, { s1 with pages := setAt s1.pages (pa / PAGESIZE) 1,
                       mem := memset s1.mem pa 0 PAGESIZE })
      else kallocLoop c fuel s1
    else (0, s)

/-- `kalloc(sz)`: returns the address (or `0` for `nullptr`) and the new state. -/
def kalloc (c : Config) (sz : Nat) (s : KState) : Nat × KState :=
  if sz > PAGESIZE then (0, s) else kallocLoop c (c.MEMSIZE_PHYSICAL + 1) s

/-- `kfree(kptr)`. -/
def kfree (c : Config) (kptr : Nat) (s : KState) : KState :=
  if kptr = 0 then s
  else
    let s1 : KState :=
      if s.next_alloc_pa > kptr ∧ c.allocatable_physical_address kptr = true then
        { s with next_alloc_pa := kptr }
      else s
    { s1 with pages := setAt s1.pages (kptr / PAGESIZE) 0 }

/-- `arrfree(p, index)` where `p[0..index-1]` is the list `sf`: frees the entries
from the last one down to the first. -/
def arrfree (c : Config) (sf : List Nat) (s : KState) : KState :=
  sf.foldr (fun p acc => kfree c p acc) s

/-! ## Page-table primitives -/

/-- Modelled from the spec: `vmiter::present()` of the missing `k-vmiter.hh`. -/
def vm_present (pt : PageTable) (va : Nat) : Bool :=
  (pt.entries (va / PAGESIZE)).perm.p

/-- Modelled from the spec: `vmiter::perm()`, the permissions of the mapping
(`0` when the page is not present). -/
def vm_perm (pt : PageTable) (va : Nat) : Perm :=
  if vm_present pt va then (pt.entries (va / PAGESIZE)).perm else Perm.none

/-- Modelled from the spec: `vmiter::writable()`. -/
def vm_writable (pt : PageTable) (va : Nat) : Bool :=
  vm_present pt va && (pt.entries (va / PAGESIZE)).perm.w

/-- Modelled from the spec: `vmiter::user()`. -/
def vm_user (pt : PageTable) (va : Nat) : Bool :=
  vm_present pt va && (pt.entries (va / PAGESIZE)).perm.u

/-- Modelled from the spec: `vmiter::pa()`, the physical address `va` translates
to, or `(uintptr_t) -1` when the page is not present. -/
def vm_pa (pt : PageTable) (va : Nat) : Nat :=
  if vm_present pt va then (pt.entries (va / PAGESIZE)).frame * PAGESIZE + va % PAGESIZE
  else UINTPTR_MAX

/-- Modelled from the spec: the keys (level, covered region) of the lower-level table
nodes on the path to `va`, top level first. -/
def nodeKeys : Nat → List Nat → Nat → List (Nat × Nat)
  | _, [], _ => []
  | lvl, span :: rest, va => (lvl, va / span) :: nodeKeys (lvl + 1) rest va

/-- Modelled from the spec: the keys of the table nodes needed to map `va`. -/
def nodePath (c : Config) (va : Nat) : List (Nat × Nat) :=
  nodeKeys 0 c.ptspans va

/-- Modelled from the spec: whether the table already has the node with key `k`. -/
def PageTable.hasNode (pt : PageTable) (k : Nat × Nat) : Bool :=
  pt.nodes.any (fun n => n.1 == k)

/-- Result of `try_map`: the returned `int`, the kernel state (the call may allocate
frames) and the table it worked on. -/
structure MapResult where
  ret : Int
  s : KState
  pt : PageTable

/-- Modelled from the spec: the part of `vmiter::try_map` that creates the missing
table nodes on the path, each in a frame obtained from `kalloc`; stops at the first
allocation failure (`ret = -1`), keeping the nodes created so far. -/
def allocNodes (c : Config) : List (Nat × Nat) → KState → PageTable → MapResult
  | [], s, pt => ⟨0, s, pt⟩
  | k :: ks, s, pt =>
    if pt.hasNode k then allocNodes c ks s pt
    else
      let r := kalloc c PAGESIZE s
      if r.1 = 0 then ⟨-1, r.2, pt⟩
      else allocNodes c ks r.2 { pt with nodes := pt.nodes ++ [(k, r.1)] }

/-- Modelled from the spec: `vmiter(pt, va).try_map(pa, perm)` of the missing
`k-vmiter.hh` ("map a virtual page to a physical frame, failing if resources are
exhausted").  Returns `0` and installs the mapping, or returns `-1`. -/
def try_map (c : Config) (pt : PageTable) (va pa : Nat) (perm : Perm) (s : KState) :
    MapResult :=
  let r := allocNodes c (nodePath c va) s pt
  if r.ret < 0 then r
  else
    ⟨0, r.s, { r.pt with entries := setAt r.pt.entries (va / PAGESIZE) ⟨pa / PAGESIZE, perm⟩ }⟩

/-- The addresses visited by `for (va = 0; va < limit; va += PAGESIZE)`. -/
def pageAddrs (limit : Nat) : List Nat :=
  (List.range ((limit + PAGESIZE - 1) / PAGESIZE)).map (fun i => i * PAGESIZE)

/-- The entry of `kernel_pagetable` for `va` after the initialisation loop of
`kernel()`: identity mappings below `MEMSIZE_PHYSICAL`, user-accessible at and above
`PROC_START_ADDR` and at `CONSOLE_ADDR`, and nothing at address 0.  (Pages at and
above `MEMSIZE_PHYSICAL` are not mapped by the loop and are taken as not present.) -/
def kernelEntry (c : Config) (vpn : Nat) : PTE :=
  let va := vpn * PAGESIZE
  if va < c.MEMSIZE_PHYSICAL then
    if va ≠ 0 then
      if va ≥ c.PROC_START_ADDR ∨ va = c.CONSOLE_ADDR then ⟨vpn, PTE_PWU⟩
      else ⟨vpn, PTE_PW⟩
    else ⟨vpn, Perm.none⟩
  else ⟨0, Perm.none⟩

/-- The table `kernel_pagetable` (its own frames are kernel memory, not modelled). -/
def kernel_pagetable (c : Config) : PageTable :=
  { root := 0, nodes := [], entries := kernelEntry c }

/-- State of a page walk that records its allocations: `ok` is `false` once the walk
has taken a failure return (after `arrfree`), `s` is the kernel state, `pt` the table
under construction, `sf` the entries `should_free[0..findex-1]`. -/
structure Walk where
  ok : Bool
  s : KState
  pt : PageTable
  sf : List Nat

/-- A loop over `xs` whose body `step` may take a failure return: once a step has
failed (`ok = false`) the remaining iterations are not executed. -/
def walkList {α : Type} (step : α → KState → PageTable → List Nat → Walk) :
    List α → Walk → Walk
  | [], w => w
  | x :: xs, w => if w.ok then walkList step xs (step x w.s w.pt w.sf) else w

/-! ## fork -/

/-- The slot search loop of `fork`: `for (fslot = 1; fslot < NPROC; fslot++)` with
`break` at the first `P_FREE` slot; returns the final value of `fslot`. -/
def forkSlotLoop (c : Config) (s : KState) : Nat → Nat → Nat
  | 0, fslot => fslot
  | fuel + 1, fslot =>
    if fslot < c.NPROC then
      if (s.ptable fslot).state = ProcState.P_FREE then fslot
      else forkSlotLoop c s fuel (fslot + 1)
    else fslot

/-- One iteration of the page walk of `fork` (lines 481-510) at address `va`. -/
def forkStep (c : Config) (parpt : PageTable) (va : Nat) (s : KState) (child : PageTable)
    (sf : List Nat) : Walk :=
  if vm_present parpt va = false then ⟨true, s, child, sf⟩
  else if vm_writable parpt va = true ∧ vm_user parpt va = true
      ∧ vm_pa parpt va ≠ c.CONSOLE_ADDR then
    let r := kalloc c PAGESIZE s
    if r.1 = 0 then ⟨false, arrfree c sf r.2, child, sf⟩
    else
      let sf1 := sf ++ [r.1]
      let s1 : KState :=
        { r.2 with mem := memcpy (memset r.2.mem r.1 0 PAGESIZE) r.1 (vm_pa parpt va) PAGESIZE }
      let m := try_map c child va r.1 (vm_perm parpt va) s1
      if m.ret < 0 then ⟨false, arrfree c sf1 m.s, m.pt, sf1⟩
      else ⟨true, m.s, m.pt, sf1⟩
  else
    let m := try_map c child va (vm_pa parpt va) (vm_perm parpt va) s
    if m.ret < 0 then ⟨false, arrfree c sf m.s, m.pt, sf⟩
    else ⟨true, m.s, m.pt, sf⟩

/-- The page walk of `fork` (lines 480-513) over the remaining addresses. -/
def forkWalk (c : Config) (parpt : PageTable) (vas : List Nat) (w : Walk) : Walk :=
  walkList (forkStep c parpt) vas w

/-- `fork()`: the returned `int` and the new kernel state. -/
def fork (c : Config) (s : KState) : Int × KState :=
  let fslot := forkSlotLoop c s c.NPROC 1
  if fslot = c.NPROC then (-1, s)
  else
    let r := kalloc c PAGESIZE s
    if r.1 = 0 then (-1, r.2)
    else
      let w := forkWalk c (s.ptable s.current).pagetable (pageAddrs c.MEMSIZE_VIRTUAL)
        ⟨true, r.2, PageTable.empty r.1, [r.1]⟩
      if w.ok then
        let child : Proc :=
          { (w.s.ptable fslot) with
            pagetable := w.pt,
            regs := { (w.s.ptable w.s.current).regs with reg_rax := 0 },
            state := ProcState.P_RUNNABLE }
        ((fslot : Int), { w.s with ptable := setAt w.s.ptable fslot child })
      else (-1, w.s)

/-- Store a page-table value in slot `pid` (the table `ptable[pid].pagetable` points to). -/
def setPagetable (s : KState) (pid : Nat) (pt : PageTable) : KState :=
  { s with ptable := setAt s.ptable pid { (s.ptable pid) with pagetable := pt } }

/-! ## syscall_page_alloc -/

/-- `syscall_page_alloc(addr)`. -/
def syscall_page_alloc (c : Config) (addr : Nat) (s : KState) : Int × KState :=
  if addr % 4096 ≠ 0 ∨ addr < c.PROC_START_ADDR ∨ addr ≥ c.MEMSIZE_VIRTUAL then (-1, s)
  else
    let r := kalloc c PAGESIZE s
    if r.1 = 0 then (-1, r.2)
    else
      let slot := (r.2.ptable r.2.current).pid
      let m := try_map c (r.2.ptable slot).pagetable addr r.1 PTE_PWU r.2
      if m.ret < 0 then (-1, kfree c r.1 (setPagetable m.s slot m.pt))
      else (0, setPagetable m.s slot m.pt)

/-! ## process_setup and boot -/

/-- One segment yielded by `program_loader`: `va()`, `size()`, `writable()`, and the
bytes `data()[0..data_size()-1]`. -/
structure Segment where
  va : Nat
  size : Nat
  writable : Bool
  data : List Nat

/-- What `program_loader(program_name)` yields: the segments and `entry()`. -/
structure Program where
  segs : List Segment
  entry : Nat

/-- Register file with every modelled register zero. -/
def Regs.zero : Regs := ⟨0, 0, 0, 0, 0, 0, 0, 0, 0, 0, 0⟩

/-- Modelled from the spec: `init_process(p, 0)` of the missing `k-hardware.cc`
gives the descriptor a fresh register snapshot and leaves its state alone. -/
def init_process (p : Proc) : Proc :=
  { p with regs := Regs.zero }

/-- One iteration of the kernel-mapping copy loop of `process_setup` (lines 203-213). -/
def copyKernelStep (c : Config) (va : Nat) (s : KState) (pt : PageTable) (sf : List Nat) :
    Walk :=
  if vm_pa (kernel_pagetable c) va < c.PROC_START_ADDR
      ∧ vm_present (kernel_pagetable c) va = true then
    let m := try_map c pt va (vm_pa (kernel_pagetable c) va) (vm_perm (kernel_pagetable c) va) s
    if m.ret < 0 then ⟨false, arrfree c sf m.s, m.pt, sf⟩
    else ⟨true, m.s, m.pt, sf⟩
  else ⟨true, s, pt, sf⟩

/-- The kernel-mapping copy loop of `process_setup` (lines 202-214). -/
def copyKernelWalk (c : Config) (vas : List Nat) (w : Walk) : Walk :=
  walkList (copyKernelStep c) vas w

/-- The addresses `a` of `for (a = round_down(va, PAGESIZE); a < va + size; a += PAGESIZE)`. -/
def segAddrs (seg : Segment) : List Nat :=
  let start := seg.va / PAGESIZE * PAGESIZE
  (List.range ((seg.va + seg.size + PAGESIZE - 1 - start) / PAGESIZE)).map
    (fun i => start + i * PAGESIZE)

/-- All iterations of the nested allocation loops (lines 224-253): page address and
whether the segment is writable. -/
def progPages (prog : Program) : List (Nat × Bool) :=
  prog.segs.flatMap (fun seg => (segAddrs seg).map (fun a => (a, seg.writable)))

/-- One iteration of the segment allocation loop of `process_setup` (lines 228-251)
for page address `a` of a segment that is writable or not. -/
def loadStep (c : Config) (a : Nat) (writable : Bool) (s : KState) (pt : PageTable)
    (sf : List Nat) : Walk :=
  let r := kalloc c PAGESIZE s
  if r.1 = 0 then ⟨false, arrfree c sf r.2, pt, sf⟩
  else
    let sf1 := sf ++ [r.1]
    let m := try_map c pt a r.1 (if writable then PTE_PWU else PTE_PU) r.2
    if m.ret < 0 then ⟨false, arrfree c sf1 m.s, m.pt, sf1⟩
    else ⟨true, m.s, m.pt, sf1⟩

/-- The segment allocation loops of `process_setup` (lines 224-253). -/
def loadWalk (c : Config) (pages : List (Nat × Bool)) (w : Walk) : Walk :=
  walkList (fun aw => loadStep c aw.1 aw.2) pages w

/-- The effect of `memcpy((void*) dst, data, data_size)` with `data` from the loader. -/
def memwrite (mem : Nat → Nat) (dst : Nat) (data : List Nat) : Nat → Nat :=
  fun a => if dst ≤ a ∧ a < dst + data.length then data.getD (a - dst) 0 else mem a

/-- One iteration of the copy loop (lines 260-261) for segment `seg`: `size` bytes are
cleared and `data_size` bytes are copied, both starting at the physical address to
which `seg.va` translates.  Only the bytes are rewritten here; the table `pt` stays
as it is, which is what the code does when the loop writes only into frames that
back pages of the segments (`CopyInside`).  When the range runs into a table node
(`CopyReaches`, `CopyCovers`) the code overwrites entries of the table, which this
function does not show. -/
def copySegStep (pt : PageTable) (seg : Segment) (mem : Nat → Nat) : Nat → Nat :=
  memwrite (memset mem (vm_pa pt seg.va) 0 seg.size) (vm_pa pt seg.va) seg.data

/-- The copy loops of `process_setup` (lines 256-263). -/
def copySegs (pt : PageTable) (segs : List Segment) (mem : Nat → Nat) : Nat → Nat :=
  segs.foldl (fun m seg => (segAddrs seg).foldl (fun m2 _ => copySegStep pt seg m2) m) mem

/-- `process_setup(pid, program_name)`, with the loader's output as `prog`. -/
def process_setup (c : Config) (pid : Nat) (prog : Program) (s : KState) : KState :=
  let s0 : KState := { s with ptable := setAt s.ptable pid (init_process (s.ptable pid)) }
  let r := kalloc c PAGESIZE s0
  if r.1 = 0 then r.2
  else
    let k := copyKernelWalk c (pageAddrs c.MEMSIZE_VIRTUAL)
      ⟨true, r.2, PageTable.empty r.1, [r.1]⟩
    if k.ok = false then k.s
    else
      let l := loadWalk c (progPages prog) k
      if l.ok = false then setPagetable l.s pid l.pt
      else
        let s3 : KState := { l.s with mem := copySegs l.pt prog.segs l.s.mem }
        let s4 : KState :=
          setPagetable
            { s3 with ptable := setAt s3.ptable pid { (s3.ptable pid) with
                        regs := { (s3.ptable pid).regs with reg_rip := prog.entry } } }
            pid l.pt
        let st := kalloc c PAGESIZE s4
        if st.1 = 0 then arrfree c l.sf st.2
        else
          let sf1 := l.sf ++ [st.1]
          let s5 : KState :=
            { st.2 with ptable := setAt st.2.ptable pid { (st.2.ptable pid) with
                          regs := { (st.2.ptable pid).regs with
                                    reg_rsp := c.MEMSIZE_VIRTUAL - PAGESIZE + PAGESIZE } } }
          let m := try_map c l.pt (c.MEMSIZE_VIRTUAL - PAGESIZE) st.1 PTE_PWU s5
          if m.ret < 0 then arrfree c sf1 (setPagetable m.s pid m.pt)
          else
            let s6 := setPagetable m.s pid m.pt
            { s6 with ptable := setAt s6.ptable pid { (s6.ptable pid) with
                          state := ProcState.P_RUNNABLE } }

/-- The state `kernel()` starts from: `pages[]` and `next_alloc_pa` are
zero-initialised globals, every slot is `P_FREE` with `pid` equal to its index. -/
def bootState (mem0 : Nat → Nat) : KState :=
  { pages := fun _ => 0,
    next_alloc_pa := 0,
    mem := mem0,
    ptable := fun i =>
      { pid := i, state := ProcState.P_FREE, regs := Regs.zero, pagetable := PageTable.empty 0 },
    current := 0 }

/-- The process set-up part of `kernel()`: `process_setup(1, ..)`, `process_setup(2, ..)`, ... -/
def setupAll (c : Config) : Nat → List Program → KState → KState
  | _, [], s => s
  | pid, prog :: rest, s => setupAll c (pid + 1) rest (process_setup c pid prog s)

/-- `kernel()`: boot, set up the processes, and `run(&ptable[1])`. -/
def kernel (c : Config) (mem0 : Nat → Nat) (progs : List Program) : KState :=
  { setupAll c 1 progs (bootState mem0) with current := 1 }

/-! ## sys_exit -/

/-- The test shared by both branches of the walk of `sys_exit` (lines 607 and 612):
the page at `va` is not present in `kernel_pagetable`, is user-accessible in the
exiting process's table `pt`, and is not the console frame. -/
def ExitCond (c : Config) (pt : PageTable) (va : Nat) : Prop :=
  vm_present (kernel_pagetable c) va = false ∧ vm_user pt va = true ∧
    vm_pa pt va ≠ c.CONSOLE_ADDR

instance (c : Config) (pt : PageTable) (va : Nat) : Decidable (ExitCond c pt va) := by
  unfold ExitCond; infer_instance

/-- One iteration of the page walk of `sys_exit` (lines 607-614) at address `va`. -/
def exitStep (c : Config) (pt : PageTable) (va : Nat) (s : KState) : KState :=
  if ExitCond c pt va ∧ s.pages (vm_pa pt va / PAGESIZE) = 1 then kfree c (vm_pa pt va) s
  else if ExitCond c pt va ∧ s.pages (vm_pa pt va / PAGESIZE) > 1 then
    { s with pages := setAt s.pages (vm_pa pt va / PAGESIZE)
                        (s.pages (vm_pa pt va / PAGESIZE) - 1) }
  else s

/-- The page walk of `sys_exit` (lines 603-615) over the addresses `vas`. -/
def exitWalk (c : Config) (pt : PageTable) (vas : List Nat) (s : KState) : KState :=
  vas.foldl (fun st va => exitStep c pt va st) s

/-- Modelled from the spec: the loop over `ptiter` of the missing `k-vmiter.hh`
(lines 617-621).  The iterator is started from the top-level table and visits the
table pages below it, the lower-level nodes of the structure; each is passed to
`kfree`.  (The resulting state does not depend on the order of the visits.) -/
def freeNodes (c : Config) (pt : PageTable) (s : KState) : KState :=
  pt.nodes.foldl (fun st n => kfree c n.2 st) s

/-- `sys_exit()`. -/
def sys_exit (c : Config) (s : KState) : KState :=
  let s2 := freeNodes c (s.ptable s.current).pagetable
    (exitWalk c (s.ptable s.current).pagetable (pageAddrs c.MEMSIZE_VIRTUAL) s)
  let slot := (s2.ptable s2.current).pid
  { s2 with ptable := setAt s2.ptable slot { (s2.ptable slot) with
                        state := ProcState.P_FREE } }

/-! ## Scheduler and trap dispatch -/

/-- How a kernel entry ends: the kernel stops (`panic`, a failed assertion), a system
call returns `ret` to the process that made it, `run` resumes a process (which is
then `current`), or `schedule` keeps spinning because no slot is runnable. -/
inductive Outcome where
  | panic
  | resume (s : KState) (ret : Nat)
  | running (s : KState)
  | spin (s : KState)

/-- `run(p)` for `p = &ptable[slot]`: the assertion, then `current = p`. -/
def run (s : KState) (slot : Nat) : Outcome :=
  if (s.ptable slot).state = ProcState.P_RUNNABLE then Outcome.running { s with current := slot }
  else Outcome.panic

/-- The loop of `schedule` (lines 532-546) for at most `fuel` iterations from `pid`:
the slot passed to `run`, if one is reached. -/
def scheduleLoop (c : Config) (s : KState) : Nat → Nat → Option Nat
  | 0, _ => none
  | fuel + 1, pid =>
    if (s.ptable ((pid + 1) % c.NPROC)).state = ProcState.P_RUNNABLE then
      some ((pid + 1) % c.NPROC)
    else scheduleLoop c s fuel ((pid + 1) % c.NPROC)

/-- `schedule()`.  The loop changes no state, so after `NPROC` iterations without a
runnable slot it has seen every slot and spins forever. -/
def schedule (c : Config) (s : KState) : Outcome :=
  match scheduleLoop c s c.NPROC (s.ptable s.current).pid with
  | some slot => run s slot
  | none => Outcome.spin s

/-- The first statement of `exception` and `syscall`: `current->regs = *regs`. -/
def saveRegs (s : KState) (regs : Regs) : KState :=
  { s with ptable := setAt s.ptable s.current { (s.ptable s.current) with regs := regs } }

/-- `exception(regs)`.  (The tick counter and the console are not modelled.) -/
def exception (c : Config) (regs : Regs) (s : KState) : Outcome :=
  let s1 := saveRegs s regs
  if regs.reg_intno = c.INT_TIMER then schedule c s1
  else if regs.reg_intno = c.INT_PF then
    if regs.reg_errcode &&& c.PFERR_USER = 0 then Outcome.panic
    else
      let s2 : KState :=
        { s1 with ptable := setAt s1.ptable s1.current { (s1.ptable s1.current) with
                              state := ProcState.P_BROKEN } }
      if (s2.ptable s2.current).state = ProcState.P_RUNNABLE then run s2 s2.current
      else schedule c s2
  else Outcome.panic

/-- The conversion of a returned `int` to `uintptr_t`. -/
def toUintptr (r : Int) : Nat :=
  (r % 2 ^ 64).toNat

/-- `syscall(regs)`. -/
def syscall (c : Config) (regs : Regs) (s : KState) : Outcome :=
  let s1 := saveRegs s regs
  if regs.reg_rax = c.SYSCALL_PANIC then Outcome.panic
  else if regs.reg_rax = c.SYSCALL_GETPID then Outcome.resume s1 (s1.ptable s1.current).pid
  else if regs.reg_rax = c.SYSCALL_YIELD then
    schedule c { s1 with ptable := setAt s1.ptable s1.current { (s1.ptable s1.current) with
                            regs := { (s1.ptable s1.current).regs with reg_rax := 0 } } }
  else if regs.reg_rax = c.SYSCALL_PAGE_ALLOC then
    Outcome.resume (syscall_page_alloc c (s1.ptable s1.current).regs.reg_rdi s1).2
      (toUintptr (syscall_page_alloc c (s1.ptable s1.current).regs.reg_rdi s1).1)
  else if regs.reg_rax = c.SYSCALL_FORK then
    Outcome.resume (fork c s1).2 (toUintptr (fork c s1).1)
  else if regs.reg_rax = c.SYSCALL_EXIT then schedule c (sys_exit c s1)
  else Outcome.panic

/-! ## Specification predicates -/

/-- Frame `pa` is a candidate for `kalloc` in state `s`: allocatable and unused. -/
def FreeAlloc (c : Config) (s : KState) (pa : Nat) : Prop :=
  c.allocatable_physical_address pa = true ∧ s.pages (pa / PAGESIZE) = 0

/-- Outcome of a `kalloc` scan that found a frame after skipping `k` candidates. -/
def KallocOk (c : Config) (s : KState) (r : Nat × KState) : Prop :=
  ∃ k, r.1 = s.next_alloc_pa + k * PAGESIZE ∧ r.1 < c.MEMSIZE_PHYSICAL ∧ FreeAlloc c s r.1 ∧
    r.2 = { s with next_alloc_pa := r.1 + PAGESIZE, pages := setAt s.pages (r.1 / PAGESIZE) 1,
                   mem := memset s.mem r.1 0 PAGESIZE } ∧
    ∀ j, j < k → ¬ FreeAlloc c s (s.next_alloc_pa + j * PAGESIZE)

/-- Outcome of a `kalloc` scan that ran off the end of physical memory. -/
def KallocFail (c : Config) (s : KState) (r : Nat × KState) : Prop :=
  r.1 = 0 ∧ ∃ k, r.2 = { s with next_alloc_pa := s.next_alloc_pa + k * PAGESIZE } ∧
    c.MEMSIZE_PHYSICAL ≤ s.next_alloc_pa + k * PAGESIZE ∧
    ∀ j, j < k → s.next_alloc_pa + j * PAGESIZE < c.MEMSIZE_PHYSICAL ∧
      ¬ FreeAlloc c s (s.next_alloc_pa + j * PAGESIZE)

/-- Allocator states reachable from boot (`next_alloc_pa = 0`) by `kalloc` calls and by
`kfree` calls on addresses previously returned by `kalloc`; the list collects the
values returned so far. -/
inductive AllocReach (c : Config) : KState → List Nat → Prop where
  | boot (s : KState) (h : s.next_alloc_pa = 0) : AllocReach c s []
  | kalloc (s : KState) (ret : List Nat) (sz : Nat) (h : AllocReach c s ret) :
      AllocReach c (kalloc c sz s).2 ((kalloc c sz s).1 :: ret)
  | kfree (s : KState) (ret : List Nat) (p : Nat) (h : AllocReach c s ret) (hp : p ∈ ret) :
      AllocReach c (kfree c p s) ret

/-- A small machine used to instantiate the theorems: 32 physical frames, 40 virtual
pages, process memory from page 8, console in frame 3, frames 4 and 5 reserved
(kernel image), one level of lower page-table nodes covering 16 pages each. -/
def demoConfig : Config :=
  { MEMSIZE_PHYSICAL := 32 * 4096, MEMSIZE_VIRTUAL := 40 * 4096, PROC_START_ADDR := 8 * 4096,
    CONSOLE_ADDR := 3 * 4096, NPROC := 4,
    allocatable_physical_address := fun pa =>
      decide (pa ≠ 0 ∧ pa ≠ 3 * 4096 ∧ pa < 32 * 4096 ∧ (pa < 4 * 4096 ∨ pa ≥ 6 * 4096)),
    ptspans := [16 * 4096],
    INT_TIMER := 32, INT_PF := 14, PFERR_USER := 4,
    SYSCALL_PANIC := 6, SYSCALL_GETPID := 1, SYSCALL_YIELD := 2, SYSCALL_PAGE_ALLOC := 3,
    SYSCALL_FORK := 4, SYSCALL_EXIT := 5, NPAGES := 32 }

/-- The demo machine with every frame marked used and the cursor at the end. -/
def fullState : KState :=
  { (bootState (fun _ => 204)) with pages := fun _ => 1, next_alloc_pa := 32 * 4096 }

/-- Allocator invariant: the cursor is page-aligned, no free allocatable frame lies
below it, and every address handed out so far is page-aligned. -/
def AllocInv (c : Config) (s : KState) (ret : List Nat) : Prop :=
  s.next_alloc_pa % PAGESIZE = 0 ∧
  (∀ q, q % PAGESIZE = 0 → q < s.next_alloc_pa → ¬ FreeAlloc c s q) ∧
  (∀ p, p ∈ ret → p % PAGESIZE = 0)

/-- `Grows s t`: `t` arises from `s` by allocations only.  Reference counts change
only from 0 to 1, the bytes of frames in use are untouched, the process table and
`current` are unchanged, and the cursor of `t` is page-aligned. -/
def Grows (s t : KState) : Prop :=
  (∀ f, t.pages f = s.pages f ∨ (s.pages f = 0 ∧ t.pages f = 1)) ∧
  (∀ a, s.pages (a / PAGESIZE) ≠ 0 → t.mem a = s.mem a) ∧
  t.ptable = s.ptable ∧ t.current = s.current ∧
  t.next_alloc_pa % PAGESIZE = 0

/-- The condition under which `fork` duplicates the page at `va`: present, writable,
user-accessible and not the console frame (line 482). -/
def ForkCopies (c : Config) (parpt : PageTable) (va : Nat) : Prop :=
  vm_writable parpt va = true ∧ vm_user parpt va = true ∧ vm_pa parpt va ≠ c.CONSOLE_ADDR

/-- The state of the copy branch of `fork` after `memset`/`memcpy` into the new page. -/
def forkCopyState (parpt : PageTable) (va : Nat) (r : Nat × KState) : KState :=
  { r.2 with mem := memcpy (memset r.2.mem r.1 0 PAGESIZE) r.1 (vm_pa parpt va) PAGESIZE }

/-- What the `fork` walk does to the page at `va` between states `s` and `t`, with
`before`/`after` the child's entry for the page before and after:
an absent page is skipped, a shared page receives the parent's frame and
permissions, a copied page receives a frame that was free in `s`, is in use
(refcount 1) in `t`, and (when the parent's frame is in use) holds the bytes the
parent's page had in `s`. -/
def ForkPage (c : Config) (parpt : PageTable) (va : Nat) (s t : KState)
    (before after : PTE) : Prop :=
  (vm_present parpt va = false → after = before) ∧
  (vm_present parpt va = true → ¬ ForkCopies c parpt va →
    after = ⟨vm_pa parpt va / PAGESIZE, vm_perm parpt va⟩) ∧
  (vm_present parpt va = true → ForkCopies c parpt va →
    ∃ newpa, newpa ≠ 0 ∧ newpa % PAGESIZE = 0 ∧
      after = ⟨newpa / PAGESIZE, vm_perm parpt va⟩ ∧
      s.pages (newpa / PAGESIZE) = 0 ∧ t.pages (newpa / PAGESIZE) = 1 ∧
      (s.pages (vm_pa parpt va / PAGESIZE) ≠ 0 → ∀ i, i < PAGESIZE →
        t.mem (newpa + i) = s.mem (vm_pa parpt va + i)))

/-- The slot `fork` settles on: the value of `fslot` after the search loop. -/
def forkSlot (c : Config) (s : KState) : Nat :=
  forkSlotLoop c s c.NPROC 1

/-- The page walk `fork` performs once the child's top-level table is allocated. -/
def forkWalkOf (c : Config) (s : KState) : Walk :=
  forkWalk c (s.ptable s.current).pagetable (pageAddrs c.MEMSIZE_VIRTUAL)
    ⟨true, (kalloc c PAGESIZE s).2, PageTable.empty (kalloc c PAGESIZE s).1,
      [(kalloc c PAGESIZE s).1]⟩

/-- A user-mode store of byte `v` at offset `off` of the page at `va`, through `pt`. -/
def writeByte (s : KState) (pt : PageTable) (va off v : Nat) : KState :=
  { s with mem := setAt s.mem (vm_pa pt va + off) v }

/-- A user-mode load of the byte at offset `off` of the page at `va`, through `pt`. -/
def readByte (s : KState) (pt : PageTable) (va off : Nat) : Nat :=
  s.mem (vm_pa pt va + off)

/-- A program with a read-only page at virtual page 8 and a writable page at virtual
page 9 whose first byte is `0x42`. -/
def demoProgram : Program :=
  { segs := [⟨8 * 4096, 10, false, [1, 2, 3]⟩, ⟨9 * 4096, 100, true, [0x42]⟩],
    entry := 8 * 4096 }

/-- The demo machine after `kernel()` has set up `demoProgram` as process 1. -/
def demoState : KState :=
  kernel demoConfig (fun _ => 204) [demoProgram]

/-- The page table of the process calling `fork` (`current->pagetable`). -/
def parentTable (s : KState) : PageTable :=
  (s.ptable s.current).pagetable

/-- The page table of the slot `fork` settled on, after the call. -/
def childTable (c : Config) (s : KState) : PageTable :=
  ((fork c s).2.ptable (forkSlot c s)).pagetable

/-- `process_setup` after `init_process` (line 180). -/
def psInit (s : KState) (pid : Nat) : KState :=
  { s with ptable := setAt s.ptable pid (init_process (s.ptable pid)) }

/-- The kernel-mapping copy walk of `process_setup` once the table frame is allocated. -/
def psKernelWalk (c : Config) (pid : Nat) (s : KState) : Walk :=
  copyKernelWalk c (pageAddrs c.MEMSIZE_VIRTUAL)
    ⟨true, (kalloc c PAGESIZE (psInit s pid)).2,
      PageTable.empty (kalloc c PAGESIZE (psInit s pid)).1,
      [(kalloc c PAGESIZE (psInit s pid)).1]⟩

/-- The segment allocation walk of `process_setup`. -/
def psLoadWalk (c : Config) (pid : Nat) (prog : Program) (s : KState) : Walk :=
  loadWalk c (progPages prog) (psKernelWalk c pid s)

/-- `process_setup` after the segment bytes are copied and `%rip` is set (line 266). -/
def psLoaded (c : Config) (pid : Nat) (prog : Program) (s : KState) : KState :=
  setPagetable
    { (psLoadWalk c pid prog s).s with
      mem := copySegs (psLoadWalk c pid prog s).pt prog.segs (psLoadWalk c pid prog s).s.mem,
      ptable := setAt (psLoadWalk c pid prog s).s.ptable pid
        { ((psLoadWalk c pid prog s).s.ptable pid) with
          regs := { ((psLoadWalk c pid prog s).s.ptable pid).regs with reg_rip := prog.entry } } }
    pid (psLoadWalk c pid prog s).pt

/-- `process_setup` after the stack frame is allocated and `%rsp` is set (line 281). -/
def psStack (c : Config) (pid : Nat) (prog : Program) (s : KState) : KState :=
  { (kalloc c PAGESIZE (psLoaded c pid prog s)).2 with
    ptable := setAt (kalloc c PAGESIZE (psLoaded c pid prog s)).2.ptable pid
      { ((kalloc c PAGESIZE (psLoaded c pid prog s)).2.ptable pid) with
        regs := { ((kalloc c PAGESIZE (psLoaded c pid prog s)).2.ptable pid).regs with
                  reg_rsp := c.MEMSIZE_VIRTUAL - PAGESIZE + PAGESIZE } } }

/-- The `try_map` of the stack page in `process_setup` (line 282). -/
def psStackMap (c : Config) (pid : Nat) (prog : Program) (s : KState) : MapResult :=
  try_map c (psLoadWalk c pid prog s).pt (c.MEMSIZE_VIRTUAL - PAGESIZE)
    (kalloc c PAGESIZE (psLoaded c pid prog s)).1 PTE_PWU (psStack c pid prog s)

/-- The frame-accounting invariant as the code maintains it: every page mapping that
is user-accessible in the page table of a non-`P_FREE` process, other than a mapping
of the console frame, points to a frame whose refcount is at least 1. -/
def FrameAccounted (c : Config) (s : KState) : Prop :=
  ∀ pid va, va % PAGESIZE = 0 → (s.ptable pid).state ≠ ProcState.P_FREE →
    vm_user (s.ptable pid).pagetable va = true →
    vm_pa (s.ptable pid).pagetable va ≠ c.CONSOLE_ADDR →
    1 ≤ s.pages (vm_pa (s.ptable pid).pagetable va / PAGESIZE)

/-- A program with one writable segment of `n` pages at virtual page 8. -/
def hogProgram (n : Nat) : Program :=
  { segs := [⟨8 * 4096, n * 4096, true, []⟩], entry := 8 * 4096 }

/-- The demo machine after `kernel()` has set up `demoProgram` as process 1 and a
14-page program as process 2: three physical frames (29, 30, 31) are left. -/
def tightState : KState :=
  kernel demoConfig (fun _ => 204) [demoProgram, hogProgram 14]

/-- A program with a read-only page at virtual page 33 and a writable page at virtual
page 34, both above `MEMSIZE_PHYSICAL` of the demo machine. -/
def hiProgram : Program :=
  { segs := [⟨33 * 4096, 10, false, [1, 2, 3]⟩, ⟨34 * 4096, 100, true, [0x42]⟩],
    entry := 33 * 4096 }

/-- The demo machine after `kernel()` has set up `hiProgram` as process 1. -/
def hiState : KState :=
  kernel demoConfig (fun _ => 204) [hiProgram]

/-- The demo machine after process 1 has forked, its child (slot 2) has exited, and
process 1 has then allocated a page at virtual page 35, which reuses frame 6 (the
frame of the read-only page the child shared); `current` points at the exited child
again, whose slot is `P_FREE` and whose stale table still maps virtual page 33 to
frame 6. -/
def staleState : KState :=
  let s1 := (fork demoConfig hiState).2
  let s2 := sys_exit demoConfig { s1 with current := 2 }
  let s3 := (syscall_page_alloc demoConfig (35 * 4096) { s2 with current := 1 }).2
  { s3 with current := 2 }

/-- The registers of a trap for a user-mode write fault on a missing page. -/
def faultRegs : Regs :=
  { Regs.zero with reg_intno := 14, reg_errcode := 6 }

/-- The changes of a slot's state the process state machine allows: none, or
FREE to RUNNABLE, RUNNABLE to BROKEN, RUNNABLE to FREE, BROKEN to FREE. -/
def LegalChange (a b : ProcState) : Prop :=
  a = b ∨ (a = ProcState.P_FREE ∧ b = ProcState.P_RUNNABLE) ∨
    (a = ProcState.P_RUNNABLE ∧ b = ProcState.P_BROKEN) ∨
    (a = ProcState.P_RUNNABLE ∧ b = ProcState.P_FREE) ∨
    (a = ProcState.P_BROKEN ∧ b = ProcState.P_FREE)

/-- Every slot's state in `t` is a legal successor of its state in `s`. -/
def LegalStep (s t : KState) : Prop :=
  ∀ i, LegalChange (s.ptable i).state (t.ptable i).state

/-- The kernel state an outcome leaves behind, if the kernel did not panic. -/
def Outcome.next : Outcome → Option KState
  | Outcome.panic => none
  | Outcome.resume s _ => some s
  | Outcome.running s => some s
  | Outcome.spin s => some s

/-- A program whose single writable segment of 10 bytes starts 6 bytes before the end
of virtual page 16 and so spans pages 16 and 17. -/
def straddleProgram : Program :=
  { segs := [⟨16 * 4096 + 4090, 10, true, [1, 2, 3, 4, 5, 6, 7, 8, 9, 10]⟩],
    entry := 16 * 4096 + 4090 }

/-- Invariant of the rollback list `should_free[0..findex-1]` of a walk: the entries
are pairwise distinct page-aligned addresses below `MEMSIZE_PHYSICAL`, and while the
walk has not failed the cursor is page-aligned and every entry is a frame in use
(returned by `kalloc` and not freed since). -/
def SfInv (c : Config) (w : Walk) : Prop :=
  w.sf.Nodup ∧ (∀ p, p ∈ w.sf → p % PAGESIZE = 0 ∧ p < c.MEMSIZE_PHYSICAL) ∧
  (w.ok = true → w.s.next_alloc_pa % PAGESIZE = 0 ∧
    ∀ p, p ∈ w.sf → 1 ≤ w.s.pages (p / PAGESIZE))

/-- `process_setup(pid, ..)` takes none of its failure returns: both allocations and
all three mapping stages succeed, so the last statement (marking the process
runnable) is reached. -/
def SetupOk (c : Config) (pid : Nat) (prog : Program) (s : KState) : Prop :=
  (kalloc c PAGESIZE (psInit s pid)).1 ≠ 0 ∧ (psKernelWalk c pid s).ok = true ∧
  (psLoadWalk c pid prog s).ok = true ∧ (kalloc c PAGESIZE (psLoaded c pid prog s)).1 ≠ 0 ∧
  ¬ (psStackMap c pid prog s).ret < 0

instance (c : Config) (pid : Nat) (prog : Program) (s : KState) :
    Decidable (SetupOk c pid prog s) := by
  unfold SetupOk; infer_instance

/-- The page table `process_setup(pid, ..)` leaves in slot `pid`. -/
def setupTable (c : Config) (pid : Nat) (prog : Program) (s : KState) : PageTable :=
  ((process_setup c pid prog s).ptable pid).pagetable

/-- The test of the kernel-mapping copy loop (line 204): the kernel maps the page at
`va` to an address below `PROC_START_ADDR`. -/
def KernelCopied (c : Config) (va : Nat) : Prop :=
  vm_pa (kernel_pagetable c) va < c.PROC_START_ADDR ∧ vm_present (kernel_pagetable c) va = true

instance (c : Config) (va : Nat) : Decidable (KernelCopied c va) := by
  unfold KernelCopied; infer_instance

/-- The frames that hold the page table `pt`: its top-level table and its
lower-level nodes. -/
def tableFrames (pt : PageTable) : List Nat :=
  pt.root :: pt.nodes.map (fun n => n.2)

/-- The demo machine after process 1 (set up from `hiProgram`) has forked and its
child (slot 2) has run and exited; process 1 is `current` again. -/
def sharedFreedState : KState :=
  { sys_exit demoConfig { (fork demoConfig hiState).2 with current := 2 } with current := 1 }

/-- The demo machine after process 1 has, from `sharedFreedState`, allocated a page
at virtual page 35 and stored `0x42` in its last byte, forked a second time, and
that child (slot 2) has run and exited; process 1 is `current` again. -/
def aliasState : KState :=
  let s3 := (syscall_page_alloc demoConfig (35 * 4096) sharedFreedState).2
  let s4 := writeByte s3 (s3.ptable 1).pagetable (35 * 4096) 4095 0x42
  let s5 := (fork demoConfig s4).2
  { sys_exit demoConfig { s5 with current := 2 } with current := 1 }

/-- The demo machine after process 1 has, from `aliasState`, forked a third time and
then exited itself, and the child (slot 2) has been scheduled and has allocated a
page at virtual page 36. -/
def rootFreedState : KState :=
  let s7 := (fork demoConfig aliasState).2
  let s8 := sys_exit demoConfig s7
  (syscall_page_alloc demoConfig (36 * 4096) { s8 with current := 2 }).2

/-- A program whose single read-only segment lies in virtual page 1, below
`PROC_START_ADDR` of the demo machine. -/
def lowProgram : Program :=
  { segs := [⟨1 * 4096, 10, false, [1, 2, 3]⟩], entry := 1 * 4096 }

/-- A program with a 7-page segment at virtual page 8 and a 10-byte segment that
starts 6 bytes before the end of virtual page 15 and so spans pages 15 and 16. -/
def gapProgram : Program :=
  { segs := [⟨8 * 4096, 7 * 4096, true, []⟩,
             ⟨15 * 4096 + 4090, 10, true, [1, 2, 3, 4, 5, 6, 7, 8, 9, 10]⟩],
    entry := 8 * 4096 }

/-- The destination range of the `memset` of the copy loop (line 260) for segment
`seg`, `[pa, pa + size)` with `pa = vmiter(pt, seg.va).pa()`, reaches into the frame
at physical address `f`. -/
def CopyReaches (pt : PageTable) (seg : Segment) (f : Nat) : Prop :=
  vm_pa pt seg.va < f + PAGESIZE ∧ f < vm_pa pt seg.va + seg.size

instance (pt : PageTable) (seg : Segment) (f : Nat) : Decidable (CopyReaches pt seg f) := by
  unfold CopyReaches; infer_instance

/-- The destination range of the `memset` of the copy loop (line 260) for segment
`seg` contains the whole frame at physical address `f`. -/
def CopyCovers (pt : PageTable) (seg : Segment) (f : Nat) : Prop :=
  vm_pa pt seg.va ≤ f ∧ f + PAGESIZE ≤ vm_pa pt seg.va + seg.size

instance (pt : PageTable) (seg : Segment) (f : Nat) : Decidable (CopyCovers pt seg f) := by
  unfold CopyCovers; infer_instance

/-- The frame numbers into which the copy loop (lines 260-261) writes for segment
`seg`: the frames met by the `size` bytes cleared and the `data_size` bytes copied,
both starting at `vmiter(pt, seg.va).pa()`. -/
def copyFrames (pt : PageTable) (seg : Segment) : List Nat :=
  (List.range ((vm_pa pt seg.va % PAGESIZE + max seg.size seg.data.length + PAGESIZE - 1)
      / PAGESIZE)).map (fun i => vm_pa pt seg.va / PAGESIZE + i)

/-- The copy loop for segment `seg` writes only into frames that back pages of the
program's segments in `pt`: it reaches no frame of a page table and no other memory
of the kernel. -/
def CopyInside (pt : PageTable) (prog : Program) (seg : Segment) : Prop :=
  ∀ f, f ∈ copyFrames pt seg →
    ∃ aw, aw ∈ progPages prog ∧ vm_present pt aw.1 = true ∧ vm_pa pt aw.1 / PAGESIZE = f

instance (pt : PageTable) (prog : Program) (seg : Segment) :
    Decidable (CopyInside pt prog seg) := by
  unfold CopyInside; infer_instance

/-! ## Theorems -/

theorem PAGESIZE_pos : 0 < PAGESIZE := by decide

theorem setAt_same {α : Type} (f : Nat → α) (i : Nat) (v : α) : setAt f i v i = v := by
  simp [setAt]

theorem setAt_other {α : Type} (f : Nat → α) (i j : Nat) (v : α) (h : j ≠ i) :
    setAt f i v j = f j := by
  simp [setAt, h]

/-- The scan loop either finds a frame, runs off the end of memory, or runs out of fuel. -/
theorem kallocLoop_cases (c : Config) (fuel : Nat) (s : KState) :
    KallocOk c s (kallocLoop c fuel s) ∨ KallocFail c s (kallocLoop c fuel s) ∨
      ((kallocLoop c fuel s).1 = 0 ∧
        s.next_alloc_pa + fuel * PAGESIZE < c.MEMSIZE_PHYSICAL + PAGESIZE) := by
  induction fuel generalizing s with
  | zero =>
    by_cases h : s.next_alloc_pa < c.MEMSIZE_PHYSICAL
    · right; right
      refine ⟨rfl, ?_⟩
      simp only [PAGESIZE] at *
      omega
    · right; left
      refine ⟨rfl, 0, ?_, ?_, ?_⟩
      · simp [kallocLoop]
      · simp only [PAGESIZE] at *; omega
      · intro j hj; omega
  | succ n ih =>
    unfold kallocLoop
    by_cases h : s.next_alloc_pa < c.MEMSIZE_PHYSICAL
    · simp only [h, if_true]
      by_cases hf : c.allocatable_physical_address s.next_alloc_pa = true ∧
          s.pages (s.next_alloc_pa / PAGESIZE) = 0
      · simp only [hf, and_self, if_true]
        left
        refine ⟨0, by simp, h, hf, by simp, ?_⟩
        intro j hj; omega
      · simp only [hf, if_false]
        have hs := ih { s with next_alloc_pa := s.next_alloc_pa + PAGESIZE }
        rcases hs with ⟨k, h1, h2, h3, h4, h5⟩ | ⟨h0, k, h1, h2, h3⟩ | ⟨h0, h1⟩
        · left
          refine ⟨k + 1, ?_, h2, h3, ?_, ?_⟩
          · rw [h1]; simp only []; ring
          · rw [h4]
          · intro j hj
            cases j with
            | zero => simpa [FreeAlloc] using hf
            | succ j =>
              have := h5 j (by omega)
              simp only [] at this
              have e : s.next_alloc_pa + (j + 1) * PAGESIZE = s.next_alloc_pa + PAGESIZE + j * PAGESIZE := by ring
              rw [e]; exact this
        · right; left
          refine ⟨h0, k + 1, ?_, ?_, ?_⟩
          · rw [h1]; simp only []
            have e : s.next_alloc_pa + (k + 1) * PAGESIZE = s.next_alloc_pa + PAGESIZE + k * PAGESIZE := by ring
            rw [e]
          · simp only [] at h2
            have e : s.next_alloc_pa + (k + 1) * PAGESIZE = s.next_alloc_pa + PAGESIZE + k * PAGESIZE := by ring
            rw [e]; exact h2
          · intro j hj
            cases j with
            | zero => exact ⟨by simpa using h, by simpa [FreeAlloc] using hf⟩
            | succ j =>
              have := h3 j (by omega)
              simp only [] at this
              have e : s.next_alloc_pa + (j + 1) * PAGESIZE = s.next_alloc_pa + PAGESIZE + j * PAGESIZE := by ring
              rw [e]; exact this
        · right; right
          refine ⟨h0, ?_⟩
          simp only [] at h1
          have e : s.next_alloc_pa + (n + 1) * PAGESIZE = s.next_alloc_pa + PAGESIZE + n * PAGESIZE := by ring
          rw [e]
          have : 0 < PAGESIZE := PAGESIZE_pos
          omega
    · simp only [h, if_false]
      right; left
      refine ⟨rfl, 0, by simp, by omega, ?_⟩
      intro j hj; omega

/-- `kalloc(sz)` with `sz <= PAGESIZE` either finds a frame or runs off the end of
memory: the fuel of the model is never exhausted. -/
theorem kalloc_cases (c : Config) (sz : Nat) (s : KState) (hsz : sz ≤ PAGESIZE) :
    KallocOk c s (kalloc c sz s) ∨ KallocFail c s (kalloc c sz s) := by
  have hk : kalloc c sz s = kallocLoop c (c.MEMSIZE_PHYSICAL + 1) s := by
    simp [kalloc, Nat.not_lt.mpr hsz]
  rw [hk]
  rcases kallocLoop_cases c (c.MEMSIZE_PHYSICAL + 1) s with h | h | ⟨_, h⟩
  · exact Or.inl h
  · exact Or.inr h
  · exfalso
    simp only [PAGESIZE] at h
    omega

/-- C3 (kalloc success postcondition): for every allocator state with a page-aligned
cursor and every `sz <= PAGESIZE`, a non-null result `pa` of `kalloc(sz)` is
page-aligned, below `MEMSIZE_PHYSICAL` and allocatable; its frame had refcount 0
before the call and has refcount 1 after it; all `PAGESIZE` bytes of the frame are
zero; and the refcount of every other frame is unchanged. -/
theorem kalloc_success_postcondition (c : Config) (s : KState) (sz : Nat)
    (hsz : sz ≤ PAGESIZE) (hal : s.next_alloc_pa % PAGESIZE = 0)
    (hne : (kalloc c sz s).1 ≠ 0) :
    (kalloc c sz s).1 % PAGESIZE = 0 ∧
    (kalloc c sz s).1 < c.MEMSIZE_PHYSICAL ∧
    c.allocatable_physical_address (kalloc c sz s).1 = true ∧
    s.pages ((kalloc c sz s).1 / PAGESIZE) = 0 ∧
    (kalloc c sz s).2.pages ((kalloc c sz s).1 / PAGESIZE) = 1 ∧
    (∀ i, i < PAGESIZE → (kalloc c sz s).2.mem ((kalloc c sz s).1 + i) = 0) ∧
    (∀ f, f ≠ (kalloc c sz s).1 / PAGESIZE → (kalloc c sz s).2.pages f = s.pages f) := by
  rcases kalloc_cases c sz s hsz with ⟨k, h1, h2, h3, h4, _⟩ | ⟨h0, _⟩
  · refine ⟨?_, h2, h3.1, h3.2, ?_, ?_, ?_⟩
    · rw [h1]; simp [Nat.add_mod, hal]
    · rw [h4]; simp [setAt]
    · intro i hi
      rw [h4]
      simp only [memset]
      rw [if_pos]
      omega
    · intro f hf
      rw [h4]; simp [setAt, hf]
  · exact absurd h0 hne

theorem kalloc_success_postcondition_witness :
    (4096 : Nat) ≤ PAGESIZE ∧ (bootState (fun _ => 204)).next_alloc_pa % PAGESIZE = 0 ∧
    (kalloc demoConfig 4096 (bootState (fun _ => 204))).1 ≠ 0 ∧
    (kalloc demoConfig 4096 (bootState (fun _ => 204))).1 % PAGESIZE = 0 ∧
    (kalloc demoConfig 4096 (bootState (fun _ => 204))).1 < demoConfig.MEMSIZE_PHYSICAL :=
  have h := kalloc_success_postcondition demoConfig (bootState (fun _ => 204)) 4096
    (by decide) (by decide) (by decide)
  ⟨by decide, by decide, by decide, h.1, h.2.1⟩

/-- With the cursor at or past the end of physical memory `kalloc` fails and changes
nothing. -/
theorem kalloc_at_end (c : Config) (sz : Nat) (t : KState)
    (h : ¬ t.next_alloc_pa < c.MEMSIZE_PHYSICAL) : kalloc c sz t = (0, t) := by
  unfold kalloc
  by_cases hsz : sz > PAGESIZE
  · rw [if_pos hsz]
  · rw [if_neg hsz]
    unfold kallocLoop
    rw [if_neg h]

/-- With the cursor on a free allocatable frame `kalloc` returns that frame. -/
theorem kalloc_hit (c : Config) (sz : Nat) (t : KState) (hsz : sz ≤ PAGESIZE)
    (hlt : t.next_alloc_pa < c.MEMSIZE_PHYSICAL) (hf : FreeAlloc c t t.next_alloc_pa) :
    kalloc c sz t = (t.next_alloc_pa,
      { t with next_alloc_pa := t.next_alloc_pa + PAGESIZE,
               pages := setAt t.pages (t.next_alloc_pa / PAGESIZE) 1,
               mem := memset t.mem t.next_alloc_pa 0 PAGESIZE }) := by
  have hn : ¬ (sz > PAGESIZE) := by omega
  unfold kalloc
  rw [if_neg hn]
  unfold kallocLoop
  simp only [hlt, if_true]
  have hf2 : c.allocatable_physical_address t.next_alloc_pa = true ∧
      t.pages (t.next_alloc_pa / PAGESIZE) = 0 := hf
  rw [if_pos hf2]

/-- C5 (kfree effect and frame): `kfree(nullptr)` changes nothing; for every non-null
page-aligned `kptr`, `kfree(kptr)` sets the refcount of the frame starting at `kptr`
(`pages[kptr / PAGESIZE]`) to 0, leaves the refcount of every other frame unchanged,
and sets `next_alloc_pa` to `kptr` exactly when `kptr` is allocatable and lower than
the current `next_alloc_pa`; otherwise the cursor is unchanged.  Memory and the
process table are untouched. -/
theorem kfree_effect (c : Config) (s : KState) (kptr : Nat)
    (hnn : kptr ≠ 0) (hal : kptr % PAGESIZE = 0) :
    kfree c 0 s = s ∧
    kptr / PAGESIZE * PAGESIZE = kptr ∧
    (kfree c kptr s).pages (kptr / PAGESIZE) = 0 ∧
    (∀ f, f ≠ kptr / PAGESIZE → (kfree c kptr s).pages f = s.pages f) ∧
    ((c.allocatable_physical_address kptr = true ∧ kptr < s.next_alloc_pa) →
      (kfree c kptr s).next_alloc_pa = kptr) ∧
    (¬ (c.allocatable_physical_address kptr = true ∧ kptr < s.next_alloc_pa) →
      (kfree c kptr s).next_alloc_pa = s.next_alloc_pa) ∧
    (kfree c kptr s).mem = s.mem ∧ (kfree c kptr s).ptable = s.ptable ∧
    (kfree c kptr s).current = s.current := by
  refine ⟨by simp [kfree], Nat.div_mul_cancel (Nat.dvd_of_mod_eq_zero hal), ?_, ?_, ?_, ?_, ?_, ?_, ?_⟩
  · simp [kfree, hnn, setAt]
  · intro f hf
    simp only [kfree, hnn, if_false]
    split <;> simp [setAt, hf]
  · intro h
    simp only [kfree, hnn, if_false]
    rw [if_pos ⟨h.2, h.1⟩]
  · intro h
    simp only [kfree, hnn, if_false]
    rw [if_neg (fun hh => h ⟨hh.2, hh.1⟩)]
  · simp only [kfree, hnn, if_false]; split <;> rfl
  · simp only [kfree, hnn, if_false]; split <;> rfl
  · simp only [kfree, hnn, if_false]; split <;> rfl

theorem kfree_effect_witness :
    (4096 : Nat) ≠ 0 ∧ 4096 % PAGESIZE = 0 ∧
    (kfree demoConfig 4096 (kalloc demoConfig 4096 (bootState (fun _ => 204))).2).pages
      (4096 / PAGESIZE) = 0 ∧
    (kfree demoConfig 4096
      (kalloc demoConfig 4096 (bootState (fun _ => 204))).2).next_alloc_pa = 4096 :=
  have h := kfree_effect demoConfig (kalloc demoConfig 4096 (bootState (fun _ => 204))).2 4096
    (by decide) (by decide)
  ⟨by decide, by decide, h.2.2.1, h.2.2.2.2.1 (by decide)⟩

/-- C6 (exhaustion and reuse): once `kalloc(PAGESIZE)` has returned `nullptr`, every
further `kalloc` call made before any `kfree` returns `nullptr` and leaves the whole
state (in particular every refcount) unchanged; and after `kfree(p)` of an allocatable
frame `p` in such a state, the very next `kalloc(PAGESIZE)` returns `p` with all bytes
zero and refcount 1.  (Address 0 is `nullptr`, hence not an allocatable frame.) -/
theorem kalloc_exhaustion_and_reuse (c : Config) (s : KState)
    (h0 : c.allocatable_physical_address 0 = false)
    (hnull : (kalloc c PAGESIZE s).1 = 0) :
    (∀ sz, kalloc c sz (kalloc c PAGESIZE s).2 = (0, (kalloc c PAGESIZE s).2)) ∧
    (∀ p, c.allocatable_physical_address p = true → p < c.MEMSIZE_PHYSICAL →
      (kalloc c PAGESIZE (kfree c p (kalloc c PAGESIZE s).2)).1 = p ∧
      (∀ i, i < PAGESIZE →
        (kalloc c PAGESIZE (kfree c p (kalloc c PAGESIZE s).2)).2.mem (p + i) = 0) ∧
      (kalloc c PAGESIZE (kfree c p (kalloc c PAGESIZE s).2)).2.pages (p / PAGESIZE) = 1) := by
  rcases kalloc_cases c PAGESIZE s (Nat.le_refl _) with ⟨k, h1, _, h3, _, _⟩ | ⟨_, k, h1, h2, _⟩
  · rw [hnull] at h3
    rw [h3.1] at h0
    exact absurd h0 (by simp)
  · have hcur : ¬ (kalloc c PAGESIZE s).2.next_alloc_pa < c.MEMSIZE_PHYSICAL := by
      rw [h1]; simpa using h2
    constructor
    · intro sz
      exact kalloc_at_end c sz _ hcur
    · intro p hp hlt
      have hp0 : p ≠ 0 := by
        intro e; rw [e, h0] at hp; exact absurd hp (by simp)
      have hgt : (kalloc c PAGESIZE s).2.next_alloc_pa > p := by omega
      have hc : (kfree c p (kalloc c PAGESIZE s).2).next_alloc_pa = p := by
        simp only [kfree, hp0, if_false]
        rw [if_pos ⟨hgt, hp⟩]
      have hpg : (kfree c p (kalloc c PAGESIZE s).2).pages (p / PAGESIZE) = 0 := by
        simp [kfree, hp0, setAt]
      generalize kfree c p (kalloc c PAGESIZE s).2 = t at hc hpg
      have hk := kalloc_hit c PAGESIZE t (Nat.le_refl _) (by rw [hc]; exact hlt)
        (by rw [hc]; exact ⟨hp, hpg⟩)
      rw [hk, hc]
      refine ⟨rfl, ?_, ?_⟩
      · intro i hi
        simp only [memset]
        rw [if_pos]; omega
      · simp [setAt]

theorem kalloc_exhaustion_and_reuse_witness :
    demoConfig.allocatable_physical_address 0 = false ∧
    (kalloc demoConfig PAGESIZE fullState).1 = 0 ∧
    (kalloc demoConfig PAGESIZE
      (kfree demoConfig (7 * 4096) (kalloc demoConfig PAGESIZE fullState).2)).1 = 7 * 4096 :=
  have h := kalloc_exhaustion_and_reuse demoConfig fullState (by decide) (by decide)
  ⟨by decide, by decide, (h.2 (7 * 4096) (by decide) (by decide)).1⟩

/-- A page-aligned address between an aligned cursor and `k` pages further is one of
the scanned addresses. -/
theorem aligned_between (cur q k : Nat) (hc : cur % PAGESIZE = 0) (hq : q % PAGESIZE = 0)
    (h1 : cur ≤ q) (h2 : q < cur + k * PAGESIZE) :
    ∃ j, j < k ∧ q = cur + j * PAGESIZE := by
  refine ⟨(q - cur) / PAGESIZE, ?_, ?_⟩ <;> simp only [PAGESIZE] at * <;> omega

theorem allocInv_kalloc (c : Config) (s : KState) (ret : List Nat) (sz : Nat)
    (h : AllocInv c s ret) : AllocInv c (kalloc c sz s).2 ((kalloc c sz s).1 :: ret) := by
  obtain ⟨hcur, hlow, hret⟩ := h
  by_cases hsz : sz > PAGESIZE
  · have e : kalloc c sz s = (0, s) := by simp [kalloc, hsz]
    rw [e]
    refine ⟨hcur, hlow, ?_⟩
    intro p hp
    rcases List.mem_cons.mp hp with rfl | hp
    · rfl
    · exact hret p hp
  · rcases kalloc_cases c sz s (by omega) with ⟨k, h1, h2, h3, h4, h5⟩ | ⟨h0, k, h1, h2, h3⟩
    · have hal : (kalloc c sz s).1 % PAGESIZE = 0 := by
        rw [h1]; simp [Nat.add_mod, hcur]
      refine ⟨?_, ?_, ?_⟩
      · rw [h4]; simp [Nat.add_mod, hal]
      · intro q hq hlt hfree
        rw [h4] at hlt hfree
        simp only [] at hlt
        obtain ⟨hfa, hfp⟩ := hfree
        simp only [setAt] at hfp
        by_cases hqe : q / PAGESIZE = (kalloc c sz s).1 / PAGESIZE
        · rw [if_pos hqe] at hfp; exact absurd hfp (by decide)
        · rw [if_neg hqe] at hfp
          by_cases hqc : q < s.next_alloc_pa
          · exact hlow q hq hqc ⟨hfa, hfp⟩
          · have hq2 : q < s.next_alloc_pa + k * PAGESIZE := by
              rw [← h1]
              by_contra hcon
              apply hqe
              simp only [PAGESIZE] at *
              omega
            obtain ⟨j, hj, hqj⟩ := aligned_between _ q k hcur hq (by omega) hq2
            exact h5 j hj (hqj ▸ ⟨hfa, hfp⟩)
      · intro p hp
        rcases List.mem_cons.mp hp with rfl | hp
        · exact hal
        · exact hret p hp
    · refine ⟨?_, ?_, ?_⟩
      · rw [h1]; simp [Nat.add_mod, hcur]
      · intro q hq hlt hfree
        rw [h1] at hlt hfree
        simp only [] at hlt
        have hfree2 : FreeAlloc c s q := hfree
        by_cases hqc : q < s.next_alloc_pa
        · exact hlow q hq hqc hfree2
        · obtain ⟨j, hj, hqj⟩ := aligned_between _ q k hcur hq (by omega) hlt
          exact (h3 j hj).2 (hqj ▸ hfree2)
      · intro p hp
        rcases List.mem_cons.mp hp with rfl | hp
        · rw [h0]; rfl
        · exact hret p hp

theorem allocInv_kfree (c : Config) (s : KState) (ret : List Nat) (p : Nat)
    (h : AllocInv c s ret) (hp : p ∈ ret) : AllocInv c (kfree c p s) ret := by
  obtain ⟨hcur, hlow, hret⟩ := h
  have hpa := hret p hp
  by_cases hp0 : p = 0
  · have e : kfree c p s = s := by simp [kfree, hp0]
    rw [e]; exact ⟨hcur, hlow, hret⟩
  · by_cases hcond : s.next_alloc_pa > p ∧ c.allocatable_physical_address p = true
    · have e : kfree c p s = { s with next_alloc_pa := p, pages := setAt s.pages (p / PAGESIZE) 0 } := by
        simp only [kfree, hp0, if_false]
        rw [if_pos hcond]
      rw [e]
      refine ⟨hpa, ?_, hret⟩
      intro q hq hlt hfree
      simp only [] at hlt
      obtain ⟨hfa, hfp⟩ := hfree
      simp only [setAt] at hfp
      have hne : q / PAGESIZE ≠ p / PAGESIZE := by
        simp only [PAGESIZE] at *; omega
      rw [if_neg hne] at hfp
      exact hlow q hq (by omega) ⟨hfa, hfp⟩
    · have e : kfree c p s = { s with pages := setAt s.pages (p / PAGESIZE) 0 } := by
        simp only [kfree, hp0, if_false]
        rw [if_neg hcond]
      rw [e]
      refine ⟨hcur, ?_, hret⟩
      intro q hq hlt hfree
      simp only [] at hlt
      obtain ⟨hfa, hfp⟩ := hfree
      simp only [setAt] at hfp
      by_cases hqe : q / PAGESIZE = p / PAGESIZE
      · have hqp : q = p := by simp only [PAGESIZE] at *; omega
        subst hqp
        exact hcond ⟨hlt, hfa⟩
      · rw [if_neg hqe] at hfp
        exact hlow q hq hlt ⟨hfa, hfp⟩

theorem allocReach_inv (c : Config) (s : KState) (ret : List Nat) (h : AllocReach c s ret) :
    AllocInv c s ret := by
  induction h with
  | boot s h =>
    refine ⟨by rw [h]; rfl, ?_, ?_⟩
    · intro q _ hlt; rw [h] at hlt; omega
    · intro p hp; cases hp
  | kalloc s ret sz _ ih => exact allocInv_kalloc c s ret sz ih
  | kfree s ret p _ hp ih => exact allocInv_kfree c s ret p ih hp

/-- C4 (kalloc availability): in every state reachable from boot (`next_alloc_pa = 0`)
by `kalloc` calls and `kfree` calls on addresses previously returned by `kalloc`,
no free allocatable frame lies below the cursor; `kalloc(PAGESIZE)` returns the
lowest-addressed allocatable frame whose refcount is 0; and it returns `nullptr` if
and only if no allocatable frame below `MEMSIZE_PHYSICAL` has refcount 0.  (Address
0 is `nullptr`, hence not an allocatable frame.) -/
theorem kalloc_availability (c : Config) (s : KState) (ret : List Nat)
    (h0 : c.allocatable_physical_address 0 = false) (hr : AllocReach c s ret) :
    (∀ q, q % PAGESIZE = 0 → q < s.next_alloc_pa → ¬ FreeAlloc c s q) ∧
    ((kalloc c PAGESIZE s).1 ≠ 0 →
      (kalloc c PAGESIZE s).1 % PAGESIZE = 0 ∧
      (kalloc c PAGESIZE s).1 < c.MEMSIZE_PHYSICAL ∧
      FreeAlloc c s (kalloc c PAGESIZE s).1 ∧
      ∀ q, q % PAGESIZE = 0 → q < (kalloc c PAGESIZE s).1 → ¬ FreeAlloc c s q) ∧
    ((kalloc c PAGESIZE s).1 = 0 ↔
      ∀ q, q % PAGESIZE = 0 → q < c.MEMSIZE_PHYSICAL → ¬ FreeAlloc c s q) := by
  obtain ⟨hcur, hlow, _⟩ := allocReach_inv c s ret hr
  refine ⟨hlow, ?_, ?_⟩
  · intro hne
    rcases kalloc_cases c PAGESIZE s (Nat.le_refl _) with ⟨k, h1, h2, h3, _, h5⟩ | ⟨hz, _⟩
    · refine ⟨by rw [h1]; simp [Nat.add_mod, hcur], h2, h3, ?_⟩
      intro q hq hlt
      by_cases hqc : q < s.next_alloc_pa
      · exact hlow q hq hqc
      · obtain ⟨j, hj, hqj⟩ := aligned_between _ q k hcur hq (by omega) (by rw [← h1]; exact hlt)
        rw [hqj]; exact h5 j hj
    · exact absurd hz hne
  · constructor
    · intro hz q hq hlt
      rcases kalloc_cases c PAGESIZE s (Nat.le_refl _) with ⟨k, _, _, h3, _, _⟩ | ⟨_, k, _, h2, h3⟩
      · rw [hz] at h3
        rw [h3.1] at h0
        exact absurd h0 (by simp)
      · by_cases hqc : q < s.next_alloc_pa
        · exact hlow q hq hqc
        · obtain ⟨j, hj, hqj⟩ := aligned_between _ q k hcur hq (by omega) (by omega)
          rw [hqj]; exact (h3 j hj).2
    · intro hall
      rcases kalloc_cases c PAGESIZE s (Nat.le_refl _) with ⟨k, h1, h2, h3, _, _⟩ | ⟨hz, _⟩
      · exfalso
        exact hall _ (by rw [h1]; simp [Nat.add_mod, hcur]) h2 h3
      · exact hz

theorem kalloc_availability_witness :
    demoConfig.allocatable_physical_address 0 = false ∧
    AllocReach demoConfig
      (kfree demoConfig 4096
        (kalloc demoConfig 4096 (kalloc demoConfig 4096 (bootState (fun _ => 204))).2).2)
      [(kalloc demoConfig 4096 (kalloc demoConfig 4096 (bootState (fun _ => 204))).2).1,
       (kalloc demoConfig 4096 (bootState (fun _ => 204))).1] ∧
    (kalloc demoConfig PAGESIZE
      (kfree demoConfig 4096
        (kalloc demoConfig 4096
          (kalloc demoConfig 4096 (bootState (fun _ => 204))).2).2)).1 < demoConfig.MEMSIZE_PHYSICAL :=
  have hr : AllocReach demoConfig
      (kfree demoConfig 4096
        (kalloc demoConfig 4096 (kalloc demoConfig 4096 (bootState (fun _ => 204))).2).2)
      [(kalloc demoConfig 4096 (kalloc demoConfig 4096 (bootState (fun _ => 204))).2).1,
       (kalloc demoConfig 4096 (bootState (fun _ => 204))).1] :=
    AllocReach.kfree _ _ _
      (AllocReach.kalloc _ _ _ (AllocReach.kalloc _ _ _ (AllocReach.boot _ rfl)))
      (by decide)
  have h := kalloc_availability demoConfig _ _ (by decide) hr
  ⟨by decide, hr, (h.2.1 (by decide)).2.1⟩

theorem Grows.grefl (s : KState) (h : s.next_alloc_pa % PAGESIZE = 0) : Grows s s :=
  ⟨fun _ => Or.inl rfl, fun _ _ => rfl, rfl, rfl, h⟩

theorem Grows.gtrans {s t u : KState} (h1 : Grows s t) (h2 : Grows t u) : Grows s u := by
  obtain ⟨p1, m1, t1, c1, _⟩ := h1
  obtain ⟨p2, m2, t2, c2, a2⟩ := h2
  refine ⟨?_, ?_, t2.trans t1, c2.trans c1, a2⟩
  · intro f
    rcases p1 f with e1 | ⟨e1, e1'⟩ <;> rcases p2 f with e2 | ⟨e2, e2'⟩
    · left; rw [e2, e1]
    · right; exact ⟨by rw [← e1]; exact e2, e2'⟩
    · right; exact ⟨e1, by rw [e2]; exact e1'⟩
    · right; exact ⟨e1, e2'⟩
  · intro a ha
    have ht : t.pages (a / PAGESIZE) ≠ 0 := by
      rcases p1 (a / PAGESIZE) with e | ⟨e, _⟩
      · rw [e]; exact ha
      · exact absurd e ha
    rw [m2 a ht, m1 a ha]

theorem Grows.used {s t : KState} (h : Grows s t) (f : Nat) (hf : s.pages f ≠ 0) :
    t.pages f = s.pages f := by
  rcases h.1 f with e | ⟨e, _⟩
  · exact e
  · exact absurd e hf

theorem Grows.gfree {s t : KState} (h : Grows s t) (f : Nat) (hf : t.pages f = 0) :
    s.pages f = 0 := by
  rcases h.1 f with e | ⟨e, _⟩
  · rw [← e]; exact hf
  · exact e

/-- Bytes of the page starting at an aligned address lie in that page's frame. -/
theorem div_of_page (pa a : Nat) (hpa : pa % PAGESIZE = 0) (h1 : pa ≤ a)
    (h2 : a < pa + PAGESIZE) : a / PAGESIZE = pa / PAGESIZE := by
  simp only [PAGESIZE] at *; omega

/-- `kalloc` from an aligned cursor only allocates. -/
theorem kalloc_grows (c : Config) (sz : Nat) (s : KState)
    (hal : s.next_alloc_pa % PAGESIZE = 0) : Grows s (kalloc c sz s).2 := by
  by_cases hsz : sz > PAGESIZE
  · have e : kalloc c sz s = (0, s) := by simp [kalloc, hsz]
    rw [e]; exact Grows.grefl s hal
  · rcases kalloc_cases c sz s (by omega) with ⟨k, h1, _, h3, h4, _⟩ | ⟨_, k, h1, _, _⟩
    · have hal1 : (kalloc c sz s).1 % PAGESIZE = 0 := by
        rw [h1]; simp [Nat.add_mod, hal]
      rw [h4]
      refine ⟨?_, ?_, rfl, rfl, ?_⟩
      · intro f
        simp only [setAt]
        by_cases hf : f = (kalloc c sz s).1 / PAGESIZE
        · right; rw [if_pos hf, hf]; exact ⟨h3.2, rfl⟩
        · left; rw [if_neg hf]
      · intro a ha
        simp only [memset]
        rw [if_neg]
        intro hr
        apply ha
        rw [div_of_page _ a hal1 hr.1 hr.2]
        exact h3.2
      · simp [Nat.add_mod, hal1]
    · rw [h1]
      exact ⟨fun _ => Or.inl rfl, fun _ _ => rfl, rfl, rfl, by simp [Nat.add_mod, hal]⟩

/-- Facts about a successful `kalloc(PAGESIZE)` from an aligned cursor. -/
theorem kalloc_ok_facts (c : Config) (s : KState) (hal : s.next_alloc_pa % PAGESIZE = 0)
    (hne : (kalloc c PAGESIZE s).1 ≠ 0) :
    (kalloc c PAGESIZE s).1 % PAGESIZE = 0 ∧
    s.pages ((kalloc c PAGESIZE s).1 / PAGESIZE) = 0 ∧
    (kalloc c PAGESIZE s).2.pages ((kalloc c PAGESIZE s).1 / PAGESIZE) = 1 ∧
    (∀ i, i < PAGESIZE → (kalloc c PAGESIZE s).2.mem ((kalloc c PAGESIZE s).1 + i) = 0) := by
  rcases kalloc_cases c PAGESIZE s (Nat.le_refl _) with ⟨k, h1, _, h3, h4, _⟩ | ⟨h0, _⟩
  · refine ⟨by rw [h1]; simp [Nat.add_mod, hal], h3.2, by rw [h4]; simp [setAt], ?_⟩
    intro i hi
    rw [h4]; simp only [memset]; rw [if_pos]; omega
  · exact absurd h0 hne

/-- Creating table nodes only allocates; it changes neither the root nor the leaf
entries, and returns `0` or `-1`. -/
theorem allocNodes_spec (c : Config) (ks : List (Nat × Nat)) (s : KState) (pt : PageTable)
    (hal : s.next_alloc_pa % PAGESIZE = 0) :
    Grows s (allocNodes c ks s pt).s ∧
    (allocNodes c ks s pt).pt.entries = pt.entries ∧
    (allocNodes c ks s pt).pt.root = pt.root ∧
    ((allocNodes c ks s pt).ret = 0 ∨ (allocNodes c ks s pt).ret = -1) := by
  induction ks generalizing s pt with
  | nil => exact ⟨Grows.grefl s hal, rfl, rfl, Or.inl rfl⟩
  | cons k ks ih =>
    unfold allocNodes
    by_cases hn : pt.hasNode k = true
    · rw [if_pos hn]; exact ih s pt hal
    · rw [if_neg hn]
      simp only []
      have hg := kalloc_grows c PAGESIZE s hal
      by_cases hz : (kalloc c PAGESIZE s).1 = 0
      · rw [if_pos hz]
        exact ⟨hg, rfl, rfl, Or.inr rfl⟩
      · rw [if_neg hz]
        have h := ih (kalloc c PAGESIZE s).2
          { pt with nodes := pt.nodes ++ [(k, (kalloc c PAGESIZE s).1)] } hg.2.2.2.2
        exact ⟨hg.gtrans h.1, h.2.1, h.2.2.1, h.2.2.2⟩

/-- `try_map` only allocates; on success (`ret = 0`) exactly the entry of `va` is
replaced, on failure (`ret = -1`) no entry changes. -/
theorem try_map_spec (c : Config) (pt : PageTable) (va pa : Nat) (perm : Perm) (s : KState)
    (hal : s.next_alloc_pa % PAGESIZE = 0) :
    Grows s (try_map c pt va pa perm s).s ∧
    (try_map c pt va pa perm s).pt.root = pt.root ∧
    (((try_map c pt va pa perm s).ret = 0 ∧
      (try_map c pt va pa perm s).pt.entries =
        setAt pt.entries (va / PAGESIZE) ⟨pa / PAGESIZE, perm⟩) ∨
     ((try_map c pt va pa perm s).ret = -1 ∧
      (try_map c pt va pa perm s).pt.entries = pt.entries)) := by
  have h := allocNodes_spec c (nodePath c va) s pt hal
  unfold try_map
  simp only []
  rcases h.2.2.2 with h0 | h1
  · have hn : ¬ ((allocNodes c (nodePath c va) s pt).ret < 0) := by rw [h0]; decide
    rw [if_neg hn]
    refine ⟨h.1, h.2.2.1, Or.inl ⟨rfl, ?_⟩⟩
    simp only []
    rw [h.2.1]
  · have hn : (allocNodes c (nodePath c va) s pt).ret < 0 := by rw [h1]; decide
    rw [if_pos hn]
    exact ⟨h.1, h.2.2.1, Or.inr ⟨h1, h.2.1⟩⟩

/-- A loop invariant that every step preserves holds after the walk. -/
theorem walkList_inv {α : Type} (step : α → KState → PageTable → List Nat → Walk)
    (P : Walk → Prop)
    (hstep : ∀ x w, w.ok = true → P w → P (step x w.s w.pt w.sf))
    (xs : List α) (w : Walk) (hw : P w) : P (walkList step xs w) := by
  induction xs generalizing w with
  | nil => exact hw
  | cons x xs ih =>
    unfold walkList
    by_cases hok : w.ok = true
    · rw [if_pos hok]; exact ih _ (hstep x w hok hw)
    · rw [if_neg hok]; exact hw

/-- A walk that ends successfully started successfully. -/
theorem walkList_ok_start {α : Type} (step : α → KState → PageTable → List Nat → Walk)
    (xs : List α) (w : Walk) (h : (walkList step xs w).ok = true) : w.ok = true := by
  cases xs with
  | nil => exact h
  | cons x xs =>
    unfold walkList at h
    by_cases hok : w.ok = true
    · exact hok
    · rw [if_neg hok] at h; exact h

theorem forkStep_absent (c : Config) (parpt : PageTable) (va : Nat) (s : KState)
    (child : PageTable) (sf : List Nat) (h : vm_present parpt va = false) :
    forkStep c parpt va s child sf = ⟨true, s, child, sf⟩ := by
  unfold forkStep; rw [if_pos h]

theorem forkStep_share (c : Config) (parpt : PageTable) (va : Nat) (s : KState)
    (child : PageTable) (sf : List Nat) (h : vm_present parpt va = true)
    (hc : ¬ ForkCopies c parpt va) :
    forkStep c parpt va s child sf =
      if (try_map c child va (vm_pa parpt va) (vm_perm parpt va) s).ret < 0 then
        ⟨false, arrfree c sf (try_map c child va (vm_pa parpt va) (vm_perm parpt va) s).s,
          (try_map c child va (vm_pa parpt va) (vm_perm parpt va) s).pt, sf⟩
      else ⟨true, (try_map c child va (vm_pa parpt va) (vm_perm parpt va) s).s,
          (try_map c child va (vm_pa parpt va) (vm_perm parpt va) s).pt, sf⟩ := by
  unfold forkStep
  have h1 : ¬ (vm_present parpt va = false) := by rw [h]; decide
  rw [if_neg h1]
  have hc2 : ¬ (vm_writable parpt va = true ∧ vm_user parpt va = true
      ∧ vm_pa parpt va ≠ c.CONSOLE_ADDR) := hc
  rw [if_neg hc2]

theorem forkStep_copy (c : Config) (parpt : PageTable) (va : Nat) (s : KState)
    (child : PageTable) (sf : List Nat) (h : vm_present parpt va = true)
    (hc : ForkCopies c parpt va) :
    forkStep c parpt va s child sf =
      if (kalloc c PAGESIZE s).1 = 0 then ⟨false, arrfree c sf (kalloc c PAGESIZE s).2, child, sf⟩
      else if (try_map c child va (kalloc c PAGESIZE s).1 (vm_perm parpt va)
          (forkCopyState parpt va (kalloc c PAGESIZE s))).ret < 0 then
        ⟨false, arrfree c (sf ++ [(kalloc c PAGESIZE s).1])
          (try_map c child va (kalloc c PAGESIZE s).1 (vm_perm parpt va)
            (forkCopyState parpt va (kalloc c PAGESIZE s))).s,
          (try_map c child va (kalloc c PAGESIZE s).1 (vm_perm parpt va)
            (forkCopyState parpt va (kalloc c PAGESIZE s))).pt, sf ++ [(kalloc c PAGESIZE s).1]⟩
      else
        ⟨true, (try_map c child va (kalloc c PAGESIZE s).1 (vm_perm parpt va)
            (forkCopyState parpt va (kalloc c PAGESIZE s))).s,
          (try_map c child va (kalloc c PAGESIZE s).1 (vm_perm parpt va)
            (forkCopyState parpt va (kalloc c PAGESIZE s))).pt, sf ++ [(kalloc c PAGESIZE s).1]⟩ := by
  unfold forkStep
  have h1 : ¬ (vm_present parpt va = false) := by rw [h]; decide
  rw [if_neg h1]
  have hc2 : vm_writable parpt va = true ∧ vm_user parpt va = true
      ∧ vm_pa parpt va ≠ c.CONSOLE_ADDR := hc
  rw [if_pos hc2]
  rfl

/-- The copy branch's state after `memcpy` still only differs from `s` by allocation. -/
theorem forkCopyState_grows (c : Config) (parpt : PageTable) (va : Nat) (s : KState)
    (hal : s.next_alloc_pa % PAGESIZE = 0) (hne : (kalloc c PAGESIZE s).1 ≠ 0) :
    Grows s (forkCopyState parpt va (kalloc c PAGESIZE s)) := by
  have hg := kalloc_grows c PAGESIZE s hal
  have hf := kalloc_ok_facts c s hal hne
  refine ⟨hg.1, ?_, hg.2.2.1, hg.2.2.2.1, hg.2.2.2.2⟩
  intro a ha
  have hn : ¬ ((kalloc c PAGESIZE s).1 ≤ a ∧ a < (kalloc c PAGESIZE s).1 + PAGESIZE) := by
    intro hr
    apply ha
    rw [div_of_page _ a hf.1 hr.1 hr.2]
    exact hf.2.1
  show memcpy (memset _ _ 0 PAGESIZE) _ _ PAGESIZE a = s.mem a
  simp only [memcpy, memset]
  rw [if_neg hn, if_neg hn]
  exact hg.2.1 a ha

/-- The parent's address of an aligned virtual page is the start of its frame. -/
theorem vm_pa_aligned (pt : PageTable) (va : Nat) (hva : va % PAGESIZE = 0)
    (hp : vm_present pt va = true) :
    vm_pa pt va = (pt.entries (va / PAGESIZE)).frame * PAGESIZE ∧
    vm_pa pt va % PAGESIZE = 0 ∧
    vm_pa pt va / PAGESIZE = (pt.entries (va / PAGESIZE)).frame := by
  have e : vm_pa pt va = (pt.entries (va / PAGESIZE)).frame * PAGESIZE := by
    unfold vm_pa; rw [if_pos hp, hva, Nat.add_zero]
  rw [e]
  refine ⟨rfl, ?_, ?_⟩ <;> simp only [PAGESIZE] <;> omega

/-- What a successful iteration of the `fork` walk does at the aligned address `va`. -/
theorem forkStep_ok (c : Config) (parpt : PageTable) (va : Nat) (s : KState)
    (child : PageTable) (sf : List Nat) (hal : s.next_alloc_pa % PAGESIZE = 0)
    (hva : va % PAGESIZE = 0) (hok : (forkStep c parpt va s child sf).ok = true) :
    Grows s (forkStep c parpt va s child sf).s ∧
    (forkStep c parpt va s child sf).pt.root = child.root ∧
    (∀ n, n ≠ va / PAGESIZE → (forkStep c parpt va s child sf).pt.entries n = child.entries n) ∧
    (vm_present parpt va = false →
      (forkStep c parpt va s child sf).pt.entries (va / PAGESIZE) = child.entries (va / PAGESIZE)) ∧
    (vm_present parpt va = true → ¬ ForkCopies c parpt va →
      (forkStep c parpt va s child sf).pt.entries (va / PAGESIZE)
        = ⟨vm_pa parpt va / PAGESIZE, vm_perm parpt va⟩ ∧
      (forkStep c parpt va s child sf).sf = sf) ∧
    (vm_present parpt va = true → ForkCopies c parpt va →
      ∃ newpa, newpa ≠ 0 ∧ newpa % PAGESIZE = 0 ∧
        (forkStep c parpt va s child sf).sf = sf ++ [newpa] ∧
        (forkStep c parpt va s child sf).pt.entries (va / PAGESIZE)
          = ⟨newpa / PAGESIZE, vm_perm parpt va⟩ ∧
        s.pages (newpa / PAGESIZE) = 0 ∧
        (forkStep c parpt va s child sf).s.pages (newpa / PAGESIZE) = 1 ∧
        (s.pages (vm_pa parpt va / PAGESIZE) ≠ 0 → ∀ i, i < PAGESIZE →
          (forkStep c parpt va s child sf).s.mem (newpa + i) = s.mem (vm_pa parpt va + i))) := by
  by_cases hp : vm_present parpt va = true
  · by_cases hc : ForkCopies c parpt va
    · rw [forkStep_copy c parpt va _ _ _ hp hc] at hok ⊢
      by_cases hz : (kalloc c PAGESIZE s).1 = 0
      · rw [if_pos hz] at hok; exact absurd hok (by simp)
      · rw [if_neg hz] at hok ⊢
        have hg := forkCopyState_grows c parpt va s hal hz
        have hf := kalloc_ok_facts c s hal hz
        have hm := try_map_spec c child va (kalloc c PAGESIZE s).1 (vm_perm parpt va)
          (forkCopyState parpt va (kalloc c PAGESIZE s)) hg.2.2.2.2
        by_cases hr : (try_map c child va (kalloc c PAGESIZE s).1 (vm_perm parpt va)
            (forkCopyState parpt va (kalloc c PAGESIZE s))).ret < 0
        · rw [if_pos hr] at hok; exact absurd hok (by simp)
        · rw [if_neg hr]
          have he : (try_map c child va (kalloc c PAGESIZE s).1 (vm_perm parpt va)
              (forkCopyState parpt va (kalloc c PAGESIZE s))).pt.entries =
              setAt child.entries (va / PAGESIZE)
                ⟨(kalloc c PAGESIZE s).1 / PAGESIZE, vm_perm parpt va⟩ := by
            rcases hm.2.2 with ⟨_, e⟩ | ⟨e, _⟩
            · exact e
            · rw [e] at hr; exact absurd (by decide) hr
          have hused : (forkCopyState parpt va (kalloc c PAGESIZE s)).pages
              ((kalloc c PAGESIZE s).1 / PAGESIZE) = 1 := hf.2.2.1
          refine ⟨hg.gtrans hm.1, hm.2.1, ?_, ?_, ?_, ?_⟩
          · intro n hn
            show (try_map c child va _ _ _).pt.entries n = _
            rw [he, setAt_other _ _ _ _ hn]
          · intro hpf; rw [hp] at hpf; exact absurd hpf (by simp)
          · intro _ hnc; exact absurd hc hnc
          · intro _ _
            refine ⟨(kalloc c PAGESIZE s).1, hz, hf.1, rfl, ?_, hf.2.1, ?_, ?_⟩
            · show (try_map c child va _ _ _).pt.entries _ = _
              rw [he, setAt_same]
            · show (try_map c child va _ _ _).s.pages _ = 1
              rw [hm.1.used _ (by rw [hused]; decide), hused]
            · intro hpar i hi
              show (try_map c child va _ _ _).s.mem _ = _
              have hpa := vm_pa_aligned parpt va hva hp
              have hfr : ((kalloc c PAGESIZE s).1 + i) / PAGESIZE
                  = (kalloc c PAGESIZE s).1 / PAGESIZE :=
                div_of_page _ _ hf.1 (by omega) (by omega)
              rw [hm.1.2.1 _ (by rw [hfr, hused]; decide)]
              show memcpy (memset _ _ 0 PAGESIZE) _ _ PAGESIZE _ = _
              simp only [memcpy]
              rw [if_pos ⟨by omega, by omega⟩]
              have hsub : (kalloc c PAGESIZE s).1 + i - (kalloc c PAGESIZE s).1 = i := by omega
              rw [hsub]
              have hsrc : (vm_pa parpt va + i) / PAGESIZE = vm_pa parpt va / PAGESIZE :=
                div_of_page _ _ hpa.2.1 (by omega) (by omega)
              simp only [memset]
              rw [if_neg]
              · exact (kalloc_grows c PAGESIZE s hal).2.1 _ (by rw [hsrc]; exact hpar)
              · intro hr2
                have := div_of_page _ _ hf.1 hr2.1 hr2.2
                rw [hsrc] at this
                rw [this] at hpar
                exact hpar hf.2.1
    · rw [forkStep_share c parpt va _ _ _ hp hc] at hok ⊢
      have hm := try_map_spec c child va (vm_pa parpt va) (vm_perm parpt va) s hal
      by_cases hr : (try_map c child va (vm_pa parpt va) (vm_perm parpt va) s).ret < 0
      · rw [if_pos hr] at hok; exact absurd hok (by simp)
      · rw [if_neg hr]
        have he : (try_map c child va (vm_pa parpt va) (vm_perm parpt va) s).pt.entries =
            setAt child.entries (va / PAGESIZE) ⟨vm_pa parpt va / PAGESIZE, vm_perm parpt va⟩ := by
          rcases hm.2.2 with ⟨_, e⟩ | ⟨e, _⟩
          · exact e
          · rw [e] at hr; exact absurd (by decide) hr
        refine ⟨hm.1, hm.2.1, ?_, ?_, ?_, ?_⟩
        · intro n hn
          show (try_map c child va _ _ _).pt.entries n = _
          rw [he, setAt_other _ _ _ _ hn]
        · intro hpf; rw [hp] at hpf; exact absurd hpf (by simp)
        · intro _ _
          refine ⟨?_, rfl⟩
          show (try_map c child va _ _ _).pt.entries _ = _
          rw [he, setAt_same]
        · intro _ hcc; exact absurd hcc hc
  · have hp' : vm_present parpt va = false := by simpa using hp
    rw [forkStep_absent c parpt va _ _ _ hp']
    refine ⟨Grows.grefl s hal, rfl, fun _ _ => rfl, fun _ => rfl, ?_, ?_⟩
    · intro h; exact absurd h hp
    · intro h; exact absurd h hp

theorem ForkPage.extend_after {c : Config} {parpt : PageTable} {va : Nat} {s t u : KState}
    {b a : PTE} (h : ForkPage c parpt va s t b a) (hg : Grows t u) :
    ForkPage c parpt va s u b a := by
  refine ⟨h.1, h.2.1, ?_⟩
  intro hp hc
  obtain ⟨newpa, h1, h2, h3, h4, h5, h6⟩ := h.2.2 hp hc
  refine ⟨newpa, h1, h2, h3, h4, ?_, ?_⟩
  · rw [hg.used _ (by rw [h5]; decide), h5]
  · intro hpar i hi
    have hfr : (newpa + i) / PAGESIZE = newpa / PAGESIZE :=
      div_of_page _ _ h2 (by omega) (by omega)
    rw [hg.2.1 _ (by rw [hfr, h5]; decide)]
    exact h6 hpar i hi

theorem ForkPage.extend_before {c : Config} {parpt : PageTable} {va : Nat} {s t u : KState}
    {b a : PTE} (h : ForkPage c parpt va t u b a) (hg : Grows s t) (hva : va % PAGESIZE = 0) :
    ForkPage c parpt va s u b a := by
  refine ⟨h.1, h.2.1, ?_⟩
  intro hp hc
  obtain ⟨newpa, h1, h2, h3, h4, h5, h6⟩ := h.2.2 hp hc
  refine ⟨newpa, h1, h2, h3, hg.gfree _ h4, h5, ?_⟩
  intro hpar i hi
  have hpa := vm_pa_aligned parpt va hva hp
  have hsrc : (vm_pa parpt va + i) / PAGESIZE = vm_pa parpt va / PAGESIZE :=
    div_of_page _ _ hpa.2.1 (by omega) (by omega)
  rw [h6 (by rw [hg.used _ hpar]; exact hpar) i hi]
  exact hg.2.1 _ (by rw [hsrc]; exact hpar)

/-- A successful `fork` walk over aligned, pairwise distinct pages only allocates,
leaves the entries of unvisited pages alone and treats every visited page as
`ForkPage` describes. -/
theorem forkWalk_ok (c : Config) (parpt : PageTable) (vas : List Nat) (w : Walk)
    (hal : w.s.next_alloc_pa % PAGESIZE = 0)
    (hvas : ∀ va, va ∈ vas → va % PAGESIZE = 0)
    (hnd : (vas.map (fun va => va / PAGESIZE)).Nodup)
    (hok : (forkWalk c parpt vas w).ok = true) :
    Grows w.s (forkWalk c parpt vas w).s ∧
    (forkWalk c parpt vas w).pt.root = w.pt.root ∧
    (∀ n, n ∉ vas.map (fun va => va / PAGESIZE) →
      (forkWalk c parpt vas w).pt.entries n = w.pt.entries n) ∧
    (∀ va, va ∈ vas →
      ForkPage c parpt va w.s (forkWalk c parpt vas w).s
        (w.pt.entries (va / PAGESIZE)) ((forkWalk c parpt vas w).pt.entries (va / PAGESIZE))) := by
  induction vas generalizing w with
  | nil =>
    refine ⟨Grows.grefl _ hal, rfl, fun _ _ => rfl, ?_⟩
    intro va hva; cases hva
  | cons v vs ih =>
    have hwok : w.ok = true := walkList_ok_start _ _ _ hok
    have hunf : forkWalk c parpt (v :: vs) w
        = forkWalk c parpt vs (forkStep c parpt v w.s w.pt w.sf) := by
      show walkList _ (v :: vs) w = walkList _ vs _
      rw [walkList, if_pos hwok]
    rw [hunf] at hok ⊢
    have hstepok : (forkStep c parpt v w.s w.pt w.sf).ok = true := walkList_ok_start _ _ _ hok
    have hv : v % PAGESIZE = 0 := hvas v (List.mem_cons_self _ _)
    have hs := forkStep_ok c parpt v w.s w.pt w.sf hal hv hstepok
    have hnd' : (vs.map (fun va => va / PAGESIZE)).Nodup := (List.nodup_cons.mp hnd).2
    have hvnot : v / PAGESIZE ∉ vs.map (fun va => va / PAGESIZE) := (List.nodup_cons.mp hnd).1
    have hi := ih (forkStep c parpt v w.s w.pt w.sf) hs.1.2.2.2.2
      (fun va hva => hvas va (List.mem_cons_of_mem _ hva)) hnd' hok
    refine ⟨hs.1.gtrans hi.1, hi.2.1.trans hs.2.1, ?_, ?_⟩
    · intro n hn
      have hn1 : n ≠ v / PAGESIZE := by
        intro e; apply hn; rw [e]; simp
      have hn2 : n ∉ vs.map (fun va => va / PAGESIZE) := by
        intro e; apply hn; simp only [List.map_cons, List.mem_cons]; exact Or.inr e
      rw [hi.2.2.1 n hn2, hs.2.2.1 n hn1]
    · intro va hva
      rcases List.mem_cons.mp hva with e | hmem
      · subst e
        rw [hi.2.2.1 _ hvnot]
        have hpage : ForkPage c parpt va w.s (forkStep c parpt va w.s w.pt w.sf).s
            (w.pt.entries (va / PAGESIZE))
            ((forkStep c parpt va w.s w.pt w.sf).pt.entries (va / PAGESIZE)) := by
          refine ⟨hs.2.2.2.1, fun hp hc => (hs.2.2.2.2.1 hp hc).1, ?_⟩
          intro hp hc
          obtain ⟨newpa, h1, h2, _, h4, h5, h6, h7⟩ := hs.2.2.2.2.2 hp hc
          exact ⟨newpa, h1, h2, h4, h5, h6, h7⟩
        exact hpage.extend_after hi.1
      · have hne : va / PAGESIZE ≠ v / PAGESIZE := by
          intro e
          apply hvnot
          rw [← e]
          exact List.mem_map_of_mem _ hmem
        have := hi.2.2.2 va hmem
        rw [hs.2.2.1 _ hne] at this
        exact this.extend_before hs.1 (hvas va hva)

/-- The pages visited by `for (va = 0; va < limit; va += PAGESIZE)` are aligned,
pairwise distinct, and include every aligned address below `limit`. -/
theorem pageAddrs_spec (limit : Nat) :
    (∀ va, va ∈ pageAddrs limit → va % PAGESIZE = 0 ∧ va < limit) ∧
    ((pageAddrs limit).map (fun va => va / PAGESIZE)).Nodup ∧
    (∀ va, va % PAGESIZE = 0 → va < limit → va ∈ pageAddrs limit) := by
  refine ⟨?_, ?_, ?_⟩
  · intro va hva
    simp only [pageAddrs, List.mem_map, List.mem_range] at hva
    obtain ⟨i, hi, rfl⟩ := hva
    simp only [PAGESIZE] at *
    omega
  · have e : (pageAddrs limit).map (fun va => va / PAGESIZE)
        = List.range ((limit + PAGESIZE - 1) / PAGESIZE) := by
      simp only [pageAddrs, List.map_map]
      have : ((fun va => va / PAGESIZE) ∘ fun i => i * PAGESIZE) = id := by
        funext i
        simp only [Function.comp, id, PAGESIZE]
        omega
      rw [this, List.map_id]
    rw [e]; exact List.nodup_range _
  · intro va h1 h2
    simp only [pageAddrs, List.mem_map, List.mem_range]
    refine ⟨va / PAGESIZE, ?_, ?_⟩ <;> simp only [PAGESIZE] at * <;> omega

/-- The search loop returns the first `P_FREE` slot at or after `start`, or `NPROC`. -/
theorem forkSlotLoop_spec (c : Config) (s : KState) (fuel start : Nat)
    (hfuel : c.NPROC ≤ start + fuel) (hstart : start ≤ c.NPROC) :
    start ≤ forkSlotLoop c s fuel start ∧ forkSlotLoop c s fuel start ≤ c.NPROC ∧
    (∀ j, start ≤ j → j < forkSlotLoop c s fuel start →
      (s.ptable j).state ≠ ProcState.P_FREE) ∧
    (forkSlotLoop c s fuel start < c.NPROC →
      (s.ptable (forkSlotLoop c s fuel start)).state = ProcState.P_FREE) := by
  induction fuel generalizing start with
  | zero =>
    have e : start = c.NPROC := by omega
    simp only [forkSlotLoop]
    refine ⟨Nat.le_refl _, hstart, ?_, ?_⟩
    · intro j h1 h2; omega
    · intro h; omega
  | succ n ih =>
    unfold forkSlotLoop
    by_cases hlt : start < c.NPROC
    · rw [if_pos hlt]
      by_cases hfree : (s.ptable start).state = ProcState.P_FREE
      · rw [if_pos hfree]
        refine ⟨Nat.le_refl _, hstart, ?_, fun _ => hfree⟩
        intro j h1 h2; omega
      · rw [if_neg hfree]
        have h := ih (start + 1) (by omega) (by omega)
        refine ⟨by omega, h.2.1, ?_, h.2.2.2⟩
        intro j h1 h2
        by_cases e : j = start
        · rw [e]; exact hfree
        · exact h.2.2.1 j (by omega) h2
    · rw [if_neg hlt]
      refine ⟨Nat.le_refl _, hstart, ?_, ?_⟩
      · intro j h1 h2; omega
      · intro h; omega

/-- Unfolding of a `fork` that did not return `-1`. -/
theorem fork_success (c : Config) (s : KState) (h : (fork c s).1 ≠ -1) :
    forkSlot c s ≠ c.NPROC ∧ (kalloc c PAGESIZE s).1 ≠ 0 ∧ (forkWalkOf c s).ok = true ∧
    fork c s = ((forkSlot c s : Int),
      { (forkWalkOf c s).s with
        ptable := setAt (forkWalkOf c s).s.ptable (forkSlot c s)
          { ((forkWalkOf c s).s.ptable (forkSlot c s)) with
            pagetable := (forkWalkOf c s).pt,
            regs := { ((forkWalkOf c s).s.ptable (forkWalkOf c s).s.current).regs with
                      reg_rax := 0 },
            state := ProcState.P_RUNNABLE } }) := by
  unfold fork at h ⊢
  simp only [] at h ⊢
  by_cases h1 : forkSlotLoop c s c.NPROC 1 = c.NPROC
  · rw [if_pos h1] at h; exact absurd rfl h
  · rw [if_neg h1] at h ⊢
    by_cases h2 : (kalloc c PAGESIZE s).1 = 0
    · rw [if_pos h2] at h; exact absurd rfl h
    · rw [if_neg h2] at h ⊢
      by_cases h3 : (forkWalk c (s.ptable s.current).pagetable (pageAddrs c.MEMSIZE_VIRTUAL)
          ⟨true, (kalloc c PAGESIZE s).2, PageTable.empty (kalloc c PAGESIZE s).1,
            [(kalloc c PAGESIZE s).1]⟩).ok = true
      · rw [if_pos h3]
        exact ⟨h1, h2, h3, rfl⟩
      · rw [if_neg h3] at h; exact absurd rfl h

/-- The walk of a successful `fork`, seen from the state before the call. -/
theorem forkWalkOf_ok (c : Config) (s : KState) (hal : s.next_alloc_pa % PAGESIZE = 0)
    (hok : (forkWalkOf c s).ok = true) :
    Grows s (forkWalkOf c s).s ∧
    (forkWalkOf c s).pt.root = (kalloc c PAGESIZE s).1 ∧
    (∀ n, n ∉ (pageAddrs c.MEMSIZE_VIRTUAL).map (fun va => va / PAGESIZE) →
      (forkWalkOf c s).pt.entries n = ⟨0, Perm.none⟩) ∧
    (∀ va, va % PAGESIZE = 0 → va < c.MEMSIZE_VIRTUAL →
      ForkPage c (s.ptable s.current).pagetable va s (forkWalkOf c s).s
        ⟨0, Perm.none⟩ ((forkWalkOf c s).pt.entries (va / PAGESIZE))) := by
  have hg := kalloc_grows c PAGESIZE s hal
  have hpa := pageAddrs_spec c.MEMSIZE_VIRTUAL
  have h := forkWalk_ok c (s.ptable s.current).pagetable (pageAddrs c.MEMSIZE_VIRTUAL)
    ⟨true, (kalloc c PAGESIZE s).2, PageTable.empty (kalloc c PAGESIZE s).1,
      [(kalloc c PAGESIZE s).1]⟩ hg.2.2.2.2 (fun va hva => (hpa.1 va hva).1) hpa.2.1 hok
  refine ⟨hg.gtrans h.1, h.2.1, h.2.2.1, ?_⟩
  intro va h1 h2
  exact (h.2.2.2 va (hpa.2.2 va h1 h2)).extend_before hg h1

theorem kallocLoop_procs (c : Config) (fuel : Nat) (s : KState) :
    (kallocLoop c fuel s).2.ptable = s.ptable ∧ (kallocLoop c fuel s).2.current = s.current := by
  induction fuel generalizing s with
  | zero => exact ⟨rfl, rfl⟩
  | succ n ih =>
    unfold kallocLoop
    simp only []
    split
    · split
      · exact ⟨rfl, rfl⟩
      · exact ih _
    · exact ⟨rfl, rfl⟩

/-- `kalloc` never touches the process table or `current`. -/
theorem kalloc_procs (c : Config) (sz : Nat) (s : KState) :
    (kalloc c sz s).2.ptable = s.ptable ∧ (kalloc c sz s).2.current = s.current := by
  unfold kalloc
  split
  · exact ⟨rfl, rfl⟩
  · exact kallocLoop_procs c _ s

theorem kfree_procs (c : Config) (p : Nat) (s : KState) :
    (kfree c p s).ptable = s.ptable ∧ (kfree c p s).current = s.current := by
  unfold kfree
  split
  · exact ⟨rfl, rfl⟩
  · simp only []
    split <;> exact ⟨rfl, rfl⟩

theorem arrfree_procs (c : Config) (sf : List Nat) (s : KState) :
    (arrfree c sf s).ptable = s.ptable ∧ (arrfree c sf s).current = s.current := by
  induction sf with
  | nil => exact ⟨rfl, rfl⟩
  | cons p rest ih =>
    have h := kfree_procs c p (arrfree c rest s)
    exact ⟨h.1.trans ih.1, h.2.trans ih.2⟩

theorem allocNodes_procs (c : Config) (ks : List (Nat × Nat)) (s : KState) (pt : PageTable) :
    (allocNodes c ks s pt).s.ptable = s.ptable ∧
    (allocNodes c ks s pt).s.current = s.current := by
  induction ks generalizing s pt with
  | nil => exact ⟨rfl, rfl⟩
  | cons k ks ih =>
    unfold allocNodes
    split
    · exact ih s pt
    · simp only []
      have h2 := kalloc_procs c PAGESIZE s
      split
      · exact h2
      · have h1 := ih (kalloc c PAGESIZE s).2
          { pt with nodes := pt.nodes ++ [(k, (kalloc c PAGESIZE s).1)] }
        exact ⟨h1.1.trans h2.1, h1.2.trans h2.2⟩

/-- `try_map` never touches the process table or `current`. -/
theorem try_map_procs (c : Config) (pt : PageTable) (va pa : Nat) (perm : Perm) (s : KState) :
    (try_map c pt va pa perm s).s.ptable = s.ptable ∧
    (try_map c pt va pa perm s).s.current = s.current := by
  unfold try_map
  simp only []
  split <;> exact allocNodes_procs c _ s pt

/-- No iteration of the `fork` walk touches the process table or `current`. -/
theorem forkStep_procs (c : Config) (parpt : PageTable) (va : Nat) (s : KState)
    (child : PageTable) (sf : List Nat) :
    (forkStep c parpt va s child sf).s.ptable = s.ptable ∧
    (forkStep c parpt va s child sf).s.current = s.current := by
  by_cases hp : vm_present parpt va = true
  · by_cases hc : ForkCopies c parpt va
    · rw [forkStep_copy c parpt va _ _ _ hp hc]
      have hk := kalloc_procs c PAGESIZE s
      have hm := try_map_procs c child va (kalloc c PAGESIZE s).1 (vm_perm parpt va)
        (forkCopyState parpt va (kalloc c PAGESIZE s))
      have hm1 : (try_map c child va (kalloc c PAGESIZE s).1 (vm_perm parpt va)
          (forkCopyState parpt va (kalloc c PAGESIZE s))).s.ptable = s.ptable := hm.1.trans hk.1
      have hm2 : (try_map c child va (kalloc c PAGESIZE s).1 (vm_perm parpt va)
          (forkCopyState parpt va (kalloc c PAGESIZE s))).s.current = s.current := hm.2.trans hk.2
      split
      · have ha := arrfree_procs c sf (kalloc c PAGESIZE s).2
        exact ⟨ha.1.trans hk.1, ha.2.trans hk.2⟩
      · split
        · have ha := arrfree_procs c (sf ++ [(kalloc c PAGESIZE s).1])
            (try_map c child va (kalloc c PAGESIZE s).1 (vm_perm parpt va)
              (forkCopyState parpt va (kalloc c PAGESIZE s))).s
          exact ⟨ha.1.trans hm1, ha.2.trans hm2⟩
        · exact ⟨hm1, hm2⟩
    · rw [forkStep_share c parpt va _ _ _ hp hc]
      have hm := try_map_procs c child va (vm_pa parpt va) (vm_perm parpt va) s
      split
      · have ha := arrfree_procs c sf (try_map c child va (vm_pa parpt va) (vm_perm parpt va) s).s
        exact ⟨ha.1.trans hm.1, ha.2.trans hm.2⟩
      · exact hm
  · have hp' : vm_present parpt va = false := by simpa using hp
    rw [forkStep_absent c parpt va _ _ _ hp']
    exact ⟨rfl, rfl⟩

/-- The walk of `fork` never touches the process table or `current`. -/
theorem forkWalkOf_procs (c : Config) (s : KState) :
    (forkWalkOf c s).s.ptable = s.ptable ∧ (forkWalkOf c s).s.current = s.current := by
  have hk := kalloc_procs c PAGESIZE s
  exact walkList_inv (forkStep c (s.ptable s.current).pagetable)
    (fun w => w.s.ptable = s.ptable ∧ w.s.current = s.current)
    (fun va w _ hw =>
      have h := forkStep_procs c (s.ptable s.current).pagetable va w.s w.pt w.sf
      ⟨h.1.trans hw.1, h.2.trans hw.2⟩)
    (pageAddrs c.MEMSIZE_VIRTUAL) _ hk

/-- C9 (fork return values and registers): when `fork()` succeeds with child slot
`c`, the value returned to the parent is `c`, which is `ptable[c].pid`;
`ptable[c].regs` is the parent's saved register snapshot with `reg_rax` replaced by
0; `ptable[c].state` is `P_RUNNABLE`; and every other slot, the running parent
included, is unchanged. -/
theorem fork_return_and_registers (c : Config) (s : KState)
    (hN : 1 ≤ c.NPROC) (hsucc : (fork c s).1 ≠ -1)
    (hpid : (s.ptable (forkSlot c s)).pid = forkSlot c s)
    (hrun : (s.ptable s.current).state = ProcState.P_RUNNABLE) :
    (fork c s).1 = (forkSlot c s : Int) ∧
    ((fork c s).2.ptable (forkSlot c s)).pid = forkSlot c s ∧
    ((fork c s).2.ptable (forkSlot c s)).regs
      = { (s.ptable s.current).regs with reg_rax := 0 } ∧
    ((fork c s).2.ptable (forkSlot c s)).regs.reg_rax = 0 ∧
    ((fork c s).2.ptable (forkSlot c s)).state = ProcState.P_RUNNABLE ∧
    (∀ i, i ≠ forkSlot c s → (fork c s).2.ptable i = s.ptable i) ∧
    forkSlot c s ≠ s.current ∧
    ((fork c s).2.ptable s.current).state = ProcState.P_RUNNABLE ∧
    (fork c s).2.current = s.current := by
  have hf := fork_success c s hsucc
  have hpt : (forkWalkOf c s).s.ptable = s.ptable := (forkWalkOf_procs c s).1
  have hcur : (forkWalkOf c s).s.current = s.current := (forkWalkOf_procs c s).2
  have hspec := forkSlotLoop_spec c s c.NPROC 1 (by omega) hN
  have hlt : forkSlot c s < c.NPROC := by
    have h' : forkSlot c s ≤ c.NPROC := hspec.2.1
    have := hf.1
    omega
  have hne : forkSlot c s ≠ s.current := by
    intro e
    have h' : (s.ptable (forkSlot c s)).state = ProcState.P_FREE := hspec.2.2.2 hlt
    rw [e, hrun] at h'
    exact absurd h' (by decide)
  rw [hf.2.2.2]
  refine ⟨rfl, ?_, ?_, ?_, ?_, ?_, hne, ?_, hcur⟩
  · simp only [setAt, if_true]; rw [hpt]; exact hpid
  · simp only [setAt, if_true]; rw [hpt, hcur]
  · simp only [setAt, if_true]
  · simp only [setAt, if_true]
  · intro i hi
    simp only [setAt]
    rw [if_neg hi, hpt]
  · simp only [setAt]
    rw [if_neg (Ne.symm hne), hpt]
    exact hrun

theorem fork_return_and_registers_witness :
    1 ≤ demoConfig.NPROC ∧ (fork demoConfig demoState).1 ≠ -1 ∧
    (demoState.ptable (forkSlot demoConfig demoState)).pid = forkSlot demoConfig demoState ∧
    (demoState.ptable demoState.current).state = ProcState.P_RUNNABLE ∧
    ((fork demoConfig demoState).2.ptable (forkSlot demoConfig demoState)).regs.reg_rax = 0 :=
  have h := fork_return_and_registers demoConfig demoState (by decide) (by decide) (by decide)
    (by decide)
  ⟨by decide, by decide, by decide, by decide, h.2.2.2.1⟩

/-- Reading a present entry of an aligned page through the `vmiter` accessors. -/
theorem vm_of_entry (pt : PageTable) (va fr : Nat) (perm : Perm) (hva : va % PAGESIZE = 0)
    (he : pt.entries (va / PAGESIZE) = ⟨fr, perm⟩) (hp : perm.p = true) :
    vm_present pt va = true ∧ vm_pa pt va = fr * PAGESIZE ∧ vm_perm pt va = perm ∧
    vm_pa pt va / PAGESIZE = fr := by
  have h1 : vm_present pt va = true := by unfold vm_present; rw [he]; exact hp
  have h2 := vm_pa_aligned pt va hva h1
  rw [he] at h2
  refine ⟨h1, h2.1, ?_, h2.2.2⟩
  unfold vm_perm; rw [if_pos h1, he]

/-- The permissions of a present page have the present bit set. -/
theorem vm_perm_present (pt : PageTable) (va : Nat) (hp : vm_present pt va = true) :
    (vm_perm pt va).p = true := by
  unfold vm_perm; rw [if_pos hp]; exact hp

/-- The components of the state after a successful `fork`. -/
theorem fork_success_state (c : Config) (s : KState) (h : (fork c s).1 ≠ -1) :
    childTable c s = (forkWalkOf c s).pt ∧
    (fork c s).2.pages = (forkWalkOf c s).s.pages ∧
    (fork c s).2.mem = (forkWalkOf c s).s.mem ∧
    (fork c s).2.next_alloc_pa = (forkWalkOf c s).s.next_alloc_pa := by
  have hf := fork_success c s h
  unfold childTable
  rw [hf.2.2.2]
  refine ⟨?_, rfl, rfl, rfl⟩
  simp only [setAt, if_true]

/-- A successful `fork()` leaves the reference count of every frame in use unchanged;
in particular it never increments the count of a frame it shares. -/
theorem fork_used_refcount_unchanged (c : Config) (s : KState) (f : Nat)
    (hal : s.next_alloc_pa % PAGESIZE = 0) (hsucc : (fork c s).1 ≠ -1)
    (hused : s.pages f ≠ 0) : (fork c s).2.pages f = s.pages f := by
  have hf := fork_success c s hsucc
  rw [(fork_success_state c s hsucc).2.1]
  exact (forkWalkOf_ok c s hal hf.2.2.1).1.used f hused

/-- C8 (fork reference counting) fails on the code: in the demo machine after boot,
process 1 has a user-accessible read-only page at virtual page 8 backed by frame 6
with refcount 1; `fork()` succeeds (child slot 2), the child maps the identical
frame, and the frame's refcount is still 1 rather than 2. -/
theorem fork_shared_refcount_not_incremented :
    (fork demoConfig demoState).1 = 2 ∧
    vm_user (parentTable demoState) (8 * 4096) = true ∧
    vm_writable (parentTable demoState) (8 * 4096) = false ∧
    vm_user (childTable demoConfig demoState) (8 * 4096) = true ∧
    vm_pa (childTable demoConfig demoState) (8 * 4096) = 6 * 4096 ∧
    vm_pa (parentTable demoState) (8 * 4096) = 6 * 4096 ∧
    demoState.pages 6 = 1 ∧
    (fork demoConfig demoState).2.pages 6 = 1 := by
  decide

/-- `process_setup` as a cascade over its phases. -/
theorem process_setup_eq (c : Config) (pid : Nat) (prog : Program) (s : KState) :
    process_setup c pid prog s =
      if (kalloc c PAGESIZE (psInit s pid)).1 = 0 then (kalloc c PAGESIZE (psInit s pid)).2
      else if (psKernelWalk c pid s).ok = false then (psKernelWalk c pid s).s
      else if (psLoadWalk c pid prog s).ok = false then
        setPagetable (psLoadWalk c pid prog s).s pid (psLoadWalk c pid prog s).pt
      else if (kalloc c PAGESIZE (psLoaded c pid prog s)).1 = 0 then
        arrfree c (psLoadWalk c pid prog s).sf (kalloc c PAGESIZE (psLoaded c pid prog s)).2
      else if (psStackMap c pid prog s).ret < 0 then
        arrfree c ((psLoadWalk c pid prog s).sf ++ [(kalloc c PAGESIZE (psLoaded c pid prog s)).1])
          (setPagetable (psStackMap c pid prog s).s pid (psStackMap c pid prog s).pt)
      else
        { (setPagetable (psStackMap c pid prog s).s pid (psStackMap c pid prog s).pt) with
          ptable := setAt
            (setPagetable (psStackMap c pid prog s).s pid (psStackMap c pid prog s).pt).ptable pid
            { ((setPagetable (psStackMap c pid prog s).s pid
                  (psStackMap c pid prog s).pt).ptable pid) with
              state := ProcState.P_RUNNABLE } } := by
  rfl

/-- `fork` as a cascade over its phases. -/
theorem fork_eq (c : Config) (s : KState) :
    fork c s =
      if forkSlot c s = c.NPROC then (-1, s)
      else if (kalloc c PAGESIZE s).1 = 0 then (-1, (kalloc c PAGESIZE s).2)
      else if (forkWalkOf c s).ok = true then
        ((forkSlot c s : Int),
          { (forkWalkOf c s).s with
            ptable := setAt (forkWalkOf c s).s.ptable (forkSlot c s)
              { ((forkWalkOf c s).s.ptable (forkSlot c s)) with
                pagetable := (forkWalkOf c s).pt,
                regs := { ((forkWalkOf c s).s.ptable (forkWalkOf c s).s.current).regs with
                          reg_rax := 0 },
                state := ProcState.P_RUNNABLE } })
      else (-1, (forkWalkOf c s).s) := by
  rfl

/-- C19 (PAGE_ALLOC validation): for every `addr` that is not a multiple of
`PAGESIZE`, or is below `PROC_START_ADDR`, or is at or above `MEMSIZE_VIRTUAL`,
`syscall_page_alloc(addr)` returns `-1` and leaves the entire kernel state unchanged
(refcounts, cursor, page tables and memory). -/
theorem page_alloc_validation (c : Config) (addr : Nat) (s : KState)
    (h : addr % PAGESIZE ≠ 0 ∨ addr < c.PROC_START_ADDR ∨ addr ≥ c.MEMSIZE_VIRTUAL) :
    syscall_page_alloc c addr s = (-1, s) := by
  unfold syscall_page_alloc
  have h' : addr % 4096 ≠ 0 ∨ addr < c.PROC_START_ADDR ∨ addr ≥ c.MEMSIZE_VIRTUAL := h
  rw [if_pos h']

theorem page_alloc_validation_witness :
    ((9 * 4096 + 5) % PAGESIZE ≠ 0 ∨ 9 * 4096 + 5 < demoConfig.PROC_START_ADDR
      ∨ 9 * 4096 + 5 ≥ demoConfig.MEMSIZE_VIRTUAL) ∧
    (syscall_page_alloc demoConfig (9 * 4096 + 5) demoState).1 = -1 ∧
    (syscall_page_alloc demoConfig (9 * 4096 + 5) demoState).2.next_alloc_pa
      = demoState.next_alloc_pa :=
  have h := page_alloc_validation demoConfig (9 * 4096 + 5) demoState (Or.inl (by decide))
  ⟨Or.inl (by decide), by rw [h], by rw [h]⟩

/-- C11 (fork rollback) fails on the code: with three frames left, `fork()` by
process 1 allocates the child's top-level table (frame 29), a page-table node
(frame 30, inside `try_map`) and one page copy (frame 31); `kalloc` then fails for
the copy of the stack page and `fork()` returns `-1`.  `arrfree` releases the two
frames recorded in `should_free`, but frame 30, which holds the child's page-table
node and was free before the call, keeps refcount 1.  The states of all slots are
unchanged (slot 3 is still `P_FREE`). -/
theorem fork_rollback_leaks_node :
    (fork demoConfig tightState).1 = -1 ∧
    forkSlot demoConfig tightState = 3 ∧
    ((fork demoConfig tightState).2.ptable 3).state = ProcState.P_FREE ∧
    (kalloc demoConfig PAGESIZE tightState).1 = 29 * 4096 ∧
    tightState.pages 29 = 0 ∧ (fork demoConfig tightState).2.pages 29 = 0 ∧
    tightState.pages 31 = 0 ∧ (fork demoConfig tightState).2.pages 31 = 0 ∧
    tightState.pages 30 = 0 ∧ (fork demoConfig tightState).2.pages 30 = 1 := by
  decide

/-- C14 as stated fails on the code: after `sys_exit()` of process 1 of the demo
machine the slot is `P_FREE` but its `pagetable` handle still holds the address of
the top-level table (frame 1), not null. -/
theorem sys_exit_handle_not_cleared :
    ((sys_exit demoConfig demoState).ptable 1).state = ProcState.P_FREE ∧
    ((sys_exit demoConfig demoState).ptable 1).pagetable.root = 4096 ∧
    ((sys_exit demoConfig demoState).ptable 1).pagetable.root ≠ 0 := by
  decide

/-- `kfree` does not touch memory. -/
theorem kfree_mem (c : Config) (p : Nat) (s : KState) : (kfree c p s).mem = s.mem := by
  unfold kfree
  split
  · rfl
  · simp only []
    split <;> rfl

/-- An iteration of the walk of `sys_exit` touches neither the process table,
`current`, nor memory. -/
theorem exitStep_frame (c : Config) (pt : PageTable) (va : Nat) (s : KState) :
    (exitStep c pt va s).ptable = s.ptable ∧ (exitStep c pt va s).current = s.current ∧
    (exitStep c pt va s).mem = s.mem := by
  unfold exitStep
  split
  · exact ⟨(kfree_procs c _ s).1, (kfree_procs c _ s).2, kfree_mem c _ s⟩
  · split
    · exact ⟨rfl, rfl, rfl⟩
    · exact ⟨rfl, rfl, rfl⟩

theorem exitWalk_frame (c : Config) (pt : PageTable) (vas : List Nat) (s : KState) :
    (exitWalk c pt vas s).ptable = s.ptable ∧ (exitWalk c pt vas s).current = s.current ∧
    (exitWalk c pt vas s).mem = s.mem := by
  induction vas generalizing s with
  | nil => exact ⟨rfl, rfl, rfl⟩
  | cons v vs ih =>
    have h1 := exitStep_frame c pt v s
    have h2 := ih (exitStep c pt v s)
    exact ⟨h2.1.trans h1.1, h2.2.1.trans h1.2.1, h2.2.2.trans h1.2.2⟩

/-- Freeing a list of table nodes touches neither the process table, `current`, nor
memory. -/
theorem freeList_frame (c : Config) (ns : List ((Nat × Nat) × Nat)) (s : KState) :
    (ns.foldl (fun st n => kfree c n.2 st) s).ptable = s.ptable ∧
    (ns.foldl (fun st n => kfree c n.2 st) s).current = s.current ∧
    (ns.foldl (fun st n => kfree c n.2 st) s).mem = s.mem := by
  induction ns generalizing s with
  | nil => exact ⟨rfl, rfl, rfl⟩
  | cons n ns ih =>
    have h1 := kfree_procs c n.2 s
    have h2 := ih (kfree c n.2 s)
    exact ⟨h2.1.trans h1.1, h2.2.1.trans h1.2, h2.2.2.trans (kfree_mem c n.2 s)⟩

/-- The state `sys_exit` reaches before it marks the slot free. -/
theorem sys_exit_eq (c : Config) (s : KState) :
    sys_exit c s =
      { (freeNodes c (s.ptable s.current).pagetable
          (exitWalk c (s.ptable s.current).pagetable (pageAddrs c.MEMSIZE_VIRTUAL) s)) with
        ptable := setAt s.ptable (s.ptable s.current).pid
          { (s.ptable (s.ptable s.current).pid) with state := ProcState.P_FREE } } := by
  have h1 := exitWalk_frame c (s.ptable s.current).pagetable (pageAddrs c.MEMSIZE_VIRTUAL) s
  have h2 := freeList_frame c (s.ptable s.current).pagetable.nodes
    (exitWalk c (s.ptable s.current).pagetable (pageAddrs c.MEMSIZE_VIRTUAL) s)
  have hp : (freeNodes c (s.ptable s.current).pagetable
      (exitWalk c (s.ptable s.current).pagetable (pageAddrs c.MEMSIZE_VIRTUAL) s)).ptable
      = s.ptable := h2.1.trans h1.1
  have hc : (freeNodes c (s.ptable s.current).pagetable
      (exitWalk c (s.ptable s.current).pagetable (pageAddrs c.MEMSIZE_VIRTUAL) s)).current
      = s.current := h2.2.1.trans h1.2.1
  unfold sys_exit
  simp only []
  rw [hp, hc]

/-- C14 (exit final state, amended): after `sys_exit()` the slot `ptable[current->pid]`
(the slot of the exiting process) has state `P_FREE` while its `pagetable` handle,
registers and pid are left as they were (the handle is not cleared); every other
slot, `current` and memory are unchanged. -/
theorem sys_exit_final_state (c : Config) (s : KState) (i : Nat)
    (hi : i ≠ (s.ptable s.current).pid) :
    ((sys_exit c s).ptable (s.ptable s.current).pid).state = ProcState.P_FREE ∧
    ((sys_exit c s).ptable (s.ptable s.current).pid).pagetable
      = (s.ptable (s.ptable s.current).pid).pagetable ∧
    ((sys_exit c s).ptable (s.ptable s.current).pid).regs
      = (s.ptable (s.ptable s.current).pid).regs ∧
    ((sys_exit c s).ptable (s.ptable s.current).pid).pid
      = (s.ptable (s.ptable s.current).pid).pid ∧
    (sys_exit c s).ptable i = s.ptable i ∧
    (sys_exit c s).current = s.current ∧ (sys_exit c s).mem = s.mem := by
  have h1 := exitWalk_frame c (s.ptable s.current).pagetable (pageAddrs c.MEMSIZE_VIRTUAL) s
  have h2 := freeList_frame c (s.ptable s.current).pagetable.nodes
    (exitWalk c (s.ptable s.current).pagetable (pageAddrs c.MEMSIZE_VIRTUAL) s)
  rw [sys_exit_eq]
  simp only [setAt, if_true]
  refine ⟨trivial, trivial, trivial, trivial, ?_, h2.2.1.trans h1.2.1, h2.2.2.trans h1.2.2⟩
  rw [if_neg hi]

theorem sys_exit_final_state_witness :
    (2 : Nat) ≠ (demoState.ptable demoState.current).pid ∧
    ((sys_exit demoConfig demoState).ptable (demoState.ptable demoState.current).pid).state
      = ProcState.P_FREE ∧
    (sys_exit demoConfig demoState).ptable 2 = demoState.ptable 2 :=
  have h := sys_exit_final_state demoConfig demoState 2 (by decide)
  ⟨by decide, h.1, h.2.2.2.2.1⟩

/-- C13 (exit frees the page table) fails on the code: process 1 of the demo machine
has its top-level table in frame 1 and lower-level nodes in frames 2 and 9, all with
refcount 1; after `sys_exit()` the node frames 2 and 9 have refcount 0 but frame 1,
the top-level table, still has refcount 1. -/
theorem sys_exit_leaks_top_level_table :
    (demoState.ptable demoState.current).pagetable.root = 1 * 4096 ∧
    (demoState.ptable demoState.current).pagetable.nodes.map (fun n => n.2)
      = [2 * 4096, 9 * 4096] ∧
    demoState.pages 1 = 1 ∧ demoState.pages 2 = 1 ∧ demoState.pages 9 = 1 ∧
    (sys_exit demoConfig demoState).pages 2 = 0 ∧
    (sys_exit demoConfig demoState).pages 9 = 0 ∧
    (sys_exit demoConfig demoState).pages 1 = 1 := by
  decide

/-- `kfree` of a non-null address sets the frame's reference count to 0. -/
theorem kfree_pages_hit (c : Config) (p : Nat) (s : KState) (hp : p ≠ 0) :
    (kfree c p s).pages (p / PAGESIZE) = 0 := by
  unfold kfree
  rw [if_neg hp]
  simp only [setAt, if_true]

/-- `kfree` never raises a reference count or the cursor. -/
theorem kfree_le (c : Config) (p : Nat) (s : KState) :
    (∀ f, (kfree c p s).pages f ≤ s.pages f) ∧ (kfree c p s).next_alloc_pa ≤ s.next_alloc_pa := by
  unfold kfree
  by_cases hp : p = 0
  · rw [if_pos hp]; exact ⟨fun _ => Nat.le_refl _, Nat.le_refl _⟩
  · rw [if_neg hp]
    simp only []
    constructor
    · intro f
      simp only [setAt]
      by_cases hf : f = p / PAGESIZE
      · rw [if_pos hf]; exact Nat.zero_le _
      · rw [if_neg hf]
        split <;> exact Nat.le_refl _
    · split
      · rename_i h; exact Nat.le_of_lt h.1
      · exact Nat.le_refl _

/-- An iteration of the walk of `sys_exit` lowers the count of the frame of a page
that passes the test by one, stopping at zero. -/
theorem exitStep_pages_hit (c : Config) (pt : PageTable) (va : Nat) (s : KState)
    (hq : ExitCond c pt va) (hnz : vm_pa pt va ≠ 0) :
    (exitStep c pt va s).pages (vm_pa pt va / PAGESIZE)
      = s.pages (vm_pa pt va / PAGESIZE) - 1 := by
  unfold exitStep
  by_cases h1 : ExitCond c pt va ∧ s.pages (vm_pa pt va / PAGESIZE) = 1
  · rw [if_pos h1, kfree_pages_hit c _ s hnz, h1.2]
  · rw [if_neg h1]
    by_cases h2 : ExitCond c pt va ∧ s.pages (vm_pa pt va / PAGESIZE) > 1
    · rw [if_pos h2]
      simp only [setAt, if_true]
    · rw [if_neg h2]
      have : s.pages (vm_pa pt va / PAGESIZE) = 0 := by
        by_contra hne
        by_cases e : s.pages (vm_pa pt va / PAGESIZE) = 1
        · exact h1 ⟨hq, e⟩
        · exact h2 ⟨hq, by omega⟩
      rw [this]

/-- C12 (exit releases one ownership per user page) fails on the code: process 1 of
the demo machine maps the writable user page at virtual page 9 to frame 7 (not the
console frame) with refcount 1.  The page's virtual address lies below
`MEMSIZE_PHYSICAL`, where `kernel_pagetable` (which `kernel()` fills with a mapping
for every physical page) has a mapping, so the test
`!vmiter(kernel_pagetable, va).present()` of the walk of `sys_exit` (lines 607, 612)
is false, the page is skipped, and the refcount of frame 7 is still 1 afterwards. -/
theorem sys_exit_skips_low_pages :
    vm_present (demoState.ptable demoState.current).pagetable (9 * 4096) = true ∧
    vm_user (demoState.ptable demoState.current).pagetable (9 * 4096) = true ∧
    vm_pa (demoState.ptable demoState.current).pagetable (9 * 4096) = 7 * 4096 ∧
    vm_pa (demoState.ptable demoState.current).pagetable (9 * 4096) ≠ demoConfig.CONSOLE_ADDR ∧
    vm_present (kernel_pagetable demoConfig) (9 * 4096) = true ∧
    demoState.pages 7 = 1 ∧ (sys_exit demoConfig demoState).pages 7 = 1 := by
  decide

/-- `kfree` changes nothing when the address is null, or the frame is already free
and the cursor is not above it. -/
theorem kfree_noop (c : Config) (p : Nat) (s : KState)
    (h : p = 0 ∨ (s.pages (p / PAGESIZE) = 0 ∧
      ¬ (s.next_alloc_pa > p ∧ c.allocatable_physical_address p = true))) :
    kfree c p s = s := by
  unfold kfree
  by_cases hp : p = 0
  · rw [if_pos hp]
  · rw [if_neg hp]
    rcases h with h | h
    · exact absurd h hp
    · simp only []
      rw [if_neg h.2]
      have e : setAt s.pages (p / PAGESIZE) 0 = s.pages := by
        funext f
        simp only [setAt]
        by_cases hf : f = p / PAGESIZE
        · rw [if_pos hf, hf, h.1]
        · rw [if_neg hf]
      rw [e]

/-- An iteration of the walk of `sys_exit` never raises a count or the cursor. -/
theorem exitStep_le (c : Config) (pt : PageTable) (va : Nat) (s : KState) :
    (∀ f, (exitStep c pt va s).pages f ≤ s.pages f) ∧
    (exitStep c pt va s).next_alloc_pa ≤ s.next_alloc_pa := by
  unfold exitStep
  split
  · exact kfree_le c _ s
  · split
    · refine ⟨fun f => ?_, Nat.le_refl _⟩
      simp only [setAt]
      by_cases hf : f = vm_pa pt va / PAGESIZE
      · rw [if_pos hf, hf]; exact Nat.sub_le _ _
      · rw [if_neg hf]
    · exact ⟨fun _ => Nat.le_refl _, Nat.le_refl _⟩

theorem exitWalk_le (c : Config) (pt : PageTable) (vas : List Nat) (s : KState) :
    (∀ f, (exitWalk c pt vas s).pages f ≤ s.pages f) ∧
    (exitWalk c pt vas s).next_alloc_pa ≤ s.next_alloc_pa := by
  induction vas generalizing s with
  | nil => exact ⟨fun _ => Nat.le_refl _, Nat.le_refl _⟩
  | cons v vs ih =>
    have h1 := exitStep_le c pt v s
    have h2 := ih (exitStep c pt v s)
    exact ⟨fun f => Nat.le_trans (h2.1 f) (h1.1 f), Nat.le_trans h2.2 h1.2⟩

theorem freeList_le (c : Config) (ns : List ((Nat × Nat) × Nat)) (s : KState) :
    (∀ f, (ns.foldl (fun st n => kfree c n.2 st) s).pages f ≤ s.pages f) ∧
    (ns.foldl (fun st n => kfree c n.2 st) s).next_alloc_pa ≤ s.next_alloc_pa := by
  induction ns generalizing s with
  | nil => exact ⟨fun _ => Nat.le_refl _, Nat.le_refl _⟩
  | cons n ns ih =>
    have h1 := kfree_le c n.2 s
    have h2 := ih (kfree c n.2 s)
    exact ⟨fun f => Nat.le_trans (h2.1 f) (h1.1 f), Nat.le_trans h2.2 h1.2⟩

/-- An iteration of the walk of `sys_exit` changes nothing when the page fails the
test, its frame is already free, or it is the null frame with a count of at most 1. -/
theorem exitStep_noop (c : Config) (pt : PageTable) (va : Nat) (s : KState)
    (h : ExitCond c pt va → s.pages (vm_pa pt va / PAGESIZE) = 0 ∨
      (vm_pa pt va = 0 ∧ s.pages (vm_pa pt va / PAGESIZE) ≤ 1)) :
    exitStep c pt va s = s := by
  unfold exitStep
  by_cases h1 : ExitCond c pt va ∧ s.pages (vm_pa pt va / PAGESIZE) = 1
  · rw [if_pos h1]
    rcases h h1.1 with h0 | h0
    · rw [h1.2] at h0; cases h0
    · exact kfree_noop c _ s (Or.inl h0.1)
  · rw [if_neg h1]
    by_cases h2 : ExitCond c pt va ∧ s.pages (vm_pa pt va / PAGESIZE) > 1
    · exfalso
      rcases h h2.1 with h0 | h0
      · have := h2.2; omega
      · have := h2.2; omega
    · rw [if_neg h2]

theorem exitWalk_noop (c : Config) (pt : PageTable) (vas : List Nat) (s : KState)
    (h : ∀ va, va ∈ vas → ExitCond c pt va → s.pages (vm_pa pt va / PAGESIZE) = 0 ∨
      (vm_pa pt va = 0 ∧ s.pages (vm_pa pt va / PAGESIZE) ≤ 1)) :
    exitWalk c pt vas s = s := by
  induction vas generalizing s with
  | nil => rfl
  | cons v vs ih =>
    show exitWalk c pt vs (exitStep c pt v s) = s
    rw [exitStep_noop c pt v s (h v (List.mem_cons_self _ _))]
    exact ih s (fun va hva => h va (List.mem_cons_of_mem _ hva))

theorem freeList_noop (c : Config) (ns : List ((Nat × Nat) × Nat)) (s : KState)
    (h : ∀ n, n ∈ ns → n.2 = 0 ∨ (s.pages (n.2 / PAGESIZE) = 0 ∧
      ¬ (s.next_alloc_pa > n.2 ∧ c.allocatable_physical_address n.2 = true))) :
    ns.foldl (fun st n => kfree c n.2 st) s = s := by
  induction ns generalizing s with
  | nil => rfl
  | cons n ns ih =>
    show ns.foldl (fun st n => kfree c n.2 st) (kfree c n.2 s) = s
    rw [kfree_noop c n.2 s (h n (List.mem_cons_self _ _))]
    exact ih s (fun m hm => h m (List.mem_cons_of_mem _ hm))

/-- After the walk of `sys_exit`, starting with counts of at most 1 on the frames of
the pages that pass the test, every such frame other than the null frame is free. -/
theorem exitWalk_zero (c : Config) (pt : PageTable) (vas : List Nat) (s : KState)
    (hle : ∀ va, va ∈ vas → ExitCond c pt va → s.pages (vm_pa pt va / PAGESIZE) ≤ 1)
    (va : Nat) (hmem : va ∈ vas) (hq : ExitCond c pt va) (hnz : vm_pa pt va ≠ 0) :
    (exitWalk c pt vas s).pages (vm_pa pt va / PAGESIZE) = 0 := by
  induction vas generalizing s with
  | nil => cases hmem
  | cons v vs ih =>
    show (exitWalk c pt vs (exitStep c pt v s)).pages _ = 0
    rcases List.mem_cons.mp hmem with e | hin
    · subst e
      have h1 := exitStep_pages_hit c pt va s hq hnz
      have h2 := hle va (List.mem_cons_self _ _) hq
      have h3 := (exitWalk_le c pt vs (exitStep c pt va s)).1 (vm_pa pt va / PAGESIZE)
      omega
    · apply ih (exitStep c pt v s) _ hin
      intro w hw hqw
      exact Nat.le_trans ((exitStep_le c pt v s).1 _) (hle w (List.mem_cons_of_mem _ hw) hqw)

/-- After `kfree` of a non-null address the frame is free and the cursor is not above
an allocatable address. -/
theorem kfree_settled (c : Config) (p : Nat) (s : KState) (hp : p ≠ 0) :
    (kfree c p s).pages (p / PAGESIZE) = 0 ∧
    ¬ ((kfree c p s).next_alloc_pa > p ∧ c.allocatable_physical_address p = true) := by
  refine ⟨kfree_pages_hit c p s hp, ?_⟩
  unfold kfree
  rw [if_neg hp]
  simp only []
  by_cases h : s.next_alloc_pa > p ∧ c.allocatable_physical_address p = true
  · rw [if_pos h]
    intro h2
    exact Nat.lt_irrefl _ h2.1
  · rw [if_neg h]
    exact h

/-- After freeing a list of table nodes, every non-null node frame is free and the
cursor is not above it if it is allocatable. -/
theorem freeList_settled (c : Config) (ns : List ((Nat × Nat) × Nat)) (s : KState)
    (n : (Nat × Nat) × Nat) (hmem : n ∈ ns) (hp : n.2 ≠ 0) :
    (ns.foldl (fun st n => kfree c n.2 st) s).pages (n.2 / PAGESIZE) = 0 ∧
    ¬ ((ns.foldl (fun st n => kfree c n.2 st) s).next_alloc_pa > n.2 ∧
        c.allocatable_physical_address n.2 = true) := by
  induction ns generalizing s with
  | nil => cases hmem
  | cons m ms ih =>
    show (ms.foldl (fun st n => kfree c n.2 st) (kfree c m.2 s)).pages _ = 0 ∧
      ¬ ((ms.foldl (fun st n => kfree c n.2 st) (kfree c m.2 s)).next_alloc_pa > n.2 ∧ _)
    rcases List.mem_cons.mp hmem with e | hin
    · subst e
      have h1 := kfree_settled c n.2 s hp
      have h2 := freeList_le c ms (kfree c n.2 s)
      refine ⟨?_, ?_⟩
      · have := h2.1 (n.2 / PAGESIZE); omega
      · intro h3
        exact h1.2 ⟨Nat.lt_of_lt_of_le h3.1 h2.2, h3.2⟩
    · exact ih (kfree c m.2 s) hin

/-- Marking a slot free twice is the same as marking it free once. -/
theorem setAt_free_twice (f : Nat → Proc) (i : Nat) :
    setAt (setAt f i { (f i) with state := ProcState.P_FREE }) i
      { (setAt f i { (f i) with state := ProcState.P_FREE } i) with state := ProcState.P_FREE }
      = setAt f i { (f i) with state := ProcState.P_FREE } := by
  funext j
  simp only [setAt]
  by_cases h : j = i
  · simp only [h, if_true]
  · simp only [h, if_false]

/-- Marking a slot free changes no slot's page table or pid. -/
theorem setAt_free_fields (f : Nat → Proc) (i j : Nat) :
    (setAt f i { (f i) with state := ProcState.P_FREE } j).pagetable = (f j).pagetable ∧
    (setAt f i { (f i) with state := ProcState.P_FREE } j).pid = (f j).pid := by
  simp only [setAt]
  by_cases h : j = i
  · rw [if_pos h, h]; exact ⟨rfl, rfl⟩
  · rw [if_neg h]; exact ⟨rfl, rfl⟩

/-- C15 (exit idempotence, amended): when no page that passes the test of the walk is
backed by a frame with a reference count above 1, `sys_exit()` leaves the slot
`ptable[current->pid]` in state `P_FREE`, and a second `sys_exit()` right after the
first changes nothing: the whole kernel state (reference counts, allocation cursor,
process table, memory, `current`) is the same as after the first. -/
theorem sys_exit_twice_noop (c : Config) (s : KState)
    (hle : ∀ va, va ∈ pageAddrs c.MEMSIZE_VIRTUAL →
      ExitCond c (s.ptable s.current).pagetable va →
      s.pages (vm_pa (s.ptable s.current).pagetable va / PAGESIZE) ≤ 1) :
    ((sys_exit c s).ptable (s.ptable s.current).pid).state = ProcState.P_FREE ∧
    sys_exit c (sys_exit c s) = sys_exit c s := by
  have hfirst := sys_exit_eq c s
  have hw := exitWalk_frame c (s.ptable s.current).pagetable (pageAddrs c.MEMSIZE_VIRTUAL) s
  have hn := freeList_frame c (s.ptable s.current).pagetable.nodes
    (exitWalk c (s.ptable s.current).pagetable (pageAddrs c.MEMSIZE_VIRTUAL) s)
  have hcur : (sys_exit c s).current = s.current := by
    rw [hfirst]; exact hn.2.1.trans hw.2.1
  have hpt : (sys_exit c s).ptable = setAt s.ptable (s.ptable s.current).pid
      { (s.ptable (s.ptable s.current).pid) with state := ProcState.P_FREE } := by
    rw [hfirst]
  have hpages : (sys_exit c s).pages = (freeNodes c (s.ptable s.current).pagetable
      (exitWalk c (s.ptable s.current).pagetable (pageAddrs c.MEMSIZE_VIRTUAL) s)).pages := by
    rw [hfirst]
  have hcursor : (sys_exit c s).next_alloc_pa = (freeNodes c (s.ptable s.current).pagetable
      (exitWalk c (s.ptable s.current).pagetable
        (pageAddrs c.MEMSIZE_VIRTUAL) s)).next_alloc_pa := by
    rw [hfirst]
  have hf := setAt_free_fields s.ptable (s.ptable s.current).pid s.current
  have hT : ((sys_exit c s).ptable (sys_exit c s).current).pagetable
      = (s.ptable s.current).pagetable := by rw [hcur, hpt]; exact hf.1
  have hpid : ((sys_exit c s).ptable (sys_exit c s).current).pid
      = (s.ptable s.current).pid := by rw [hcur, hpt]; exact hf.2
  constructor
  · rw [hpt]; simp only [setAt, if_true]
  · have hsecond := sys_exit_eq c (sys_exit c s)
    rw [hT, hpid] at hsecond
    have hnl := freeList_le c (s.ptable s.current).pagetable.nodes
      (exitWalk c (s.ptable s.current).pagetable (pageAddrs c.MEMSIZE_VIRTUAL) s)
    have hwl := exitWalk_le c (s.ptable s.current).pagetable (pageAddrs c.MEMSIZE_VIRTUAL) s
    have e1 : exitWalk c (s.ptable s.current).pagetable (pageAddrs c.MEMSIZE_VIRTUAL)
        (sys_exit c s) = sys_exit c s := by
      apply exitWalk_noop
      intro va hva hq
      rw [hpages]
      by_cases hz : vm_pa (s.ptable s.current).pagetable va = 0
      · right
        refine ⟨hz, ?_⟩
        exact Nat.le_trans (hnl.1 _) (Nat.le_trans (hwl.1 _) (hle va hva hq))
      · left
        have h0 := exitWalk_zero c (s.ptable s.current).pagetable
          (pageAddrs c.MEMSIZE_VIRTUAL) s hle va hva hq hz
        have := hnl.1 (vm_pa (s.ptable s.current).pagetable va / PAGESIZE)
        unfold freeNodes
        omega
    have e2 : freeNodes c (s.ptable s.current).pagetable (sys_exit c s) = sys_exit c s := by
      unfold freeNodes
      apply freeList_noop
      intro n hn2
      by_cases hz : n.2 = 0
      · exact Or.inl hz
      · right
        rw [hpages, hcursor]
        exact freeList_settled c (s.ptable s.current).pagetable.nodes _ n hn2 hz
    rw [e1, e2] at hsecond
    rw [hsecond]
    have e3 : setAt (sys_exit c s).ptable (s.ptable s.current).pid
        { ((sys_exit c s).ptable (s.ptable s.current).pid) with state := ProcState.P_FREE }
        = (sys_exit c s).ptable := by
      rw [hpt]
      exact setAt_free_twice s.ptable (s.ptable s.current).pid
    rw [e3]

theorem sys_exit_twice_noop_witness :
    (∀ va, va ∈ pageAddrs demoConfig.MEMSIZE_VIRTUAL →
      ExitCond demoConfig (hiState.ptable hiState.current).pagetable va →
      hiState.pages (vm_pa (hiState.ptable hiState.current).pagetable va / PAGESIZE) ≤ 1) ∧
    ((sys_exit demoConfig hiState).ptable (hiState.ptable hiState.current).pid).state
      = ProcState.P_FREE ∧
    sys_exit demoConfig (sys_exit demoConfig hiState) = sys_exit demoConfig hiState :=
  ⟨by decide, sys_exit_twice_noop demoConfig hiState (by decide)⟩

/-- C15 as stated fails on the code: in `staleState` the slot of `current` (slot 2) is
already `P_FREE`, yet `sys_exit()` walks its stale table, finds virtual page 33 mapped
to frame 6 with refcount 1 (the frame now backs page 35 of process 1) and frees it:
the refcount of frame 6 drops from 1 to 0 and the cursor moves from frame 7 back to
frame 6. -/
theorem sys_exit_on_free_slot_frees_frame :
    (staleState.ptable staleState.current).pid = 2 ∧
    (staleState.ptable 2).state = ProcState.P_FREE ∧
    vm_pa (staleState.ptable 1).pagetable (35 * 4096) = 6 * 4096 ∧
    staleState.pages 6 = 1 ∧ staleState.next_alloc_pa = 7 * 4096 ∧
    (sys_exit demoConfig staleState).pages 6 = 0 ∧
    (sys_exit demoConfig staleState).next_alloc_pa = 6 * 4096 := by
  decide

/-- The scan of `schedule` stops at the first runnable slot after `pid`, if there is
one within `fuel` iterations. -/
theorem scheduleLoop_first (c : Config) (s : KState) (fuel : Nat) :
    ∀ (pid k : Nat), 1 ≤ k → k ≤ fuel →
      (s.ptable ((pid + k) % c.NPROC)).state = ProcState.P_RUNNABLE →
      (∀ j, 1 ≤ j → j < k → (s.ptable ((pid + j) % c.NPROC)).state ≠ ProcState.P_RUNNABLE) →
      scheduleLoop c s fuel pid = some ((pid + k) % c.NPROC) := by
  induction fuel with
  | zero => intro pid k h1 h2; omega
  | succ n ih =>
    intro pid k h1 h2 hr hnot
    unfold scheduleLoop
    by_cases hk : k = 1
    · subst hk
      rw [if_pos hr]
    · rw [if_neg (hnot 1 (Nat.le_refl _) (by omega))]
      have e : ∀ j, ((pid + 1) % c.NPROC + j) % c.NPROC = (pid + (j + 1)) % c.NPROC := by
        intro j
        rw [Nat.mod_add_mod]
        congr 1
        omega
      have hk2 : k = (k - 1) + 1 := by omega
      rw [ih ((pid + 1) % c.NPROC) (k - 1) (by omega) (by omega)
        (by rw [e, ← hk2]; exact hr)
        (by intro j hj1 hj2; rw [e]; exact hnot (j + 1) (by omega) (by omega))]
      rw [e, ← hk2]

/-- Every slot below `NPROC` is reached from any pid in 1 to `NPROC` steps. -/
theorem slot_reached (n p i : Nat) (hi : i < n) :
    ∃ k, 1 ≤ k ∧ k ≤ n ∧ (p + k) % n = i := by
  have hn : 0 < n := by omega
  have hr : p % n < n := Nat.mod_lt _ hn
  have hp : n * (p / n) + p % n = p := Nat.div_add_mod p n
  by_cases h : p % n < i
  · refine ⟨i - p % n, by omega, by omega, ?_⟩
    have e : p + (i - p % n) = i + n * (p / n) := by omega
    rw [e, Nat.add_mul_mod_self_left, Nat.mod_eq_of_lt hi]
  · refine ⟨n + i - p % n, by omega, by omega, ?_⟩
    have e : p + (n + i - p % n) = i + n * (p / n + 1) := by
      rw [Nat.mul_add, Nat.mul_one]; omega
    rw [e, Nat.add_mul_mod_self_left, Nat.mod_eq_of_lt hi]

/-- C16 (round-robin selection): if some slot `i < NPROC` is `P_RUNNABLE`, then there
is a least `k` in `1..NPROC` such that slot `(current->pid + k) mod NPROC` is
`P_RUNNABLE`; the scan of `schedule()` stops after `k ≤ NPROC` iterations at exactly
that slot and `run()` makes it `current` (its assertion holds: the slot is neither
`P_FREE` nor `P_BROKEN`); and when `i` is the only runnable slot, it is the one
selected, also if it is the current one. -/
theorem schedule_round_robin (c : Config) (s : KState) (i : Nat) (hi : i < c.NPROC)
    (hr : (s.ptable i).state = ProcState.P_RUNNABLE) :
    ∃ k, 1 ≤ k ∧ k ≤ c.NPROC ∧
      (s.ptable (((s.ptable s.current).pid + k) % c.NPROC)).state = ProcState.P_RUNNABLE ∧
      (∀ j, 1 ≤ j → j < k →
        (s.ptable (((s.ptable s.current).pid + j) % c.NPROC)).state ≠ ProcState.P_RUNNABLE) ∧
      scheduleLoop c s c.NPROC (s.ptable s.current).pid
        = some (((s.ptable s.current).pid + k) % c.NPROC) ∧
      schedule c s
        = Outcome.running { s with current := ((s.ptable s.current).pid + k) % c.NPROC } ∧
      (s.ptable (((s.ptable s.current).pid + k) % c.NPROC)).state ≠ ProcState.P_FREE ∧
      (s.ptable (((s.ptable s.current).pid + k) % c.NPROC)).state ≠ ProcState.P_BROKEN ∧
      ((∀ j, j < c.NPROC → (s.ptable j).state = ProcState.P_RUNNABLE → j = i) →
        schedule c s = Outcome.running { s with current := i }) := by
  have hex : ∃ k, 1 ≤ k ∧ k ≤ c.NPROC ∧
      (s.ptable (((s.ptable s.current).pid + k) % c.NPROC)).state = ProcState.P_RUNNABLE := by
    obtain ⟨k, h1, h2, h3⟩ := slot_reached c.NPROC (s.ptable s.current).pid i hi
    exact ⟨k, h1, h2, by rw [h3]; exact hr⟩
  classical
  have hk := Nat.find_spec hex
  have hmin : ∀ j, 1 ≤ j → j < Nat.find hex →
      (s.ptable (((s.ptable s.current).pid + j) % c.NPROC)).state ≠ ProcState.P_RUNNABLE := by
    intro j hj1 hj2 hrun
    exact Nat.find_min hex hj2 ⟨hj1, by omega, hrun⟩
  have hloop := scheduleLoop_first c s c.NPROC (s.ptable s.current).pid (Nat.find hex)
    hk.1 hk.2.1 hk.2.2 hmin
  have hsched : schedule c s = Outcome.running
      { s with current := ((s.ptable s.current).pid + Nat.find hex) % c.NPROC } := by
    unfold schedule
    rw [hloop]
    simp only [run]
    rw [if_pos hk.2.2]
  refine ⟨Nat.find hex, hk.1, hk.2.1, hk.2.2, hmin, hloop, hsched, ?_, ?_, ?_⟩
  · rw [hk.2.2]; intro h; cases h
  · rw [hk.2.2]; intro h; cases h
  · intro honly
    have hlt : ((s.ptable s.current).pid + Nat.find hex) % c.NPROC < c.NPROC :=
      Nat.mod_lt _ (by omega)
    rw [hsched, honly _ hlt hk.2.2]

theorem schedule_round_robin_witness :
    1 < demoConfig.NPROC ∧ (demoState.ptable 1).state = ProcState.P_RUNNABLE ∧
    ∃ k, 1 ≤ k ∧ k ≤ demoConfig.NPROC ∧
      (demoState.ptable (((demoState.ptable demoState.current).pid + k)
        % demoConfig.NPROC)).state = ProcState.P_RUNNABLE ∧
      (∀ j, 1 ≤ j → j < k →
        (demoState.ptable (((demoState.ptable demoState.current).pid + j)
          % demoConfig.NPROC)).state ≠ ProcState.P_RUNNABLE) ∧
      scheduleLoop demoConfig demoState demoConfig.NPROC
          (demoState.ptable demoState.current).pid
        = some (((demoState.ptable demoState.current).pid + k) % demoConfig.NPROC) ∧
      schedule demoConfig demoState
        = Outcome.running { demoState with
            current := ((demoState.ptable demoState.current).pid + k) % demoConfig.NPROC } ∧
      (demoState.ptable (((demoState.ptable demoState.current).pid + k)
        % demoConfig.NPROC)).state ≠ ProcState.P_FREE ∧
      (demoState.ptable (((demoState.ptable demoState.current).pid + k)
        % demoConfig.NPROC)).state ≠ ProcState.P_BROKEN ∧
      ((∀ j, j < demoConfig.NPROC → (demoState.ptable j).state = ProcState.P_RUNNABLE → j = 1) →
        schedule demoConfig demoState = Outcome.running { demoState with current := 1 }) :=
  ⟨by decide, by decide, schedule_round_robin demoConfig demoState 1 (by decide) (by decide)⟩

/-- The scan of `schedule` only ever returns a runnable slot. -/
theorem scheduleLoop_runnable (c : Config) (s : KState) (fuel : Nat) :
    ∀ (pid slot : Nat), scheduleLoop c s fuel pid = some slot →
      (s.ptable slot).state = ProcState.P_RUNNABLE := by
  induction fuel with
  | zero => intro pid slot h; simp only [scheduleLoop] at h; cases h
  | succ n ih =>
    intro pid slot h
    unfold scheduleLoop at h
    by_cases hr : (s.ptable ((pid + 1) % c.NPROC)).state = ProcState.P_RUNNABLE
    · rw [if_pos hr] at h
      cases h
      exact hr
    · rw [if_neg hr] at h
      exact ih _ _ h

/-- `schedule` either finds no runnable slot and spins with the state untouched, or
makes a runnable slot `current`; it never trips the assertion of `run`. -/
theorem schedule_cases (c : Config) (s : KState) :
    schedule c s = Outcome.spin s ∨
    ∃ slot, (s.ptable slot).state = ProcState.P_RUNNABLE ∧
      schedule c s = Outcome.running { s with current := slot } := by
  unfold schedule
  cases h : scheduleLoop c s c.NPROC (s.ptable s.current).pid with
  | none => exact Or.inl rfl
  | some slot =>
    right
    have hr := scheduleLoop_runnable c s c.NPROC _ slot h
    refine ⟨slot, hr, ?_⟩
    simp only [run]
    rw [if_pos hr]

/-- C17 (user page fault handling): on a page fault (`reg_intno == INT_PF`, a vector
other than the timer's) with the `PFERR_USER` bit clear the kernel panics; with the
bit set, `exception()` continues as `schedule()` from the state in which the trapped
registers are saved in `current` and `current` is `P_BROKEN`, every other slot,
every refcount and the cursor being unchanged; `schedule()` then either spins in that
state or runs a `P_RUNNABLE` slot other than the faulting one. -/
theorem user_page_fault_handling (c : Config) (regs : Regs) (s : KState)
    (hpf : regs.reg_intno = c.INT_PF) (hvec : c.INT_PF ≠ c.INT_TIMER) :
    (regs.reg_errcode &&& c.PFERR_USER = 0 → exception c regs s = Outcome.panic) ∧
    (regs.reg_errcode &&& c.PFERR_USER ≠ 0 →
      ∃ t : KState,
        exception c regs s = schedule c t ∧
        (t.ptable s.current).regs = regs ∧
        (t.ptable s.current).state = ProcState.P_BROKEN ∧
        (t.ptable s.current).pid = (s.ptable s.current).pid ∧
        (t.ptable s.current).pagetable = (s.ptable s.current).pagetable ∧
        (∀ i, i ≠ s.current → t.ptable i = s.ptable i) ∧
        t.pages = s.pages ∧ t.next_alloc_pa = s.next_alloc_pa ∧ t.mem = s.mem ∧
        t.current = s.current ∧
        (exception c regs s = Outcome.spin t ∨
          ∃ slot, slot ≠ s.current ∧ (s.ptable slot).state = ProcState.P_RUNNABLE ∧
            exception c regs s = Outcome.running { t with current := slot })) := by
  have hnt : ¬ regs.reg_intno = c.INT_TIMER := by rw [hpf]; exact hvec
  constructor
  · intro hbit
    unfold exception
    simp only []
    rw [if_neg hnt, if_pos hpf, if_pos hbit]
  · intro hbit
    have hbroken : ¬ ((setAt (saveRegs s regs).ptable (saveRegs s regs).current
        { ((saveRegs s regs).ptable (saveRegs s regs).current) with
          state := ProcState.P_BROKEN }) (saveRegs s regs).current).state
        = ProcState.P_RUNNABLE := by
      simp only [setAt, if_true]
      intro h; cases h
    have hex : exception c regs s = schedule c
        { (saveRegs s regs) with
          ptable := setAt (saveRegs s regs).ptable (saveRegs s regs).current
            { ((saveRegs s regs).ptable (saveRegs s regs).current) with
              state := ProcState.P_BROKEN } } := by
      unfold exception
      simp only []
      rw [if_neg hnt, if_pos hpf, if_neg hbit, if_neg hbroken]
    refine ⟨_, hex, ?_, ?_, ?_, ?_, ?_, rfl, rfl, rfl, rfl, ?_⟩
    · simp only [saveRegs, setAt, if_true]
    · simp only [saveRegs, setAt, if_true]
    · simp only [saveRegs, setAt, if_true]
    · simp only [saveRegs, setAt, if_true]
    · intro i hi
      simp only [saveRegs, setAt]
      rw [if_neg hi, if_neg hi]
    · rw [hex]
      rcases schedule_cases c { (saveRegs s regs) with
          ptable := setAt (saveRegs s regs).ptable (saveRegs s regs).current
            { ((saveRegs s regs).ptable (saveRegs s regs).current) with
              state := ProcState.P_BROKEN } } with h | ⟨slot, hr, h⟩
      · exact Or.inl h
      · right
        have hne : slot ≠ s.current := by
          intro e
          apply hbroken
          rw [← hr, e]
          rfl
        refine ⟨slot, hne, ?_, h⟩
        have : (s.ptable slot).state = ((setAt (saveRegs s regs).ptable (saveRegs s regs).current
            { ((saveRegs s regs).ptable (saveRegs s regs).current) with
              state := ProcState.P_BROKEN }) slot).state := by
          simp only [saveRegs, setAt]
          rw [if_neg hne, if_neg hne]
        rw [this]
        exact hr

theorem user_page_fault_handling_witness :
    faultRegs.reg_intno = demoConfig.INT_PF ∧ demoConfig.INT_PF ≠ demoConfig.INT_TIMER ∧
    (faultRegs.reg_errcode &&& demoConfig.PFERR_USER = 0 →
      exception demoConfig faultRegs tightState = Outcome.panic) ∧
    (faultRegs.reg_errcode &&& demoConfig.PFERR_USER ≠ 0 →
      ∃ t : KState,
        exception demoConfig faultRegs tightState = schedule demoConfig t ∧
        (t.ptable tightState.current).regs = faultRegs ∧
        (t.ptable tightState.current).state = ProcState.P_BROKEN ∧
        (t.ptable tightState.current).pid = (tightState.ptable tightState.current).pid ∧
        (t.ptable tightState.current).pagetable
          = (tightState.ptable tightState.current).pagetable ∧
        (∀ i, i ≠ tightState.current → t.ptable i = tightState.ptable i) ∧
        t.pages = tightState.pages ∧ t.next_alloc_pa = tightState.next_alloc_pa ∧
        t.mem = tightState.mem ∧ t.current = tightState.current ∧
        (exception demoConfig faultRegs tightState = Outcome.spin t ∨
          ∃ slot, slot ≠ tightState.current ∧
            (tightState.ptable slot).state = ProcState.P_RUNNABLE ∧
            exception demoConfig faultRegs tightState
              = Outcome.running { t with current := slot })) :=
  ⟨by decide, by decide,
    user_page_fault_handling demoConfig faultRegs tightState (by decide) (by decide)⟩

/-- No iteration of the kernel-mapping copy loop touches the process table. -/
theorem copyKernelStep_procs (c : Config) (va : Nat) (s : KState) (pt : PageTable)
    (sf : List Nat) : (copyKernelStep c va s pt sf).s.ptable = s.ptable := by
  unfold copyKernelStep
  split
  · simp only []
    have hm := try_map_procs c pt va (vm_pa (kernel_pagetable c) va)
      (vm_perm (kernel_pagetable c) va) s
    split
    · exact (arrfree_procs c sf _).1.trans hm.1
    · exact hm.1
  · rfl

/-- No iteration of the segment allocation loop touches the process table. -/
theorem loadStep_procs (c : Config) (a : Nat) (wr : Bool) (s : KState) (pt : PageTable)
    (sf : List Nat) : (loadStep c a wr s pt sf).s.ptable = s.ptable := by
  unfold loadStep
  simp only []
  have hk := kalloc_procs c PAGESIZE s
  split
  · exact (arrfree_procs c sf _).1.trans hk.1
  · generalize (if wr = true then PTE_PWU else PTE_PU) = perm
    have hm := try_map_procs c pt a (kalloc c PAGESIZE s).1 perm (kalloc c PAGESIZE s).2
    split
    · exact (arrfree_procs c _ _).1.trans (hm.1.trans hk.1)
    · exact hm.1.trans hk.1

/-- The walks of `process_setup` leave the process table as `init_process` left it. -/
theorem psLoadWalk_procs (c : Config) (pid : Nat) (prog : Program) (s : KState) :
    (psKernelWalk c pid s).s.ptable = (psInit s pid).ptable ∧
    (psLoadWalk c pid prog s).s.ptable = (psInit s pid).ptable := by
  have hk := kalloc_procs c PAGESIZE (psInit s pid)
  have h1 : (psKernelWalk c pid s).s.ptable = (psInit s pid).ptable := by
    unfold psKernelWalk copyKernelWalk
    apply walkList_inv (copyKernelStep c) (fun w => w.s.ptable = (psInit s pid).ptable) _
      (pageAddrs c.MEMSIZE_VIRTUAL) _ hk.1
    intro va w _ hw
    exact (copyKernelStep_procs c va w.s w.pt w.sf).trans hw
  refine ⟨h1, ?_⟩
  unfold psLoadWalk loadWalk
  apply walkList_inv (fun aw => loadStep c aw.1 aw.2)
    (fun w => w.s.ptable = (psInit s pid).ptable) _ (progPages prog) _ h1
  intro aw w _ hw
  exact (loadStep_procs c aw.1 aw.2 w.s w.pt w.sf).trans hw

/-- The state of every slot after `init_process` is what it was. -/
theorem psInit_state (s : KState) (pid i : Nat) :
    ((psInit s pid).ptable i).state = (s.ptable i).state := by
  simp only [psInit, setAt, init_process]
  by_cases h : i = pid
  · rw [if_pos h, h]
  · rw [if_neg h]

/-- The state of every slot survives `setPagetable`. -/
theorem setPagetable_state (s : KState) (pid : Nat) (pt : PageTable) (i : Nat) :
    ((setPagetable s pid pt).ptable i).state = (s.ptable i).state := by
  simp only [setPagetable, setAt]
  by_cases h : i = pid
  · rw [if_pos h, h]
  · rw [if_neg h]

/-- The state of every slot at the stages of `process_setup`. -/
theorem psStages_state (c : Config) (pid : Nat) (prog : Program) (s : KState) (i : Nat) :
    ((psLoaded c pid prog s).ptable i).state = (s.ptable i).state ∧
    ((psStack c pid prog s).ptable i).state = (s.ptable i).state ∧
    ((psStackMap c pid prog s).s.ptable i).state = (s.ptable i).state := by
  have hw := (psLoadWalk_procs c pid prog s).2
  have h1 : ((psLoaded c pid prog s).ptable i).state = (s.ptable i).state := by
    unfold psLoaded
    rw [setPagetable_state]
    simp only [setAt]
    by_cases h : i = pid
    · rw [if_pos h, hw, h]; exact psInit_state s pid pid
    · rw [if_neg h, hw]; exact psInit_state s pid i
  have hk := kalloc_procs c PAGESIZE (psLoaded c pid prog s)
  have h2 : ((psStack c pid prog s).ptable i).state = (s.ptable i).state := by
    unfold psStack
    simp only [setAt]
    by_cases h : i = pid
    · rw [if_pos h, hk.1]; subst h; exact h1
    · rw [if_neg h, hk.1]; exact h1
  refine ⟨h1, h2, ?_⟩
  unfold psStackMap
  rw [(try_map_procs c _ _ _ _ (psStack c pid prog s)).1]
  exact h2

/-- `process_setup(pid, ..)` leaves every slot's state alone, except that it may make
slot `pid` runnable. -/
theorem process_setup_states (c : Config) (pid : Nat) (prog : Program) (s : KState)
    (i : Nat) :
    ((process_setup c pid prog s).ptable i).state = (s.ptable i).state ∨
    (i = pid ∧ ((process_setup c pid prog s).ptable i).state = ProcState.P_RUNNABLE) := by
  have hw := psLoadWalk_procs c pid prog s
  have hst := psStages_state c pid prog s i
  rw [process_setup_eq]
  split
  · left
    rw [(kalloc_procs c PAGESIZE (psInit s pid)).1]; exact psInit_state s pid i
  · split
    · left; rw [hw.1]; exact psInit_state s pid i
    · split
      · left; rw [setPagetable_state, hw.2]; exact psInit_state s pid i
      · split
        · left
          rw [(arrfree_procs c _ _).1, (kalloc_procs c PAGESIZE _).1]; exact hst.1
        · split
          · left
            rw [(arrfree_procs c _ _).1, setPagetable_state]; exact hst.2.2
          · simp only [setAt]
            by_cases h : i = pid
            · right; rw [if_pos h]; exact ⟨h, rfl⟩
            · left; rw [if_neg h, setPagetable_state]; exact hst.2.2

/-- `fork()` leaves every slot's state alone, except that it may make the free slot it
found runnable. -/
theorem fork_states (c : Config) (s : KState) (hN : 1 ≤ c.NPROC) (i : Nat) :
    ((fork c s).2.ptable i).state = (s.ptable i).state ∨
    ((s.ptable i).state = ProcState.P_FREE ∧
      ((fork c s).2.ptable i).state = ProcState.P_RUNNABLE) := by
  rw [fork_eq]
  split
  · left; rfl
  · rename_i hslot
    split
    · left; rw [(kalloc_procs c PAGESIZE s).1]
    · split
      · simp only [setAt]
        by_cases h : i = forkSlot c s
        · right
          rw [if_pos h]
          refine ⟨?_, rfl⟩
          have hs := forkSlotLoop_spec c s c.NPROC 1 (by omega) hN
          rw [h]
          apply hs.2.2.2
          have : forkSlotLoop c s c.NPROC 1 ≠ c.NPROC := hslot
          omega
        · left; rw [if_neg h, (forkWalkOf_procs c s).1]
      · left; rw [(forkWalkOf_procs c s).1]

/-- `syscall_page_alloc` changes no slot's state. -/
theorem syscall_page_alloc_states (c : Config) (addr : Nat) (s : KState) (i : Nat) :
    ((syscall_page_alloc c addr s).2.ptable i).state = (s.ptable i).state := by
  unfold syscall_page_alloc
  split
  · rfl
  · simp only []
    have hk := kalloc_procs c PAGESIZE s
    split
    · rw [hk.1]
    · split
      · rw [(kfree_procs c _ _).1, setPagetable_state, (try_map_procs c _ _ _ _ _).1, hk.1]
      · rw [setPagetable_state, (try_map_procs c _ _ _ _ _).1, hk.1]

/-- `sys_exit()` leaves every slot's state alone or makes it `P_FREE`. -/
theorem sys_exit_states (c : Config) (s : KState) (i : Nat) :
    ((sys_exit c s).ptable i).state = (s.ptable i).state ∨
    ((sys_exit c s).ptable i).state = ProcState.P_FREE := by
  rw [sys_exit_eq]
  simp only [setAt]
  by_cases h : i = (s.ptable s.current).pid
  · right; rw [if_pos h]
  · left; rw [if_neg h]

/-- Saving the trapped registers changes no slot's state. -/
theorem saveRegs_state (s : KState) (regs : Regs) (i : Nat) :
    ((saveRegs s regs).ptable i).state = (s.ptable i).state := by
  simp only [saveRegs, setAt]
  by_cases h : i = s.current
  · rw [if_pos h, h]
  · rw [if_neg h]

/-- When `schedule` does not spin it runs a runnable slot; either way the process
table is untouched. -/
theorem schedule_next (c : Config) (s t : KState) (h : (schedule c s).next = some t) :
    t.ptable = s.ptable ∧
    (schedule c s = Outcome.running t → (s.ptable t.current).state = ProcState.P_RUNNABLE) ∧
    (∀ r, schedule c s ≠ Outcome.resume t r) := by
  rcases schedule_cases c s with h1 | ⟨slot, hr, h1⟩
  · rw [h1] at h ⊢
    simp only [Outcome.next, Option.some.injEq] at h
    subst h
    exact ⟨rfl, (fun h2 => by cases h2), (fun r h2 => by cases h2)⟩
  · rw [h1] at h ⊢
    simp only [Outcome.next, Option.some.injEq] at h
    subst h
    exact ⟨rfl, (fun _ => hr), (fun r h2 => by cases h2)⟩

/-- `exception` leaves every slot's state alone, except that it may mark `current`
broken; a slot it runs is runnable, and it never resumes directly. -/
theorem exception_states (c : Config) (regs : Regs) (s t : KState)
    (h : (exception c regs s).next = some t) :
    (∀ i, (t.ptable i).state = (s.ptable i).state ∨
      (i = s.current ∧ (t.ptable i).state = ProcState.P_BROKEN)) ∧
    (exception c regs s = Outcome.running t →
      (t.ptable t.current).state = ProcState.P_RUNNABLE) ∧
    (∀ r, exception c regs s ≠ Outcome.resume t r) := by
  unfold exception at h ⊢
  simp only [] at h ⊢
  split at h
  · rename_i h1
    rw [if_pos h1]
    have hs := schedule_next c _ t h
    refine ⟨fun i => Or.inl ?_, fun hrun => ?_, hs.2.2⟩
    · rw [hs.1]; exact saveRegs_state s regs i
    · rw [hs.1]; exact hs.2.1 hrun
  · rename_i h1
    rw [if_neg h1]
    split at h
    · rename_i h2
      rw [if_pos h2]
      split at h
      · cases h
      · rename_i h3
        rw [if_neg h3]
        have hb : ¬ ((setAt (saveRegs s regs).ptable (saveRegs s regs).current
            { ((saveRegs s regs).ptable (saveRegs s regs).current) with
              state := ProcState.P_BROKEN }) (saveRegs s regs).current).state
            = ProcState.P_RUNNABLE := by
          simp only [setAt, if_true]
          intro h; cases h
        rw [if_neg hb] at h ⊢
        have hs := schedule_next c _ t h
        refine ⟨fun i => ?_, fun hrun => ?_, hs.2.2⟩
        · rw [hs.1]
          simp only [setAt]
          by_cases hi : i = (saveRegs s regs).current
          · right; rw [if_pos hi]; exact ⟨hi, rfl⟩
          · left; rw [if_neg hi]; exact saveRegs_state s regs i
        · rw [hs.1]; exact hs.2.1 hrun
    · cases h

/-- `fork()` and `syscall_page_alloc` leave `current` alone. -/
theorem syscalls_current (c : Config) (addr : Nat) (s : KState) :
    (fork c s).2.current = s.current ∧ (syscall_page_alloc c addr s).2.current = s.current := by
  constructor
  · rw [fork_eq]
    split
    · rfl
    · split
      · exact (kalloc_procs c PAGESIZE s).2
      · split
        · exact (forkWalkOf_procs c s).2
        · exact (forkWalkOf_procs c s).2
  · unfold syscall_page_alloc
    split
    · rfl
    · simp only []
      have hk := kalloc_procs c PAGESIZE s
      split
      · exact hk.2
      · split
        · rw [(kfree_procs c _ _).2]
          exact (try_map_procs c _ _ _ _ _).2.trans hk.2
        · exact (try_map_procs c _ _ _ _ _).2.trans hk.2

/-- `syscall` leaves every slot's state alone, except that `fork` may make a free slot
runnable and `sys_exit` makes a slot free; a slot it runs is runnable, and when it
resumes the caller, `current` and its state are what they were. -/
theorem syscall_states (c : Config) (regs : Regs) (s t : KState) (hN : 1 ≤ c.NPROC)
    (h : (syscall c regs s).next = some t) :
    (∀ i, (t.ptable i).state = (s.ptable i).state ∨
      ((s.ptable i).state = ProcState.P_FREE ∧ (t.ptable i).state = ProcState.P_RUNNABLE) ∨
      (t.ptable i).state = ProcState.P_FREE) ∧
    (syscall c regs s = Outcome.running t →
      (t.ptable t.current).state = ProcState.P_RUNNABLE) ∧
    (∀ r, syscall c regs s = Outcome.resume t r → t.current = s.current ∧
      ∀ i, (t.ptable i).state = (s.ptable i).state ∨
        ((s.ptable i).state = ProcState.P_FREE ∧
          (t.ptable i).state = ProcState.P_RUNNABLE)) := by
  unfold syscall at h ⊢
  simp only [] at h ⊢
  split at h
  · cases h
  · rename_i h1
    rw [if_neg h1]
    split at h
    · rename_i h2
      rw [if_pos h2]
      simp only [Outcome.next, Option.some.injEq] at h
      subst h
      exact ⟨fun i => Or.inl (saveRegs_state s regs i), (fun h => by cases h),
        fun _ _ => ⟨rfl, fun i => Or.inl (saveRegs_state s regs i)⟩⟩
    · rename_i h2
      rw [if_neg h2]
      split at h
      · rename_i h3
        rw [if_pos h3]
        have hs := schedule_next c _ t h
        refine ⟨fun i => Or.inl ?_, fun hrun => ?_, fun r hr => absurd hr (hs.2.2 r)⟩
        · rw [hs.1]
          simp only [setAt]
          by_cases hi : i = (saveRegs s regs).current
          · rw [if_pos hi, hi]; exact saveRegs_state s regs _
          · rw [if_neg hi]; exact saveRegs_state s regs i
        · rw [hs.1]; exact hs.2.1 hrun
      · rename_i h3
        rw [if_neg h3]
        split at h
        · rename_i h4
          rw [if_pos h4]
          simp only [Outcome.next, Option.some.injEq] at h
          subst h
          have hst : ∀ i, ((syscall_page_alloc c
              ((saveRegs s regs).ptable (saveRegs s regs).current).regs.reg_rdi
              (saveRegs s regs)).2.ptable i).state = (s.ptable i).state := by
            intro i
            rw [syscall_page_alloc_states]; exact saveRegs_state s regs i
          exact ⟨fun i => Or.inl (hst i), (fun h => by cases h),
            fun _ _ => ⟨(syscalls_current c _ (saveRegs s regs)).2, fun i => Or.inl (hst i)⟩⟩
        · rename_i h4
          rw [if_neg h4]
          split at h
          · rename_i h5
            rw [if_pos h5]
            simp only [Outcome.next, Option.some.injEq] at h
            subst h
            have hst : ∀ i, ((fork c (saveRegs s regs)).2.ptable i).state = (s.ptable i).state ∨
                ((s.ptable i).state = ProcState.P_FREE ∧
                  ((fork c (saveRegs s regs)).2.ptable i).state = ProcState.P_RUNNABLE) := by
              intro i
              rcases fork_states c (saveRegs s regs) hN i with hf | hf
              · left; rw [hf]; exact saveRegs_state s regs i
              · right
                rw [saveRegs_state] at hf
                exact hf
            refine ⟨fun i => ?_, (fun h => by cases h),
              fun _ _ => ⟨(syscalls_current c 0 (saveRegs s regs)).1, hst⟩⟩
            rcases hst i with hf | hf
            · exact Or.inl hf
            · exact Or.inr (Or.inl hf)
          · rename_i h5
            rw [if_neg h5]
            split at h
            · rename_i h6
              rw [if_pos h6]
              have hs := schedule_next c _ t h
              refine ⟨fun i => ?_, fun hrun => ?_, fun r hr => absurd hr (hs.2.2 r)⟩
              · rw [hs.1]
                rcases sys_exit_states c (saveRegs s regs) i with he | he
                · left; rw [he]; exact saveRegs_state s regs i
                · right; right; exact he
              · rw [hs.1]; exact hs.2.1 hrun
            · cases h

/-- The set-up loop of `kernel()` changes the state of no slot outside the range of
slots it sets up. -/
theorem setupAll_states (c : Config) (progs : List Program) :
    ∀ (p : Nat) (s : KState) (i : Nat), i < p ∨ p + progs.length ≤ i →
      ((setupAll c p progs s).ptable i).state = (s.ptable i).state := by
  induction progs with
  | nil => intro p s i _; rfl
  | cons prog rest ih =>
    intro p s i hi
    show ((setupAll c (p + 1) rest (process_setup c p prog s)).ptable i).state = _
    have hlen : (prog :: rest).length = rest.length + 1 := rfl
    rw [hlen] at hi
    rw [ih (p + 1) (process_setup c p prog s) i (by omega)]
    rcases process_setup_states c p prog s i with h | h
    · exact h
    · exfalso; omega

theorem LegalChange.lsame (a : ProcState) : LegalChange a a := Or.inl rfl

/-- Every change of state into `P_FREE` is legal. -/
theorem LegalChange.toFree (a : ProcState) : LegalChange a ProcState.P_FREE := by
  cases a
  · exact Or.inl rfl
  · exact Or.inr (Or.inr (Or.inr (Or.inl ⟨rfl, rfl⟩)))
  · exact Or.inr (Or.inr (Or.inr (Or.inr ⟨rfl, rfl⟩)))

/-- A legal change never turns `P_BROKEN` into `P_RUNNABLE`. -/
theorem LegalChange.notRevived {a b : ProcState} (h : LegalChange a b)
    (ha : a = ProcState.P_BROKEN) : b ≠ ProcState.P_RUNNABLE := by
  subst ha
  intro hb
  subst hb
  rcases h with h | h | h | h | h
  · cases h
  · cases h.1
  · cases h.1
  · cases h.1
  · cases h.2

/-- C18 (process state machine): every change of a slot's state made by
`process_setup` (called, as in `kernel()`, on a slot that is still `P_FREE`), by
`fork`, by `sys_exit`, and by `exception` and `syscall` entered from a running
(`P_RUNNABLE`) process, is FREE to RUNNABLE, RUNNABLE to BROKEN, RUNNABLE to FREE or
BROKEN to FREE; no slot that is `P_BROKEN` becomes `P_RUNNABLE`, the slot a trap
handler passes to `run()` is `P_RUNNABLE` and was not `P_BROKEN`, and a system call
that returns resumes the same, still runnable, process. -/
theorem process_state_machine (c : Config) (s : KState) (regs : Regs) (hN : 1 ≤ c.NPROC)
    (hcur : (s.ptable s.current).state = ProcState.P_RUNNABLE) :
    (∀ s0 pid prog, (s0.ptable pid).state = ProcState.P_FREE →
      LegalStep s0 (process_setup c pid prog s0)) ∧
    (∀ mem0 pre,
      ((setupAll c 1 pre (bootState mem0)).ptable (1 + pre.length)).state
        = ProcState.P_FREE) ∧
    (∀ s0, LegalStep s0 (fork c s0).2) ∧
    (∀ s0, LegalStep s0 (sys_exit c s0)) ∧
    (∀ t, (exception c regs s).next = some t → LegalStep s t) ∧
    (∀ t, (syscall c regs s).next = some t → LegalStep s t) ∧
    (∀ t, (exception c regs s).next = some t ∨ (syscall c regs s).next = some t →
      ∀ i, (s.ptable i).state = ProcState.P_BROKEN →
        (t.ptable i).state ≠ ProcState.P_RUNNABLE) ∧
    (∀ t, exception c regs s = Outcome.running t ∨ syscall c regs s = Outcome.running t →
      (t.ptable t.current).state = ProcState.P_RUNNABLE ∧
      (s.ptable t.current).state ≠ ProcState.P_BROKEN) ∧
    (∀ t r, syscall c regs s = Outcome.resume t r →
      t.current = s.current ∧ (t.ptable t.current).state = ProcState.P_RUNNABLE) := by
  have hexc : ∀ t, (exception c regs s).next = some t → LegalStep s t := by
    intro t ht i
    rcases (exception_states c regs s t ht).1 i with h | h
    · rw [h]; exact LegalChange.lsame _
    · rw [h.2, h.1, hcur]
      exact Or.inr (Or.inr (Or.inl ⟨rfl, rfl⟩))
  have hsys : ∀ t, (syscall c regs s).next = some t → LegalStep s t := by
    intro t ht i
    rcases (syscall_states c regs s t hN ht).1 i with h | h | h
    · rw [h]; exact LegalChange.lsame _
    · rw [h.1, h.2]; exact Or.inr (Or.inl ⟨rfl, rfl⟩)
    · rw [h]; exact LegalChange.toFree _
  refine ⟨?_, ?_, ?_, ?_, hexc, hsys, ?_, ?_, ?_⟩
  · intro s0 pid prog hfree i
    rcases process_setup_states c pid prog s0 i with h | h
    · rw [h]; exact LegalChange.lsame _
    · rw [h.2, h.1, hfree]; exact Or.inr (Or.inl ⟨rfl, rfl⟩)
  · intro mem0 pre
    rw [setupAll_states c pre 1 (bootState mem0) (1 + pre.length) (Or.inr (Nat.le_refl _))]
    rfl
  · intro s0 i
    rcases fork_states c s0 hN i with h | h
    · rw [h]; exact LegalChange.lsame _
    · rw [h.1, h.2]; exact Or.inr (Or.inl ⟨rfl, rfl⟩)
  · intro s0 i
    rcases sys_exit_states c s0 i with h | h
    · rw [h]; exact LegalChange.lsame _
    · rw [h]; exact LegalChange.toFree _
  · intro t ht i hb
    rcases ht with ht | ht
    · exact (hexc t ht i).notRevived hb
    · exact (hsys t ht i).notRevived hb
  · intro t ht
    rcases ht with ht | ht
    · have hn : (exception c regs s).next = some t := by rw [ht]; rfl
      have hr := (exception_states c regs s t hn).2.1 ht
      refine ⟨hr, fun hb => ?_⟩
      exact (hexc t hn t.current).notRevived hb hr
    · have hn : (syscall c regs s).next = some t := by rw [ht]; rfl
      have hr := (syscall_states c regs s t hN hn).2.1 ht
      refine ⟨hr, fun hb => ?_⟩
      exact (hsys t hn t.current).notRevived hb hr
  · intro t r ht
    have hn : (syscall c regs s).next = some t := by rw [ht]; rfl
    have hc := (syscall_states c regs s t hN hn).2.2 r ht
    refine ⟨hc.1, ?_⟩
    rw [hc.1]
    rcases hc.2 s.current with h | h
    · rw [h]; exact hcur
    · exact h.2

theorem process_state_machine_witness :
    1 ≤ demoConfig.NPROC ∧
    (tightState.ptable tightState.current).state = ProcState.P_RUNNABLE ∧
    (∀ s0 pid prog, (s0.ptable pid).state = ProcState.P_FREE →
      LegalStep s0 (process_setup demoConfig pid prog s0)) ∧
    (∀ mem0 pre,
      ((setupAll demoConfig 1 pre (bootState mem0)).ptable (1 + pre.length)).state
        = ProcState.P_FREE) ∧
    (∀ s0, LegalStep s0 (fork demoConfig s0).2) ∧
    (∀ s0, LegalStep s0 (sys_exit demoConfig s0)) ∧
    (∀ t, (exception demoConfig faultRegs tightState).next = some t → LegalStep tightState t) ∧
    (∀ t, (syscall demoConfig faultRegs tightState).next = some t → LegalStep tightState t) ∧
    (∀ t, (exception demoConfig faultRegs tightState).next = some t ∨ (syscall demoConfig faultRegs tightState).next = some t →
      ∀ i, (tightState.ptable i).state = ProcState.P_BROKEN →
        (t.ptable i).state ≠ ProcState.P_RUNNABLE) ∧
    (∀ t, exception demoConfig faultRegs tightState = Outcome.running t ∨ syscall demoConfig faultRegs tightState = Outcome.running t →
      (t.ptable t.current).state = ProcState.P_RUNNABLE ∧
      (tightState.ptable t.current).state ≠ ProcState.P_BROKEN) ∧
    (∀ t r, syscall demoConfig faultRegs tightState = Outcome.resume t r →
      t.current = tightState.current ∧ (t.ptable t.current).state = ProcState.P_RUNNABLE) :=
  ⟨by decide, by decide,
    process_state_machine demoConfig tightState faultRegs (by decide) (by decide)⟩

/-- C25 (process_setup rollback) fails on the code: with frames 29, 30 and 31 left,
`process_setup(3, ..)` of `demoProgram` takes frame 29 for the top-level table,
`try_map` takes frame 30 for a page-table node while the kernel mappings are copied,
frame 31 backs the first segment page, and `kalloc` fails for the second.  `arrfree`
releases frames 29 and 31, the entries of `should_free`; frame 30, free before the
call, keeps refcount 1.  The slot stays `P_FREE`. -/
theorem process_setup_rollback_leaks_node :
    (tightState.ptable 3).state = ProcState.P_FREE ∧
    ((process_setup demoConfig 3 demoProgram tightState).ptable 3).state = ProcState.P_FREE ∧
    tightState.pages 29 = 0 ∧ (process_setup demoConfig 3 demoProgram tightState).pages 29 = 0 ∧
    tightState.pages 31 = 0 ∧ (process_setup demoConfig 3 demoProgram tightState).pages 31 = 0 ∧
    tightState.pages 30 = 0 ∧ (process_setup demoConfig 3 demoProgram tightState).pages 30 = 1 := by
  decide

/-- A frame returned by `kalloc` lies below `MEMSIZE_PHYSICAL`. -/
theorem kalloc_lt (c : Config) (s : KState) (hne : (kalloc c PAGESIZE s).1 ≠ 0) :
    (kalloc c PAGESIZE s).1 < c.MEMSIZE_PHYSICAL := by
  rcases kalloc_cases c PAGESIZE s (Nat.le_refl _) with h | h
  · obtain ⟨k, _, hlt, _⟩ := h
    exact hlt
  · exact absurd h.1 hne

/-- Pairwise distinct page-aligned addresses below `NPAGES * PAGESIZE` number at
most `NPAGES`. -/
theorem aligned_nodup_length (sf : List Nat) (n : Nat) (hnd : sf.Nodup)
    (hb : ∀ p, p ∈ sf → p % PAGESIZE = 0 ∧ p < n * PAGESIZE) : sf.length ≤ n := by
  have hinj : (sf.map (fun p => p / PAGESIZE)).Nodup := by
    apply List.Nodup.map_on _ hnd
    intro a ha b hb2 hab
    have h1 := (hb a ha).1
    have h2 := (hb b hb2).1
    have e1 := Nat.div_add_mod a PAGESIZE
    have e2 := Nat.div_add_mod b PAGESIZE
    have hab2 : a / PAGESIZE = b / PAGESIZE := hab
    rw [h1] at e1
    rw [h2] at e2
    rw [hab2] at e1
    omega
  have hsub : (sf.map (fun p => p / PAGESIZE)).toFinset ⊆ Finset.range n := by
    intro f hf
    rw [List.mem_toFinset, List.mem_map] at hf
    obtain ⟨p, hp, rfl⟩ := hf
    rw [Finset.mem_range]
    have h2 := (hb p hp).2
    exact Nat.div_lt_of_lt_mul (by rw [Nat.mul_comm]; exact h2)
  have hc := Finset.card_le_card hsub
  rw [List.toFinset_card_of_nodup hinj, Finset.card_range, List.length_map] at hc
  exact hc

/-- The rollback invariant of a failed walk only concerns the list. -/
theorem sfInv_fail (c : Config) (sf : List Nat) (t : KState) (pt : PageTable)
    (hnd : sf.Nodup) (hb : ∀ p, p ∈ sf → p % PAGESIZE = 0 ∧ p < c.MEMSIZE_PHYSICAL) :
    SfInv c ⟨false, t, pt, sf⟩ :=
  ⟨hnd, hb, fun h => by cases h⟩

/-- The rollback invariant survives a change of state that keeps frames in use. -/
theorem sfInv_mono (c : Config) (w : Walk) (t : KState) (pt : PageTable)
    (hok : w.ok = true) (h : SfInv c w)
    (hp : ∀ f, 1 ≤ w.s.pages f → 1 ≤ t.pages f) (hal : t.next_alloc_pa % PAGESIZE = 0) :
    SfInv c ⟨true, t, pt, w.sf⟩ :=
  ⟨h.1, h.2.1, fun _ => ⟨hal, fun p hpm => hp _ ((h.2.2 hok).2 p hpm)⟩⟩

/-- Allocation steps keep frames in use. -/
theorem grows_used_le {s t : KState} (h : Grows s t) (f : Nat) (hf : 1 ≤ s.pages f) :
    1 ≤ t.pages f := by
  rcases h.1 f with e | e
  · rw [e]; exact hf
  · rw [e.2]

/-- Recording a frame just returned by `kalloc` keeps the rollback invariant. -/
theorem sfInv_alloc (c : Config) (w : Walk) (hok : w.ok = true) (h : SfInv c w)
    (hne : (kalloc c PAGESIZE w.s).1 ≠ 0) :
    SfInv c ⟨true, (kalloc c PAGESIZE w.s).2, w.pt, w.sf ++ [(kalloc c PAGESIZE w.s).1]⟩ := by
  have hal := (h.2.2 hok).1
  have hf := kalloc_ok_facts c w.s hal hne
  have hg := kalloc_grows c PAGESIZE w.s hal
  have hlt := kalloc_lt c w.s hne
  refine ⟨?_, ?_, fun _ => ⟨hg.2.2.2.2, ?_⟩⟩
  · rw [List.nodup_append]
    refine ⟨h.1, List.nodup_singleton _, ?_⟩
    intro a ha hb
    have e : a = (kalloc c PAGESIZE w.s).1 := by simpa using hb
    have h1 := (h.2.2 hok).2 a ha
    rw [e, hf.2.1] at h1
    omega
  · intro p hp
    rcases List.mem_append.mp hp with hp | hp
    · exact h.2.1 p hp
    · have e : p = (kalloc c PAGESIZE w.s).1 := by simpa using hp
      rw [e]; exact ⟨hf.1, hlt⟩
  · intro p hp
    rcases List.mem_append.mp hp with hp | hp
    · exact grows_used_le hg _ ((h.2.2 hok).2 p hp)
    · have e : p = (kalloc c PAGESIZE w.s).1 := by simpa using hp
      rw [e, hf.2.2.1]

/-- A `try_map` in a walk that has not failed keeps the rollback invariant, whether the
walk continues or takes the failure return. -/
theorem sfInv_try_map (c : Config) (w : Walk) (va pa : Nat) (perm : Perm) (b : Bool)
    (t : KState) (hok : w.ok = true) (h : SfInv c w)
    (ht : b = true → t = (try_map c w.pt va pa perm w.s).s) :
    SfInv c ⟨b, t, (try_map c w.pt va pa perm w.s).pt, w.sf⟩ := by
  cases b
  · exact sfInv_fail c _ _ _ h.1 h.2.1
  · rw [ht rfl]
    have hg := (try_map_spec c w.pt va pa perm w.s (h.2.2 hok).1).1
    exact sfInv_mono c w _ _ hok h (fun f hf => grows_used_le hg f hf) hg.2.2.2.2

/-- Every iteration of the kernel-mapping copy loop keeps the rollback invariant. -/
theorem copyKernelStep_sfInv (c : Config) (va : Nat) (w : Walk) (hok : w.ok = true)
    (h : SfInv c w) : SfInv c (copyKernelStep c va w.s w.pt w.sf) := by
  unfold copyKernelStep
  split
  · simp only []
    split
    · exact sfInv_try_map c w va _ _ false _ hok h (fun e => by cases e)
    · exact sfInv_try_map c w va _ _ true _ hok h (fun _ => rfl)
  · exact ⟨h.1, h.2.1, fun _ => h.2.2 hok⟩

/-- Every iteration of the segment allocation loop keeps the rollback invariant. -/
theorem loadStep_sfInv (c : Config) (a : Nat) (wr : Bool) (w : Walk) (hok : w.ok = true)
    (h : SfInv c w) : SfInv c (loadStep c a wr w.s w.pt w.sf) := by
  unfold loadStep
  simp only []
  split
  · exact sfInv_fail c _ _ _ h.1 h.2.1
  · rename_i hne
    have h1 := sfInv_alloc c w hok h hne
    generalize (if wr = true then PTE_PWU else PTE_PU) = perm
    split
    · exact sfInv_try_map c ⟨true, (kalloc c PAGESIZE w.s).2, w.pt,
        w.sf ++ [(kalloc c PAGESIZE w.s).1]⟩ a _ perm false _ rfl h1 (fun e => by cases e)
    · exact sfInv_try_map c ⟨true, (kalloc c PAGESIZE w.s).2, w.pt,
        w.sf ++ [(kalloc c PAGESIZE w.s).1]⟩ a _ perm true _ rfl h1 (fun _ => rfl)

/-- Every iteration of the walk of `fork` keeps the rollback invariant. -/
theorem forkStep_sfInv (c : Config) (parpt : PageTable) (va : Nat) (w : Walk)
    (hok : w.ok = true) (h : SfInv c w) : SfInv c (forkStep c parpt va w.s w.pt w.sf) := by
  by_cases hp : vm_present parpt va = true
  · by_cases hc : ForkCopies c parpt va
    · rw [forkStep_copy c parpt va _ _ _ hp hc]
      split
      · exact sfInv_fail c _ _ _ h.1 h.2.1
      · rename_i hne
        have h1 := sfInv_alloc c w hok h hne
        have h2 : SfInv c ⟨true, forkCopyState parpt va (kalloc c PAGESIZE w.s), w.pt,
            w.sf ++ [(kalloc c PAGESIZE w.s).1]⟩ :=
          ⟨h1.1, h1.2.1, fun _ => h1.2.2 rfl⟩
        split
        · exact sfInv_try_map c ⟨true, forkCopyState parpt va (kalloc c PAGESIZE w.s), w.pt,
            w.sf ++ [(kalloc c PAGESIZE w.s).1]⟩ va _ _ false _ rfl h2 (fun e => by cases e)
        · exact sfInv_try_map c ⟨true, forkCopyState parpt va (kalloc c PAGESIZE w.s), w.pt,
            w.sf ++ [(kalloc c PAGESIZE w.s).1]⟩ va _ _ true _ rfl h2 (fun _ => rfl)
    · rw [forkStep_share c parpt va _ _ _ hp hc]
      split
      · exact sfInv_try_map c w va _ _ false _ hok h (fun e => by cases e)
      · exact sfInv_try_map c w va _ _ true _ hok h (fun _ => rfl)
  · have hp' : vm_present parpt va = false := by simpa using hp
    rw [forkStep_absent c parpt va _ _ _ hp']
    exact ⟨h.1, h.2.1, fun _ => h.2.2 hok⟩

/-- The rollback invariant holds when the first frame of a call has been recorded. -/
theorem sfInv_start (c : Config) (s : KState) (hal : s.next_alloc_pa % PAGESIZE = 0)
    (hne : (kalloc c PAGESIZE s).1 ≠ 0) :
    SfInv c ⟨true, (kalloc c PAGESIZE s).2, PageTable.empty (kalloc c PAGESIZE s).1,
      [(kalloc c PAGESIZE s).1]⟩ := by
  have h0 : SfInv c ⟨true, s, PageTable.empty (kalloc c PAGESIZE s).1, []⟩ :=
    ⟨List.nodup_nil, (fun p hp => by cases hp), fun _ => ⟨hal, (fun p hp => by cases hp)⟩⟩
  exact sfInv_alloc c _ rfl h0 hne

/-- The rollback invariant bounds the length of the list by `NPAGES`. -/
theorem sfInv_length (c : Config) (w : Walk) (hnp : c.MEMSIZE_PHYSICAL ≤ c.NPAGES * PAGESIZE)
    (h : SfInv c w) : w.sf.Nodup ∧ w.sf.length ≤ c.NPAGES :=
  ⟨h.1, aligned_nodup_length w.sf c.NPAGES h.1
    (fun p hp => ⟨(h.2.1 p hp).1, Nat.lt_of_lt_of_le (h.2.1 p hp).2 hnp⟩)⟩

/-- C30 (rollback list stays in bounds): in a call of `fork` or `process_setup` from a
state with page-aligned cursor, on a machine whose `NPAGES` frames cover physical
memory, the list `should_free[0..findex-1]` holds pairwise distinct frames after any
number of loop iterations (`vas`, `pages` are the addresses visited so far), so its
length `findex` never exceeds `NPAGES` and every write `should_free[findex]` is at an
index below `NPAGES`; this includes the stack frame recorded last by
`process_setup`.  `arrfree(should_free, findex)` is `kfree` of the entries from the
last one down to the first, each once. -/
theorem rollback_list_in_bounds (c : Config) (s : KState) (parpt : PageTable) (pid : Nat)
    (prog : Program) (vas : List Nat) (pages : List (Nat × Bool))
    (hal : s.next_alloc_pa % PAGESIZE = 0)
    (hnp : c.MEMSIZE_PHYSICAL ≤ c.NPAGES * PAGESIZE) :
    ((kalloc c PAGESIZE s).1 ≠ 0 →
      (forkWalk c parpt vas ⟨true, (kalloc c PAGESIZE s).2,
        PageTable.empty (kalloc c PAGESIZE s).1, [(kalloc c PAGESIZE s).1]⟩).sf.Nodup ∧
      (forkWalk c parpt vas ⟨true, (kalloc c PAGESIZE s).2,
        PageTable.empty (kalloc c PAGESIZE s).1, [(kalloc c PAGESIZE s).1]⟩).sf.length
        ≤ c.NPAGES) ∧
    ((kalloc c PAGESIZE (psInit s pid)).1 ≠ 0 →
      (loadWalk c pages (copyKernelWalk c vas ⟨true, (kalloc c PAGESIZE (psInit s pid)).2,
        PageTable.empty (kalloc c PAGESIZE (psInit s pid)).1,
        [(kalloc c PAGESIZE (psInit s pid)).1]⟩)).sf.Nodup ∧
      (loadWalk c pages (copyKernelWalk c vas ⟨true, (kalloc c PAGESIZE (psInit s pid)).2,
        PageTable.empty (kalloc c PAGESIZE (psInit s pid)).1,
        [(kalloc c PAGESIZE (psInit s pid)).1]⟩)).sf.length ≤ c.NPAGES) ∧
    ((kalloc c PAGESIZE (psInit s pid)).1 ≠ 0 → (psLoadWalk c pid prog s).ok = true →
      (kalloc c PAGESIZE (psLoaded c pid prog s)).1 ≠ 0 →
      ((psLoadWalk c pid prog s).sf ++ [(kalloc c PAGESIZE (psLoaded c pid prog s)).1]).Nodup ∧
      ((psLoadWalk c pid prog s).sf ++ [(kalloc c PAGESIZE (psLoaded c pid prog s)).1]).length
        ≤ c.NPAGES) ∧
    (∀ t, arrfree c [] t = t) ∧
    (∀ sf p t, arrfree c (sf ++ [p]) t = arrfree c sf (kfree c p t)) := by
  have hload : ∀ (vs : List Nat) (pgs : List (Nat × Bool)),
      (kalloc c PAGESIZE (psInit s pid)).1 ≠ 0 →
      SfInv c (loadWalk c pgs (copyKernelWalk c vs ⟨true, (kalloc c PAGESIZE (psInit s pid)).2,
        PageTable.empty (kalloc c PAGESIZE (psInit s pid)).1,
        [(kalloc c PAGESIZE (psInit s pid)).1]⟩)) := by
    intro vs pgs hne
    have h0 := sfInv_start c (psInit s pid) hal hne
    have h1 : SfInv c (copyKernelWalk c vs ⟨true, (kalloc c PAGESIZE (psInit s pid)).2,
        PageTable.empty (kalloc c PAGESIZE (psInit s pid)).1,
        [(kalloc c PAGESIZE (psInit s pid)).1]⟩) := by
      unfold copyKernelWalk
      apply walkList_inv (copyKernelStep c) (SfInv c) _ vs _ h0
      intro va w hok hw
      exact copyKernelStep_sfInv c va w hok hw
    unfold loadWalk
    apply walkList_inv (fun aw => loadStep c aw.1 aw.2) (SfInv c) _ pgs _ h1
    intro aw w hok hw
    exact loadStep_sfInv c aw.1 aw.2 w hok hw
  refine ⟨?_, ?_, ?_, fun _ => rfl, ?_⟩
  · intro hne
    have h0 := sfInv_start c s hal hne
    have h1 : SfInv c (forkWalk c parpt vas ⟨true, (kalloc c PAGESIZE s).2,
        PageTable.empty (kalloc c PAGESIZE s).1, [(kalloc c PAGESIZE s).1]⟩) := by
      unfold forkWalk
      apply walkList_inv (forkStep c parpt) (SfInv c) _ vas _ h0
      intro va w hok hw
      exact forkStep_sfInv c parpt va w hok hw
    exact sfInv_length c _ hnp h1
  · intro hne
    exact sfInv_length c _ hnp (hload vas pages hne)
  · intro hne hok hst
    have h1 : SfInv c (psLoadWalk c pid prog s) := hload (pageAddrs c.MEMSIZE_VIRTUAL)
      (progPages prog) hne
    have h2 : SfInv c ⟨true, psLoaded c pid prog s, (psLoadWalk c pid prog s).pt,
        (psLoadWalk c pid prog s).sf⟩ :=
      ⟨h1.1, h1.2.1, fun _ => h1.2.2 hok⟩
    exact sfInv_length c _ hnp (sfInv_alloc c _ rfl h2 hst)
  · intro sf p t
    unfold arrfree
    rw [List.foldr_append]
    rfl

theorem rollback_list_in_bounds_witness :
    demoState.next_alloc_pa % PAGESIZE = 0 ∧
    demoConfig.MEMSIZE_PHYSICAL ≤ demoConfig.NPAGES * PAGESIZE ∧
    ((kalloc demoConfig PAGESIZE demoState).1 ≠ 0 →
      (forkWalk demoConfig (demoState.ptable 1).pagetable (pageAddrs demoConfig.MEMSIZE_VIRTUAL)
          ⟨true, (kalloc demoConfig PAGESIZE demoState).2,
        PageTable.empty (kalloc demoConfig PAGESIZE demoState).1, [(kalloc demoConfig PAGESIZE
            demoState).1]⟩).sf.Nodup ∧
      (forkWalk demoConfig (demoState.ptable 1).pagetable (pageAddrs demoConfig.MEMSIZE_VIRTUAL)
          ⟨true, (kalloc demoConfig PAGESIZE demoState).2,
        PageTable.empty (kalloc demoConfig PAGESIZE demoState).1, [(kalloc demoConfig PAGESIZE
            demoState).1]⟩).sf.length
        ≤ demoConfig.NPAGES) ∧
    ((kalloc demoConfig PAGESIZE (psInit demoState 2)).1 ≠ 0 →
      (loadWalk demoConfig (progPages demoProgram) (copyKernelWalk demoConfig (pageAddrs
          demoConfig.MEMSIZE_VIRTUAL) ⟨true, (kalloc demoConfig PAGESIZE (psInit demoState 2)).2,
        PageTable.empty (kalloc demoConfig PAGESIZE (psInit demoState 2)).1,
        [(kalloc demoConfig PAGESIZE (psInit demoState 2)).1]⟩)).sf.Nodup ∧
      (loadWalk demoConfig (progPages demoProgram) (copyKernelWalk demoConfig (pageAddrs
          demoConfig.MEMSIZE_VIRTUAL) ⟨true, (kalloc demoConfig PAGESIZE (psInit demoState 2)).2,
        PageTable.empty (kalloc demoConfig PAGESIZE (psInit demoState 2)).1,
        [(kalloc demoConfig PAGESIZE (psInit demoState 2)).1]⟩)).sf.length ≤ demoConfig.NPAGES) ∧
    ((kalloc demoConfig PAGESIZE (psInit demoState 2)).1 ≠ 0 → (psLoadWalk demoConfig 2 demoProgram
        demoState).ok = true →
      (kalloc demoConfig PAGESIZE (psLoaded demoConfig 2 demoProgram demoState)).1 ≠ 0 →
      ((psLoadWalk demoConfig 2 demoProgram demoState).sf ++ [(kalloc demoConfig PAGESIZE (psLoaded
          demoConfig 2 demoProgram demoState)).1]).Nodup ∧
      ((psLoadWalk demoConfig 2 demoProgram demoState).sf ++ [(kalloc demoConfig PAGESIZE (psLoaded
          demoConfig 2 demoProgram demoState)).1]).length
        ≤ demoConfig.NPAGES) ∧
    (∀ t, arrfree demoConfig [] t = t) ∧
    (∀ sf p t, arrfree demoConfig (sf ++ [p]) t = arrfree demoConfig sf (kfree demoConfig p t)) :=
  ⟨by decide, by decide,
    rollback_list_in_bounds demoConfig demoState (demoState.ptable 1).pagetable 2 demoProgram
      (pageAddrs demoConfig.MEMSIZE_VIRTUAL) (progPages demoProgram) (by decide) (by decide)⟩

/-- Creating table nodes changes no entry. -/
theorem allocNodes_entries (c : Config) (ks : List (Nat × Nat)) (s : KState) (pt : PageTable) :
    (allocNodes c ks s pt).pt.entries = pt.entries := by
  induction ks generalizing s pt with
  | nil => rfl
  | cons k ks ih =>
    unfold allocNodes
    split
    · exact ih s pt
    · simp only []
      split
      · rfl
      · exact ih _ _

/-- A `try_map` that does not fail replaces exactly the entry of `va`. -/
theorem try_map_ok_entries (c : Config) (pt : PageTable) (va pa : Nat) (perm : Perm)
    (s : KState) (h : ¬ (try_map c pt va pa perm s).ret < 0) :
    (try_map c pt va pa perm s).pt.entries
      = setAt pt.entries (va / PAGESIZE) ⟨pa / PAGESIZE, perm⟩ := by
  unfold try_map at h ⊢
  simp only [] at h ⊢
  split
  · rename_i hr
    rw [if_pos hr] at h
    exact absurd hr h
  · show setAt (allocNodes c (nodePath c va) s pt).pt.entries _ _ = _
    rw [allocNodes_entries]

/-- A successful walk leaves alone the entries of the pages it does not visit. -/
theorem walkList_entries_other {α : Type} (step : α → KState → PageTable → List Nat → Walk)
    (key : α → Nat)
    (hstep : ∀ x s pt sf n, (step x s pt sf).ok = true → n ≠ key x →
      (step x s pt sf).pt.entries n = pt.entries n)
    (xs : List α) (w : Walk) (hok : (walkList step xs w).ok = true) (n : Nat)
    (hn : n ∉ xs.map key) : (walkList step xs w).pt.entries n = w.pt.entries n := by
  induction xs generalizing w with
  | nil => rfl
  | cons x xs ih =>
    unfold walkList at hok ⊢
    by_cases hw : w.ok = true
    · rw [if_pos hw] at hok ⊢
      have hn1 : n ≠ key x := fun e => hn (by rw [e]; exact List.mem_cons_self _ _)
      have hn2 : n ∉ xs.map key := fun e => hn (List.mem_cons_of_mem _ e)
      rw [ih _ hok hn2]
      exact hstep x w.s w.pt w.sf n (walkList_ok_start step xs _ hok) hn1
    · rw [if_neg hw]

/-- A successful walk over pairwise distinct pages whose iterations transform the
entry of their page by `g` leaves `g x` of the initial entry at the page of `x`. -/
theorem walkList_entries_at {α : Type} (step : α → KState → PageTable → List Nat → Walk)
    (key : α → Nat) (g : α → PTE → PTE)
    (hstep : ∀ x s pt sf n, (step x s pt sf).ok = true → n ≠ key x →
      (step x s pt sf).pt.entries n = pt.entries n)
    (hat : ∀ x s pt sf, (step x s pt sf).ok = true →
      (step x s pt sf).pt.entries (key x) = g x (pt.entries (key x)))
    (xs : List α) (hnd : (xs.map key).Nodup) (w : Walk)
    (hok : (walkList step xs w).ok = true) (x : α) (hx : x ∈ xs) :
    (walkList step xs w).pt.entries (key x) = g x (w.pt.entries (key x)) := by
  induction xs generalizing w with
  | nil => cases hx
  | cons y ys ih =>
    have hnd' := List.nodup_cons.mp hnd
    have hw : w.ok = true := walkList_ok_start step (y :: ys) w hok
    unfold walkList at hok ⊢
    rw [if_pos hw] at hok ⊢
    have hs := walkList_ok_start step ys _ hok
    by_cases hmem : x ∈ ys
    · rw [ih hnd'.2 _ hok hmem]
      have hne : key x ≠ key y := by
        intro e
        apply hnd'.1
        rw [← e]
        exact List.mem_map_of_mem key hmem
      rw [hstep y w.s w.pt w.sf (key x) hs hne]
    · have e : x = y := by
        rcases List.mem_cons.mp hx with h | h
        · exact h
        · exact absurd h hmem
      subst e
      rw [walkList_entries_other step key hstep ys _ hok (key x) hnd'.1]
      exact hat x w.s w.pt w.sf hs

/-- The translation of a page present in `kernel_pagetable` is the identity. -/
theorem kernel_identity (c : Config) (va : Nat)
    (hp : vm_present (kernel_pagetable c) va = true) : vm_pa (kernel_pagetable c) va = va := by
  have hfr : (kernelEntry c (va / PAGESIZE)).frame = va / PAGESIZE := by
    have hp' : (kernelEntry c (va / PAGESIZE)).perm.p = true := hp
    unfold kernelEntry at hp' ⊢
    simp only [] at hp' ⊢
    split
    · split
      · split <;> rfl
      · rfl
    · rename_i h
      rw [if_neg h] at hp'
      cases hp'
  unfold vm_pa
  rw [if_pos hp]
  show (kernelEntry c (va / PAGESIZE)).frame * PAGESIZE + va % PAGESIZE = va
  rw [hfr, Nat.mul_comm]
  exact Nat.div_add_mod va PAGESIZE

/-- What a successful iteration of the kernel-mapping copy loop does to the entries. -/
theorem copyKernelStep_entries (c : Config) (va : Nat) (s : KState) (pt : PageTable)
    (sf : List Nat) (hok : (copyKernelStep c va s pt sf).ok = true) :
    (∀ n, n ≠ va / PAGESIZE → (copyKernelStep c va s pt sf).pt.entries n = pt.entries n) ∧
    (copyKernelStep c va s pt sf).pt.entries (va / PAGESIZE)
      = if KernelCopied c va then
          ⟨vm_pa (kernel_pagetable c) va / PAGESIZE, vm_perm (kernel_pagetable c) va⟩
        else pt.entries (va / PAGESIZE) := by
  unfold copyKernelStep at hok ⊢
  by_cases hc : KernelCopied c va
  · have hc' : vm_pa (kernel_pagetable c) va < c.PROC_START_ADDR
        ∧ vm_present (kernel_pagetable c) va = true := hc
    rw [if_pos hc'] at hok ⊢
    rw [if_pos hc]
    simp only [] at hok ⊢
    by_cases hr : (try_map c pt va (vm_pa (kernel_pagetable c) va)
        (vm_perm (kernel_pagetable c) va) s).ret < 0
    · rw [if_pos hr] at hok
      cases hok
    · rw [if_neg hr]
      show (∀ n, n ≠ va / PAGESIZE → (try_map c pt va (vm_pa (kernel_pagetable c) va)
          (vm_perm (kernel_pagetable c) va) s).pt.entries n = pt.entries n) ∧
        (try_map c pt va (vm_pa (kernel_pagetable c) va)
          (vm_perm (kernel_pagetable c) va) s).pt.entries (va / PAGESIZE) = _
      rw [try_map_ok_entries c pt va _ _ s hr]
      constructor
      · intro n hn
        simp only [setAt]
        rw [if_neg hn]
      · simp only [setAt, if_true]
  · have hc' : ¬ (vm_pa (kernel_pagetable c) va < c.PROC_START_ADDR
        ∧ vm_present (kernel_pagetable c) va = true) := hc
    rw [if_neg hc']
    rw [if_neg hc]
    exact ⟨fun _ _ => rfl, rfl⟩

/-- What a successful iteration of the segment allocation loop does to the entries of
the other pages. -/
theorem loadStep_entries_other (c : Config) (a : Nat) (wr : Bool) (s : KState)
    (pt : PageTable) (sf : List Nat) (n : Nat) (hok : (loadStep c a wr s pt sf).ok = true)
    (hn : n ≠ a / PAGESIZE) : (loadStep c a wr s pt sf).pt.entries n = pt.entries n := by
  unfold loadStep at hok ⊢
  simp only [] at hok ⊢
  by_cases hk : (kalloc c PAGESIZE s).1 = 0
  · rw [if_pos hk] at hok
    cases hok
  · rw [if_neg hk] at hok ⊢
    by_cases hr : (try_map c pt a (kalloc c PAGESIZE s).1 (if wr = true then PTE_PWU else PTE_PU)
        (kalloc c PAGESIZE s).2).ret < 0
    · rw [if_pos hr] at hok
      cases hok
    · rw [if_neg hr]
      show (try_map c pt a (kalloc c PAGESIZE s).1 (if wr = true then PTE_PWU else PTE_PU)
        (kalloc c PAGESIZE s).2).pt.entries n = _
      rw [try_map_ok_entries c pt a _ _ _ hr]
      simp only [setAt]
      rw [if_neg hn]

/-- The entries of the table after a successful kernel-mapping copy loop: the kernel's
mappings of the pages it maps below `PROC_START_ADDR`, and nothing else. -/
theorem psKernelWalk_entries (c : Config) (pid : Nat) (s : KState)
    (hok : (psKernelWalk c pid s).ok = true) (n : Nat) :
    (psKernelWalk c pid s).pt.entries n
      = if n * PAGESIZE < c.MEMSIZE_VIRTUAL ∧ KernelCopied c (n * PAGESIZE) then
          ⟨vm_pa (kernel_pagetable c) (n * PAGESIZE) / PAGESIZE,
            vm_perm (kernel_pagetable c) (n * PAGESIZE)⟩
        else ⟨0, Perm.none⟩ := by
  have hpa := pageAddrs_spec c.MEMSIZE_VIRTUAL
  have hkey : n * PAGESIZE / PAGESIZE = n := Nat.mul_div_cancel n (by decide)
  have hother := walkList_entries_other (copyKernelStep c) (fun va => va / PAGESIZE)
    (fun x s1 pt sf m h hm => (copyKernelStep_entries c x s1 pt sf h).1 m hm)
    (pageAddrs c.MEMSIZE_VIRTUAL)
    ⟨true, (kalloc c PAGESIZE (psInit s pid)).2,
      PageTable.empty (kalloc c PAGESIZE (psInit s pid)).1,
      [(kalloc c PAGESIZE (psInit s pid)).1]⟩ hok
  by_cases hlt : n * PAGESIZE < c.MEMSIZE_VIRTUAL
  · have hmem : n * PAGESIZE ∈ pageAddrs c.MEMSIZE_VIRTUAL :=
      hpa.2.2 _ (Nat.mul_mod_left n PAGESIZE) hlt
    have hat := walkList_entries_at (copyKernelStep c) (fun va => va / PAGESIZE)
      (fun va e => if KernelCopied c va then
          ⟨vm_pa (kernel_pagetable c) va / PAGESIZE, vm_perm (kernel_pagetable c) va⟩ else e)
      (fun x s1 pt sf m h hm => (copyKernelStep_entries c x s1 pt sf h).1 m hm)
      (fun x s1 pt sf h => (copyKernelStep_entries c x s1 pt sf h).2)
      (pageAddrs c.MEMSIZE_VIRTUAL) hpa.2.1
      ⟨true, (kalloc c PAGESIZE (psInit s pid)).2,
        PageTable.empty (kalloc c PAGESIZE (psInit s pid)).1,
        [(kalloc c PAGESIZE (psInit s pid)).1]⟩ hok (n * PAGESIZE) hmem
    simp only [hkey] at hat
    have e : (psKernelWalk c pid s).pt.entries n = _ := hat
    rw [e]
    by_cases hc : KernelCopied c (n * PAGESIZE)
    · rw [if_pos hc, if_pos ⟨hlt, hc⟩]
    · rw [if_neg hc, if_neg (fun h => hc h.2)]
      rfl
  · rw [if_neg (fun h => hlt h.1)]
    have hn : n ∉ (pageAddrs c.MEMSIZE_VIRTUAL).map (fun va => va / PAGESIZE) := by
      intro hm
      rw [List.mem_map] at hm
      obtain ⟨va, hva, hk⟩ := hm
      have h1 := hpa.1 va hva
      have h2 := Nat.div_add_mod va PAGESIZE
      have hk' : va / PAGESIZE = n := hk
      rw [h1.1, hk'] at h2
      apply hlt
      rw [Nat.mul_comm]
      omega
    have e : (psKernelWalk c pid s).pt.entries n = _ := hother n hn
    rw [e]
    rfl

/-- The state a successful `process_setup` ends in. -/
theorem process_setup_ok (c : Config) (pid : Nat) (prog : Program) (s : KState)
    (h : SetupOk c pid prog s) :
    process_setup c pid prog s =
      { (setPagetable (psStackMap c pid prog s).s pid (psStackMap c pid prog s).pt) with
        ptable := setAt
          (setPagetable (psStackMap c pid prog s).s pid (psStackMap c pid prog s).pt).ptable pid
          { ((setPagetable (psStackMap c pid prog s).s pid
                (psStackMap c pid prog s).pt).ptable pid) with
            state := ProcState.P_RUNNABLE } } := by
  rw [process_setup_eq]
  rw [if_neg h.1, if_neg (by rw [h.2.1]; decide), if_neg (by rw [h.2.2.1]; decide),
    if_neg h.2.2.2.1, if_neg h.2.2.2.2]

/-- The entries of the pages that no segment covers survive the allocation loops. -/
theorem psLoadWalk_entries_other (c : Config) (pid : Nat) (prog : Program) (s : KState)
    (hok : (psLoadWalk c pid prog s).ok = true) (n : Nat)
    (hn : ∀ aw, aw ∈ progPages prog → aw.1 / PAGESIZE ≠ n) :
    (psLoadWalk c pid prog s).pt.entries n = (psKernelWalk c pid s).pt.entries n := by
  have h := walkList_entries_other (fun aw => loadStep c aw.1 aw.2)
    (fun (aw : Nat × Bool) => aw.1 / PAGESIZE)
    (fun x s1 pt sf m h hm => loadStep_entries_other c x.1 x.2 s1 pt sf m h hm)
    (progPages prog) (psKernelWalk c pid s) hok n
    (by
      intro hm
      rw [List.mem_map] at hm
      obtain ⟨aw, haw, hk⟩ := hm
      exact hn aw haw hk)
  exact h

/-- C2 (frame-accounting invariant) fails on the code.  Process 1 of the demo machine
maps the read-only user page at virtual page 33 to frame 6, whose refcount is 1.
`fork` shares the frame with the child without raising the count, so the child's
`sys_exit` finds refcount 1 and frees it.  In the state reached (`sharedFreedState`,
from boot through `process_setup`, `fork` and `sys_exit`) process 1 is runnable and
still maps frame 6 user-accessible at virtual page 33, at or above
`PROC_START_ADDR` and not the console frame, while the refcount of frame 6 is 0 and
the next `kalloc` hands frame 6 out again. -/
theorem exit_frees_frame_still_mapped :
    hiState.pages 6 = 1 ∧ (fork demoConfig hiState).2.pages 6 = 1 ∧
    (sharedFreedState.ptable 1).state = ProcState.P_RUNNABLE ∧
    vm_user (sharedFreedState.ptable 1).pagetable (33 * 4096) = true ∧
    vm_pa (sharedFreedState.ptable 1).pagetable (33 * 4096) = 6 * 4096 ∧
    vm_pa (sharedFreedState.ptable 1).pagetable (33 * 4096) ≠ demoConfig.CONSOLE_ADDR ∧
    demoConfig.PROC_START_ADDR ≤ 33 * 4096 ∧
    sharedFreedState.pages 6 = 0 ∧
    (kalloc demoConfig PAGESIZE sharedFreedState).1 = 6 * 4096 ∧
    ¬ FrameAccounted demoConfig sharedFreedState := by
  refine ⟨by decide, by decide, by decide, by decide, by decide, by decide, by decide,
    by decide, by decide, ?_⟩
  intro h
  exact absurd (h 1 (33 * 4096) (by decide) (by decide) (by decide) (by decide)) (by decide)

/-- C1 (fork isolation) fails on the code.  In `aliasState` (reached from boot by
`fork`, `sys_exit` of the child, `syscall_page_alloc`, a store, `fork` and
`sys_exit` of the child) the running process 1 maps its writable user page at
virtual page 35 to frame 6, not the console frame, and reads `0x42` in its last
byte, but the refcount of frame 6 is 0.  The next `fork` succeeds (returns 2); its
first `kalloc` (line 469) returns frame 6 for the child's top-level page table and
zero-fills it, so the byte the parent reads at virtual page 35 is 0 from then on,
and the frame that backs the parent's page is the child's top-level page table.
The child does get a frame of its own for page 35 (frame 15, unused before the
call), but the copy in it is taken after the zero-fill: after `fork` both the parent
and the child read 0 in the last byte of the page, not `0x42`. -/
theorem fork_takes_mapped_frame_for_child_table :
    aliasState.current = 1 ∧ (aliasState.ptable 1).state = ProcState.P_RUNNABLE ∧
    vm_writable (parentTable aliasState) (35 * 4096) = true ∧
    vm_user (parentTable aliasState) (35 * 4096) = true ∧
    vm_pa (parentTable aliasState) (35 * 4096) = 6 * 4096 ∧
    vm_pa (parentTable aliasState) (35 * 4096) ≠ demoConfig.CONSOLE_ADDR ∧
    readByte aliasState (parentTable aliasState) (35 * 4096) 4095 = 0x42 ∧
    aliasState.pages 6 = 0 ∧
    (kalloc demoConfig PAGESIZE aliasState).1 = 6 * 4096 ∧
    readByte (kalloc demoConfig PAGESIZE aliasState).2 (parentTable aliasState) (35 * 4096) 4095
      = 0 ∧
    (fork demoConfig aliasState).1 = 2 ∧
    (childTable demoConfig aliasState).root = vm_pa (parentTable aliasState) (35 * 4096) ∧
    vm_pa (childTable demoConfig aliasState) (35 * 4096) = 15 * 4096 ∧
    aliasState.pages 15 = 0 ∧
    readByte (fork demoConfig aliasState).2 (parentTable aliasState) (35 * 4096) 4095 = 0 ∧
    readByte (fork demoConfig aliasState).2 (childTable demoConfig aliasState) (35 * 4096) 4095
      = 0 := by
  decide

/-- C7 (fork sharing) fails on the code.  In `rootFreedState` (reached from
`aliasState` by `fork`, `sys_exit` of the parent, scheduling of the child and
`syscall_page_alloc`) the running process 2 has a present, read-only page at virtual
page 33, which `fork` is to share, and a free slot (1) exists; but the frame of the
process's own top-level page table (frame 6) has refcount 0, and the `kalloc` with
which `fork` obtains the child's top-level table (line 469) returns that very frame
and zero-fills it.  `fork` returns 1, and the table it leaves in slot 1 is the
frame of the parent's top-level table. -/
theorem fork_takes_own_table_frame :
    rootFreedState.current = 2 ∧
    (rootFreedState.ptable 2).state = ProcState.P_RUNNABLE ∧
    vm_present (parentTable rootFreedState) (33 * 4096) = true ∧
    vm_writable (parentTable rootFreedState) (33 * 4096) = false ∧
    (parentTable rootFreedState).root = 6 * 4096 ∧
    rootFreedState.pages 6 = 0 ∧
    forkSlot demoConfig rootFreedState = 1 ∧
    (kalloc demoConfig PAGESIZE rootFreedState).1 = (parentTable rootFreedState).root ∧
    (fork demoConfig rootFreedState).1 = 1 ∧
    (childTable demoConfig rootFreedState).root = (parentTable rootFreedState).root ∧
    (∀ i, i < PAGESIZE →
      (kalloc demoConfig PAGESIZE rootFreedState).2.mem ((parentTable rootFreedState).root + i)
        = 0) := by
  refine ⟨by decide, by decide, by decide, by decide, by decide, by decide, by decide,
    by decide, by decide, by decide, ?_⟩
  intro i hi
  have e : (parentTable rootFreedState).root
      = (kalloc demoConfig PAGESIZE rootFreedState).1 := by decide
  rw [e]
  exact (kalloc_ok_facts demoConfig rootFreedState (by decide) (by decide)).2.2.2 i hi

/-- C20 (PAGE_ALLOC success) fails on the code.  In `rootFreedState` the running
process 2 maps virtual page 34, and the frame of its own top-level page table
(frame 6) has refcount 0.  `syscall_page_alloc(37 * 4096)` (a valid address) returns
0; the frame its `kalloc` returns and zero-fills is the caller's top-level page
table, and that frame is what the call maps at virtual page 37. -/
theorem page_alloc_takes_own_table_frame :
    rootFreedState.current = 2 ∧
    (rootFreedState.ptable 2).state = ProcState.P_RUNNABLE ∧
    (37 * 4096) % 4096 = 0 ∧ demoConfig.PROC_START_ADDR ≤ 37 * 4096 ∧
    37 * 4096 < demoConfig.MEMSIZE_VIRTUAL ∧
    vm_present (parentTable rootFreedState) (34 * 4096) = true ∧
    (parentTable rootFreedState).root = 6 * 4096 ∧
    (parentTable rootFreedState).root ∈ tableFrames (parentTable rootFreedState) ∧
    rootFreedState.pages 6 = 0 ∧
    (kalloc demoConfig PAGESIZE rootFreedState).1 = (parentTable rootFreedState).root ∧
    (syscall_page_alloc demoConfig (37 * 4096) rootFreedState).1 = 0 ∧
    vm_pa ((syscall_page_alloc demoConfig (37 * 4096) rootFreedState).2.ptable 2).pagetable
      (37 * 4096) = (parentTable rootFreedState).root := by
  decide

/-- C10 (fork slot selection): the search of `fork()` settles on the smallest index
in `1..NPROC-1` whose state is `P_FREE` (slot 0 is never chosen), or on `NPROC` if
there is none.  When `fork()` succeeds it returns that index, and the slot it has
written is that one: the slot was `P_FREE` and is `P_RUNNABLE` afterwards with its
`pid` unchanged and the new page table, and every other slot of the process table is
as before.  `fork()` does return that index whenever a free slot exists and the
allocations succeed.  Whenever `fork()` returns -1 the process table is unchanged;
and if no slot is free it returns -1 without allocating any frame and without
changing anything. -/
theorem fork_slot_selection (c : Config) (s : KState) (hN : 1 ≤ c.NPROC) :
    ((forkSlot c s = c.NPROC ∧
        ∀ i, 1 ≤ i → i < c.NPROC → (s.ptable i).state ≠ ProcState.P_FREE) ∨
      (1 ≤ forkSlot c s ∧ forkSlot c s < c.NPROC ∧
        (s.ptable (forkSlot c s)).state = ProcState.P_FREE ∧
        ∀ j, 1 ≤ j → j < forkSlot c s → (s.ptable j).state ≠ ProcState.P_FREE)) ∧
    ((fork c s).1 ≠ -1 →
      (fork c s).1 = (forkSlot c s : Int) ∧ 1 ≤ forkSlot c s ∧ forkSlot c s < c.NPROC ∧
      (s.ptable (forkSlot c s)).state = ProcState.P_FREE ∧
      (∀ j, 1 ≤ j → j < forkSlot c s → (s.ptable j).state ≠ ProcState.P_FREE) ∧
      ((fork c s).2.ptable (forkSlot c s)).state = ProcState.P_RUNNABLE ∧
      ((fork c s).2.ptable (forkSlot c s)).pid = (s.ptable (forkSlot c s)).pid ∧
      ((fork c s).2.ptable (forkSlot c s)).pagetable = (forkWalkOf c s).pt ∧
      (∀ i, i ≠ forkSlot c s → (fork c s).2.ptable i = s.ptable i)) ∧
    (forkSlot c s < c.NPROC → (kalloc c PAGESIZE s).1 ≠ 0 → (forkWalkOf c s).ok = true →
      (fork c s).1 = (forkSlot c s : Int)) ∧
    ((fork c s).1 = -1 → (fork c s).2.ptable = s.ptable) ∧
    ((∀ i, 1 ≤ i → i < c.NPROC → (s.ptable i).state ≠ ProcState.P_FREE) →
      fork c s = (-1, s)) := by
  have h := forkSlotLoop_spec c s c.NPROC 1 (by omega) hN
  have hs : forkSlot c s = forkSlotLoop c s c.NPROC 1 := rfl
  rw [← hs] at h
  refine ⟨?_, ?_, ?_, ?_, ?_⟩
  · by_cases e : forkSlot c s = c.NPROC
    · left
      refine ⟨e, ?_⟩
      intro i h1 h2
      exact h.2.2.1 i h1 (by omega)
    · right
      have hlt : forkSlot c s < c.NPROC := by omega
      exact ⟨h.1, hlt, h.2.2.2 hlt, h.2.2.1⟩
  · intro hsucc
    have hf := fork_success c s hsucc
    have hlt : forkSlot c s < c.NPROC := by
      have := hf.1
      omega
    have hp := forkWalkOf_procs c s
    refine ⟨by rw [hf.2.2.2], h.1, hlt, h.2.2.2 hlt, h.2.2.1, ?_, ?_, ?_, ?_⟩
    · rw [hf.2.2.2]; simp only [setAt, if_true]
    · rw [hf.2.2.2]; simp only [setAt, if_true]; rw [hp.1]
    · rw [hf.2.2.2]; simp only [setAt, if_true]
    · intro i hi
      rw [hf.2.2.2]; simp only [setAt]; rw [if_neg hi, hp.1]
  · intro hlt hk hw
    rw [fork_eq]
    rw [if_neg (by omega), if_neg hk, if_pos hw]
  · intro hfail
    rw [fork_eq] at hfail ⊢
    split
    · rfl
    · split
      · exact (kalloc_procs c PAGESIZE s).1
      · split
        · rename_i h1 h2 h3
          rw [if_neg h1, if_neg h2, if_pos h3] at hfail
          simp only [] at hfail
          have hnn : (0 : Int) ≤ (forkSlot c s : Int) := Int.ofNat_nonneg _
          omega
        · exact (forkWalkOf_procs c s).1
  · intro hall
    have e : forkSlotLoop c s c.NPROC 1 = c.NPROC := by
      by_contra hne
      have hlt : forkSlot c s < c.NPROC := by omega
      exact hall _ h.1 hlt (h.2.2.2 hlt)
    unfold fork
    simp only []
    rw [if_pos e]

theorem fork_slot_selection_witness :
    1 ≤ demoConfig.NPROC ∧ (fork demoConfig demoState).1 ≠ -1 ∧
    forkSlot demoConfig demoState = 2 ∧
    (demoState.ptable 1).state = ProcState.P_RUNNABLE ∧
    (demoState.ptable (forkSlot demoConfig demoState)).state = ProcState.P_FREE ∧
    ((fork demoConfig demoState).2.ptable (forkSlot demoConfig demoState)).state
      = ProcState.P_RUNNABLE ∧
    (∀ i, i ≠ forkSlot demoConfig demoState →
      (fork demoConfig demoState).2.ptable i = demoState.ptable i) :=
  have h := (fork_slot_selection demoConfig demoState (by decide)).2.1 (by decide)
  ⟨by decide, by decide, by decide, by decide, h.2.2.2.1, h.2.2.2.2.2.1, h.2.2.2.2.2.2.2.2⟩

/-- Creating table nodes leaves the top-level table where it is. -/
theorem allocNodes_root (c : Config) (ks : List (Nat × Nat)) (s : KState) (pt : PageTable) :
    (allocNodes c ks s pt).pt.root = pt.root := by
  induction ks generalizing s pt with
  | nil => rfl
  | cons k ks ih =>
    unfold allocNodes
    split
    · exact ih s pt
    · simp only []
      split
      · rfl
      · exact ih _ _

/-- `try_map` leaves the top-level table where it is. -/
theorem try_map_root (c : Config) (pt : PageTable) (va pa : Nat) (perm : Perm) (s : KState) :
    (try_map c pt va pa perm s).pt.root = pt.root := by
  unfold try_map
  simp only []
  split
  · exact allocNodes_root c _ s pt
  · exact allocNodes_root c _ s pt

/-- The allocation loops of `process_setup` work on the table the kernel-mapping
copy loop has filled. -/
theorem psLoadWalk_root (c : Config) (pid : Nat) (prog : Program) (s : KState) :
    (psLoadWalk c pid prog s).pt.root = (psKernelWalk c pid s).pt.root := by
  unfold psLoadWalk loadWalk
  apply walkList_inv (fun aw => loadStep c aw.1 aw.2)
    (fun w => w.pt.root = (psKernelWalk c pid s).pt.root) _ (progPages prog)
    (psKernelWalk c pid s) rfl
  intro x w _ hw
  unfold loadStep
  simp only []
  generalize (if x.2 = true then PTE_PWU else PTE_PU) = perm
  by_cases hk : (kalloc c PAGESIZE w.s).1 = 0
  · rw [if_pos hk]; exact hw
  · rw [if_neg hk]
    by_cases hr : (try_map c w.pt x.1 (kalloc c PAGESIZE w.s).1 perm
        (kalloc c PAGESIZE w.s).2).ret < 0
    · rw [if_pos hr]
      show (try_map c w.pt x.1 _ _ _).pt.root = _
      rw [try_map_root]; exact hw
    · rw [if_neg hr]
      show (try_map c w.pt x.1 _ _ _).pt.root = _
      rw [try_map_root]; exact hw

/-- C22 as stated fails on the code: `lowProgram` has a segment in virtual page 1,
below `PROC_START_ADDR`, where `kernel_pagetable` has the supervisor mapping of
physical page 1.  `process_setup(1, ..)` of it succeeds, and the allocation loop
(lines 224-253) has then replaced the copied kernel mapping: `ptable[1].pagetable`
maps virtual page 1 to frame 6, read-only and user-accessible. -/
theorem low_segment_replaces_kernel_mapping :
    SetupOk demoConfig 1 lowProgram (bootState (fun _ => 204)) ∧
    ((process_setup demoConfig 1 lowProgram (bootState (fun _ => 204))).ptable 1).state
      = ProcState.P_RUNNABLE ∧
    (1 * 4096) % PAGESIZE = 0 ∧ 1 * 4096 < demoConfig.PROC_START_ADDR ∧
    vm_present (kernel_pagetable demoConfig) (1 * 4096) = true ∧
    vm_pa (kernel_pagetable demoConfig) (1 * 4096) = 1 * 4096 ∧
    vm_perm (kernel_pagetable demoConfig) (1 * 4096) = PTE_PW ∧
    vm_pa (setupTable demoConfig 1 lowProgram (bootState (fun _ => 204))) (1 * 4096) = 6 * 4096 ∧
    vm_perm (setupTable demoConfig 1 lowProgram (bootState (fun _ => 204))) (1 * 4096) = PTE_PU := by
  decide

/-- C23 (segment and stack mappings) fails on the code.  `kernel()` of the demo
machine sets up `demoProgram` as process 1 and then the 14-page segment of
`hogProgram 14` (virtual pages 8 to 21) as process 2, and every stage of the second
`process_setup` succeeds.  The allocation loops map the pages to frames 12 to 20 and
22 to 26; frame 21 in between is the page-table node that holds the entries of
virtual pages 16 to 21.  The copy loop then (line 260) clears `size` = 14 pages of
physical memory from the address to which the segment's first byte translates,
frame 12: the cleared range contains the whole of frame 21, the node with the
entries of pages 16 to 21. -/
theorem segment_copy_clears_table_node :
    SetupOk demoConfig 2 (hogProgram 14)
      (process_setup demoConfig 1 demoProgram (bootState (fun _ => 204))) ∧
    ((process_setup demoConfig 2 (hogProgram 14)
      (process_setup demoConfig 1 demoProgram (bootState (fun _ => 204)))).ptable 2).state
      = ProcState.P_RUNNABLE ∧
    (psLoadWalk demoConfig 2 (hogProgram 14)
      (process_setup demoConfig 1 demoProgram (bootState (fun _ => 204)))).pt.nodes
      = [((0, 0), 11 * 4096), ((0, 1), 21 * 4096)] ∧
    (∀ n, 16 ≤ n → n ≤ 21 → nodePath demoConfig (n * 4096) = [(0, 1)]) ∧
    (∀ n, 16 ≤ n → n ≤ 21 → vm_present (psLoadWalk demoConfig 2 (hogProgram 14)
      (process_setup demoConfig 1 demoProgram (bootState (fun _ => 204)))).pt (n * 4096) = true) ∧
    (∀ seg, seg ∈ (hogProgram 14).segs →
      (∀ n, 16 ≤ n → n ≤ 21 → n * 4096 ∈ segAddrs seg) ∧
      vm_pa (psLoadWalk demoConfig 2 (hogProgram 14)
        (process_setup demoConfig 1 demoProgram (bootState (fun _ => 204)))).pt seg.va
        = 12 * 4096 ∧
      seg.size = 14 * 4096 ∧ seg.data = [] ∧
      CopyCovers (psLoadWalk demoConfig 2 (hogProgram 14)
        (process_setup demoConfig 1 demoProgram (bootState (fun _ => 204)))).pt seg (21 * 4096) ∧
      ¬ CopyInside (psLoadWalk demoConfig 2 (hogProgram 14)
        (process_setup demoConfig 1 demoProgram (bootState (fun _ => 204)))).pt
        (hogProgram 14) seg) := by
  refine ⟨by decide, by decide, by decide, ?_, ?_, by decide⟩
  · intro n h1 h2
    interval_cases n <;> decide
  · intro n h1 h2
    interval_cases n <;> decide

/-- C24 (segment contents) fails on the code: the copy loop (lines 260-261) writes
`size` and `data_size` bytes of physical memory starting at the address to which the
segment's first byte translates, whatever frames back the following pages.
First, `kernel()` of the demo machine with `hogProgram 30` and `gapProgram`: the
first `process_setup` fails and leaves frame 15 in use (a leaked node of the table it
abandoned); the second succeeds and maps pages 15 and 16 of `gapProgram`'s 10-byte
segment to frames 14 and 16.  Frame 15 is no part of the new table.  The sixth byte
of the segment (`6`) is read back at `va + 5`, the seventh (`7`) went to frame 15,
and the byte read at `va + 6` through the new table, in frame 16, is 0.
Second, `straddleProgram` as process 1: the allocation loops map pages 16 and 17 of
its segment to frames 6 and 8, and frame 7 in between is the page-table node that
holds the entries of pages 16 to 31; the range the copy loop writes reaches into
frame 7 and never into frame 8. -/
theorem segment_copy_ignores_frame_layout :
    (((process_setup demoConfig 1 (hogProgram 30) (bootState (fun _ => 204))).ptable 1).state
        = ProcState.P_FREE ∧
     (process_setup demoConfig 1 (hogProgram 30) (bootState (fun _ => 204))).pages 15 = 1 ∧
     SetupOk demoConfig 2 gapProgram
        (process_setup demoConfig 1 (hogProgram 30) (bootState (fun _ => 204))) ∧
     ((process_setup demoConfig 2 gapProgram
        (process_setup demoConfig 1 (hogProgram 30) (bootState (fun _ => 204)))).ptable 2).state
        = ProcState.P_RUNNABLE ∧
     15 * 4096 ∉ tableFrames (setupTable demoConfig 2 gapProgram
        (process_setup demoConfig 1 (hogProgram 30) (bootState (fun _ => 204)))) ∧
     vm_pa (setupTable demoConfig 2 gapProgram
        (process_setup demoConfig 1 (hogProgram 30) (bootState (fun _ => 204))))
        (15 * 4096 + 4090) = 14 * 4096 + 4090 ∧
     vm_pa (setupTable demoConfig 2 gapProgram
        (process_setup demoConfig 1 (hogProgram 30) (bootState (fun _ => 204))))
        (15 * 4096 + 4090 + 6) = 16 * 4096 ∧
     readByte (process_setup demoConfig 2 gapProgram
          (process_setup demoConfig 1 (hogProgram 30) (bootState (fun _ => 204))))
        (setupTable demoConfig 2 gapProgram
          (process_setup demoConfig 1 (hogProgram 30) (bootState (fun _ => 204))))
        (15 * 4096 + 4090 + 5) 0 = 6 ∧
     (process_setup demoConfig 2 gapProgram
        (process_setup demoConfig 1 (hogProgram 30) (bootState (fun _ => 204)))).mem
        (15 * 4096) = 7 ∧
     readByte (process_setup demoConfig 2 gapProgram
          (process_setup demoConfig 1 (hogProgram 30) (bootState (fun _ => 204))))
        (setupTable demoConfig 2 gapProgram
          (process_setup demoConfig 1 (hogProgram 30) (bootState (fun _ => 204))))
        (15 * 4096 + 4090 + 6) 0 = 0 ∧
     (∀ seg, seg ∈ gapProgram.segs.drop 1 →
        seg.va = 15 * 4096 + 4090 ∧ seg.size = 10 ∧ seg.data.getD 5 0 = 6 ∧
        seg.data.getD 6 0 = 7)) ∧
    ((psLoadWalk demoConfig 1 straddleProgram (bootState (fun _ => 204))).ok = true ∧
     (psLoadWalk demoConfig 1 straddleProgram (bootState (fun _ => 204))).pt.nodes
        = [((0, 0), 2 * 4096), ((0, 1), 7 * 4096)] ∧
     nodePath demoConfig (16 * 4096 + 4090) = [(0, 1)] ∧
     vm_pa (psLoadWalk demoConfig 1 straddleProgram (bootState (fun _ => 204))).pt
        (16 * 4096 + 4090) = 6 * 4096 + 4090 ∧
     vm_pa (psLoadWalk demoConfig 1 straddleProgram (bootState (fun _ => 204))).pt
        (16 * 4096 + 4090 + 6) = 8 * 4096 ∧
     (∀ seg, seg ∈ straddleProgram.segs →
        CopyReaches (psLoadWalk demoConfig 1 straddleProgram (bootState (fun _ => 204))).pt
          seg (7 * 4096) ∧
        ¬ CopyReaches (psLoadWalk demoConfig 1 straddleProgram (bootState (fun _ => 204))).pt
          seg (8 * 4096) ∧
        ¬ CopyInside (psLoadWalk demoConfig 1 straddleProgram (bootState (fun _ => 204))).pt
          straddleProgram seg)) := by
  set_option maxRecDepth 100000 in
  exact ⟨⟨by decide, by decide, by decide, by decide, by decide, by decide, by decide,
    by decide, by decide, by decide, by decide⟩,
    ⟨by decide, by decide, by decide, by decide, by decide, by decide⟩⟩

/-- The table a successful `process_setup` leaves in the slot: the table built by the
two walks with the stack page mapped on top. -/
theorem setupTable_entries (c : Config) (pid : Nat) (prog : Program) (s : KState)
    (h : SetupOk c pid prog s) :
    (setupTable c pid prog s).entries
      = setAt (psLoadWalk c pid prog s).pt.entries ((c.MEMSIZE_VIRTUAL - PAGESIZE) / PAGESIZE)
          ⟨(kalloc c PAGESIZE (psLoaded c pid prog s)).1 / PAGESIZE, PTE_PWU⟩ := by
  have e : setupTable c pid prog s = (psStackMap c pid prog s).pt := by
    unfold setupTable
    rw [process_setup_ok c pid prog s h]
    simp only [setPagetable, setAt, if_true]
  rw [e]
  exact try_map_ok_entries c _ _ _ _ _ h.2.2.2.2

/-- The page number of an address below the aligned `PROC_START_ADDR` is below that of
any address at or above it. -/
theorem vpn_lt_of_lt (c : Config) (va a : Nat) (hps : c.PROC_START_ADDR % PAGESIZE = 0)
    (hva : va < c.PROC_START_ADDR) (ha : c.PROC_START_ADDR ≤ a) :
    va / PAGESIZE < a / PAGESIZE := by
  have h1 := Nat.div_add_mod c.PROC_START_ADDR PAGESIZE
  have h2 := Nat.div_add_mod va PAGESIZE
  have h3 : c.PROC_START_ADDR / PAGESIZE ≤ a / PAGESIZE := Nat.div_le_div_right ha
  have h4 : va % PAGESIZE < PAGESIZE := Nat.mod_lt _ (by decide)
  rw [hps] at h1
  have h5 : va / PAGESIZE < c.PROC_START_ADDR / PAGESIZE := by
    by_contra hge
    have h6 : c.PROC_START_ADDR / PAGESIZE ≤ va / PAGESIZE := by omega
    have h7 := Nat.mul_le_mul_left PAGESIZE h6
    omega
  omega

/-- C22 (kernel mappings are copied, amended): after a successful
`process_setup(pid, ..)` the table `ptable[pid].pagetable` is the table (same
top-level frame) that the kernel-mapping copy loop (lines 202-214) has filled.  At
the end of that loop the table maps every page-aligned `va` below `PROC_START_ADDR`
that is present in `kernel_pagetable` to the same physical address with the same
permission bits as `kernel_pagetable`, and maps no page at or above
`PROC_START_ADDR`: no kernel mapping from there is copied.  The allocation loops
(lines 224-253) keep each copied mapping unless a loader segment names its page.
And when the segment copy loop (lines 256-263) writes only into frames that back
pages of the segments, the table `process_setup` leaves behind still maps every such
`va` that no segment names as `kernel_pagetable` does.  (`PROC_START_ADDR` is a
multiple of the page size and not above the stack page.) -/
theorem kernel_mappings_copied (c : Config) (pid : Nat) (prog : Program) (s : KState)
    (hok : SetupOk c pid prog s)
    (hps : c.PROC_START_ADDR % PAGESIZE = 0)
    (hstk : c.PROC_START_ADDR ≤ c.MEMSIZE_VIRTUAL - PAGESIZE) :
    (setupTable c pid prog s).root = (psKernelWalk c pid s).pt.root ∧
    (∀ va, va % PAGESIZE = 0 → va < c.PROC_START_ADDR →
      vm_present (kernel_pagetable c) va = true →
      vm_present (psKernelWalk c pid s).pt va = true ∧
      vm_pa (psKernelWalk c pid s).pt va = vm_pa (kernel_pagetable c) va ∧
      vm_perm (psKernelWalk c pid s).pt va = vm_perm (kernel_pagetable c) va) ∧
    (∀ va, va % PAGESIZE = 0 → c.PROC_START_ADDR ≤ va →
      vm_present (psKernelWalk c pid s).pt va = false) ∧
    (∀ va, va % PAGESIZE = 0 → va < c.PROC_START_ADDR →
      vm_present (kernel_pagetable c) va = true →
      (∀ aw, aw ∈ progPages prog → aw.1 / PAGESIZE ≠ va / PAGESIZE) →
      vm_present (psLoadWalk c pid prog s).pt va = true ∧
      vm_pa (psLoadWalk c pid prog s).pt va = vm_pa (kernel_pagetable c) va ∧
      vm_perm (psLoadWalk c pid prog s).pt va = vm_perm (kernel_pagetable c) va) ∧
    ((∀ seg, seg ∈ prog.segs → CopyInside (psLoadWalk c pid prog s).pt prog seg) →
      ∀ va, va % PAGESIZE = 0 → va < c.PROC_START_ADDR →
        vm_present (kernel_pagetable c) va = true →
        (∀ aw, aw ∈ progPages prog → aw.1 / PAGESIZE ≠ va / PAGESIZE) →
        vm_present (setupTable c pid prog s) va = true ∧
        vm_pa (setupTable c pid prog s) va = vm_pa (kernel_pagetable c) va ∧
        vm_perm (setupTable c pid prog s) va = vm_perm (kernel_pagetable c) va) := by
  have hkw : ∀ va, va % PAGESIZE = 0 → va < c.PROC_START_ADDR →
      vm_present (kernel_pagetable c) va = true →
      (psKernelWalk c pid s).pt.entries (va / PAGESIZE)
        = ⟨vm_pa (kernel_pagetable c) va / PAGESIZE, vm_perm (kernel_pagetable c) va⟩ := by
    intro va hva hlt hp
    have hvn : va / PAGESIZE * PAGESIZE = va := by
      have := Nat.div_add_mod va PAGESIZE
      rw [hva, Nat.mul_comm, Nat.add_zero] at this
      exact this
    have hid := kernel_identity c va hp
    have hcop : va / PAGESIZE * PAGESIZE < c.MEMSIZE_VIRTUAL ∧
        KernelCopied c (va / PAGESIZE * PAGESIZE) := by
      rw [hvn]
      refine ⟨by omega, ?_, hp⟩
      rw [hid]; exact hlt
    rw [psKernelWalk_entries c pid s hok.2.1, if_pos hcop, hvn]
  have hfin : ∀ (pt : PageTable) va, va % PAGESIZE = 0 →
      vm_present (kernel_pagetable c) va = true →
      pt.entries (va / PAGESIZE)
        = ⟨vm_pa (kernel_pagetable c) va / PAGESIZE, vm_perm (kernel_pagetable c) va⟩ →
      vm_present pt va = true ∧ vm_pa pt va = vm_pa (kernel_pagetable c) va ∧
      vm_perm pt va = vm_perm (kernel_pagetable c) va := by
    intro pt va hva hp he
    have hvn : va / PAGESIZE * PAGESIZE = va := by
      have := Nat.div_add_mod va PAGESIZE
      rw [hva, Nat.mul_comm, Nat.add_zero] at this
      exact this
    have hid := kernel_identity c va hp
    have h := vm_of_entry pt va _ _ hva he (vm_perm_present _ va hp)
    refine ⟨h.1, ?_, h.2.2.1⟩
    rw [h.2.1, hid, hvn]
  refine ⟨?_, ?_, ?_, ?_, ?_⟩
  · have e : setupTable c pid prog s = (psStackMap c pid prog s).pt := by
      unfold setupTable
      rw [process_setup_ok c pid prog s hok]
      simp only [setPagetable, setAt, if_true]
    rw [e]
    unfold psStackMap
    rw [try_map_root, psLoadWalk_root]
  · intro va hva hlt hp
    exact hfin _ va hva hp (hkw va hva hlt hp)
  · intro va hva hge
    have hvn : va / PAGESIZE * PAGESIZE = va := by
      have := Nat.div_add_mod va PAGESIZE
      rw [hva, Nat.mul_comm, Nat.add_zero] at this
      exact this
    have hnc : ¬ (va / PAGESIZE * PAGESIZE < c.MEMSIZE_VIRTUAL ∧
        KernelCopied c (va / PAGESIZE * PAGESIZE)) := by
      rw [hvn]
      intro h
      have hid := kernel_identity c va h.2.2
      have := h.2.1
      rw [hid] at this
      omega
    have he : (psKernelWalk c pid s).pt.entries (va / PAGESIZE) = ⟨0, Perm.none⟩ := by
      rw [psKernelWalk_entries c pid s hok.2.1, if_neg hnc]
    unfold vm_present
    rw [he]
    rfl
  · intro va hva hlt hp hseg
    apply hfin _ va hva hp
    rw [psLoadWalk_entries_other c pid prog s hok.2.2.1 _ hseg]
    exact hkw va hva hlt hp
  · intro _ va hva hlt hp hseg
    apply hfin _ va hva hp
    have hk1 : va / PAGESIZE ≠ (c.MEMSIZE_VIRTUAL - PAGESIZE) / PAGESIZE :=
      Nat.ne_of_lt (vpn_lt_of_lt c va _ hps hlt hstk)
    rw [setupTable_entries c pid prog s hok]
    simp only [setAt]
    rw [if_neg hk1, psLoadWalk_entries_other c pid prog s hok.2.2.1 _ hseg]
    exact hkw va hva hlt hp

theorem kernel_mappings_copied_witness :
    SetupOk demoConfig 1 demoProgram (bootState (fun _ => 204)) ∧
    demoConfig.PROC_START_ADDR % PAGESIZE = 0 ∧
    demoConfig.PROC_START_ADDR ≤ demoConfig.MEMSIZE_VIRTUAL - PAGESIZE ∧
    (∀ seg, seg ∈ demoProgram.segs →
      CopyInside (psLoadWalk demoConfig 1 demoProgram (bootState (fun _ => 204))).pt
        demoProgram seg) ∧
    (setupTable demoConfig 1 demoProgram (bootState (fun _ => 204))).root
      = (psKernelWalk demoConfig 1 (bootState (fun _ => 204))).pt.root ∧
    (∀ va, va % PAGESIZE = 0 → va < demoConfig.PROC_START_ADDR →
      vm_present (kernel_pagetable demoConfig) va = true →
      vm_present (psKernelWalk demoConfig 1 (bootState (fun _ => 204))).pt va = true ∧
      vm_pa (psKernelWalk demoConfig 1 (bootState (fun _ => 204))).pt va
        = vm_pa (kernel_pagetable demoConfig) va ∧
      vm_perm (psKernelWalk demoConfig 1 (bootState (fun _ => 204))).pt va
        = vm_perm (kernel_pagetable demoConfig) va) ∧
    vm_present (psKernelWalk demoConfig 1 (bootState (fun _ => 204))).pt (8 * 4096) = false ∧
    vm_pa (setupTable demoConfig 1 demoProgram (bootState (fun _ => 204))) (7 * 4096)
      = vm_pa (kernel_pagetable demoConfig) (7 * 4096) ∧
    vm_perm (setupTable demoConfig 1 demoProgram (bootState (fun _ => 204))) (7 * 4096)
      = vm_perm (kernel_pagetable demoConfig) (7 * 4096) :=
  have h := kernel_mappings_copied demoConfig 1 demoProgram (bootState (fun _ => 204))
    (by decide) (by decide) (by decide)
  have h5 := h.2.2.2.2 (by decide) (7 * 4096) (by decide) (by decide) (by decide) (by decide)
  ⟨by decide, by decide, by decide, by decide, h.1, h.2.1,
    h.2.2.1 (8 * 4096) (by decide) (by decide), h5.2.1, h5.2.2⟩

end Weensy

/-! ## Theorems: buffered I/O -/

namespace Io61

/-- C26 (io61_read return value) fails on the code: for a freshly opened read-only
file of 10 bytes and `sz = 100`, `io61_read` fills the cache, copies the 10 bytes of
the file into `buf` and advances the position (`cur_tag`) to 10, but returns 0: the
final `return nread + f->end_tag - f->cur_tag` is evaluated after `cur_tag` has been
set to `end_tag`.  The claim requires `min(100, 10 - 0) = 10`. -/
theorem io61_read_short_count_returns_zero :
    tenBytes.start_tag ≤ tenBytes.cur_tag ∧ tenBytes.cur_tag ≤ tenBytes.end_tag ∧
    (io61_read tenBytes (fun _ => 0) 100).1 = 0 ∧
    load (io61_read tenBytes (fun _ => 0) 100).2.1 0 10
      = [11, 12, 13, 14, 15, 16, 17, 18, 19, 20] ∧
    (io61_read tenBytes (fun _ => 0) 100).2.2.cur_tag = 10 ∧
    min 100 (tenBytes.fd.bytes.length - 0) = 10 := by
  decide

end Io61

/-! ## Theorems: debugging allocator -/

namespace M61

/-- After `m61_malloc(0)` succeeds with pointer `p`, the size table holds 0 for `p`. -/
theorem malloc_zero_meta (p : Nat) (st : State) (hp : p ≠ 0) :
    (m61_malloc 0 p st).1 = p ∧ (m61_malloc 0 p st).2.main_meta p = 0 := by
  unfold m61_malloc
  have h16 : ¬ u64 (0 + 16) < 0 := Nat.not_lt_zero _
  rw [if_neg h16, if_pos hp]
  simp only []
  split
  · exact ⟨rfl, by simp [setKey, toInt]⟩
  · exact ⟨rfl, by simp [setKey, toInt]⟩

/-- In every state, freeing the pointer `m61_malloc(0)` has just returned is rejected
as an invalid free. -/
theorem malloc_zero_free_rejected (p : Nat) (st : State) (hp : p ≠ 0) :
    m61_free p (m61_malloc 0 p st).2 = FreeResult.abort Bug.not_allocated ∨
    m61_free p (m61_malloc 0 p st).2 = FreeResult.abort Bug.not_in_heap := by
  have h := (malloc_zero_meta p st hp).2
  unfold m61_free
  rw [if_neg hp, if_pos h]
  split
  · exact Or.inl rfl
  · exact Or.inr rfl

/-- C27 (malloc/free round trip) fails on the code for `sz = 0`: `m61_malloc(0)`
with `base_malloc` returning the non-null pointer 4096 succeeds (one active
allocation) and stores the size 0 in `main_meta[p]`; the immediately following
`m61_free(p)` reads `main_meta[p] == 0` as "never allocated" and, `p` lying within
the heap bounds, reports an invalid free and aborts. -/
theorem malloc_zero_then_free_aborts :
    (m61_malloc 0 4096 State.init).1 = 4096 ∧
    (m61_malloc 0 4096 State.init).2.nactive = 1 ∧
    (m61_malloc 0 4096 State.init).2.main_meta 4096 = 0 ∧
    m61_free 4096 (m61_malloc 0 4096 State.init).2 = FreeResult.abort Bug.not_allocated :=
  ⟨by decide, by decide, by decide, rfl⟩

/-- C28 (calloc with zero element size) fails on the code: for every `nmemb`,
`m61_calloc(nmemb, 0, ..)` evaluates `18446744073709551615 / sz` with `sz == 0` in
its overflow check and is stopped by the division by zero before any allocation is
made or counted. -/
theorem calloc_zero_size_divides_by_zero (nmemb p : Nat) (st : State) :
    m61_calloc nmemb 0 p st = CallocResult.divide_error := by
  unfold m61_calloc
  rw [if_pos rfl]

end M61
